import Mathlib

/-!
Verification development for the Kinetica Avro-compatible binary codec
(`src/protocol/` of the kinetica-api-python C extension).

The C sources are shallowly embedded: byte buffers become `List Nat`
(each element one byte, `< 256`), the `(cursor, limit)` pairs become
`(pos max : Nat)` indices into that list, machine integers become `Nat`/`Int`
with explicit reduction `% 2 ^ w` where the C truncates, and fallible
operations return explicit result types carrying the `AvroErrorCode`.
Reads model `uint8_t** pos` advancement by returning the new position;
writes return the emitted bytes together with the new position.

Value-driven C loops are written with a structural step-count argument
whose concrete value mirrors the C bound justifying the loop's termination
(for instance the 10-entry `uint8_t buf[10]` of `write_long`); this keeps
every definition kernel-computable.

Python-level values (used by the Schema engine) are embedded as an inductive
`PyVal`; reference-count bookkeeping, the GIL, and memory allocation are out
of scope (allocation is assumed to succeed), matching the specification's
scope.  Text is carried as its UTF-8 byte list.
-/

namespace Kinetica

/-- `AvroErrorCode` from avro.h. -/
inductive AvroErr where
  | none
  | oom
  | eof
  | overflow
deriving DecidableEq, Repr

/-- Result of a read-style C function: either the value together with the
advanced cursor, or an error code (on error the C leaves outputs untouched,
so no partial value is carried). -/
inductive RRes (α : Type) where
  | ok (a : α) (pos : Nat)
  | err (e : AvroErr)
deriving DecidableEq, Repr

/-- Result of a write-style C function: the emitted bytes and the advanced
cursor, or an error code. -/
inductive WRes where
  | ok (bytes : List Nat) (pos : Nat)
  | err (e : AvroErr)
deriving DecidableEq, Repr

/-! ## Machine-integer helpers

Two's-complement views used where the C code mixes signed and unsigned
64/32-bit arithmetic. -/

/-- A value reinterpreted as `uint64_t` (i.e. reduced mod `2^64`, nonnegative). -/
def u64 (x : Int) : Nat := (x % (2 ^ 64 : Nat)).toNat

/-- A value reinterpreted as `uint32_t`. -/
def u32 (x : Int) : Nat := (x % (2 ^ 32 : Nat)).toNat

/-- A bit pattern reinterpreted as `int64_t`. -/
def toInt64 (n : Nat) : Int :=
  if n % 2 ^ 64 < 2 ^ 63 then ((n % 2 ^ 64 : Nat) : Int)
  else ((n % 2 ^ 64 : Nat) : Int) - 2 ^ 64

/-- A bit pattern reinterpreted as `int32_t`. -/
def toInt32 (n : Nat) : Int :=
  if n % 2 ^ 32 < 2 ^ 31 then ((n % 2 ^ 32 : Nat) : Int)
  else ((n % 2 ^ 32 : Nat) : Int) - 2 ^ 32

/-! ## Avro varint primitives (avro.c) -/

/-- The zig-zag mapping `(l << 1) ^ (l >> 63)` computed in `uint64_t`, as in
`size_long` and `write_long` (avro.c).  For an `int64` argument the
arithmetic right shift by 63 yields all-ones exactly when `l` is negative. -/
def zigzag64 (l : Int) : Nat :=
  (u64 (2 * l)) ^^^ (if l < 0 then 2 ^ 64 - 1 else 0)

/-- Loop of `size_long` (avro.c): count the 7-bit groups above the lowest.
The step count 10 covers every `uint64_t` value (10 groups carry 70 bits),
matching the 10-byte maximum of the wire format. -/
def size_long_go : Nat → Nat → Nat
  | 0, _ => 0
  | steps + 1, n => if n < 0x80 then 0 else 1 + size_long_go steps (n >>> 7)

/-- `size_long` (avro.c): exact byte count of the varint encoding of `l`. -/
def size_long (l : Int) : Nat := size_long_go 10 (zigzag64 l) + 1

/-- The byte list built by the loop of `write_long` (avro.c) from the zig-zag
value `n`: little-endian base-128 groups, continuation bit `0x80` on all but
the final group.  The step count 10 mirrors the C's `uint8_t buf[10]`, which
suffices for every `uint64_t` value. -/
def varint_go : Nat → Nat → List Nat
  | 0, n => [n]
  | steps + 1, n =>
      if n < 0x80 then [n]
      else ((n &&& 0x7F) ||| 0x80) :: varint_go steps (n >>> 7)

/-- The full byte list emitted by `write_long` (avro.c) for `l`. -/
def varint_bytes (n : Nat) : List Nat := varint_go 10 n

/-- `write_long` (avro.c): emit the varint of `l`, or `ERR_EOF` when it does
not fit before `max`. -/
def write_long (pos max : Nat) (l : Int) : WRes :=
  let buf := varint_bytes (zigzag64 l)
  if pos + buf.length > max then .err .eof
  else .ok buf (pos + buf.length)

/-- `write_int` (avro.c) forwards to `write_long`. -/
def write_int (pos max : Nat) (i : Int) : WRes := write_long pos max i

/-- `write_size` (avro.c) forwards to `write_long`. -/
def write_size (pos max : Nat) (l : Int) : WRes := write_long pos max l

/-- The do-while loop of `read_long` (avro.c).  Each iteration ORs the next
7-bit group into the `uint64_t` accumulator.  `offset` is the C loop
variable; `remaining` is `max_offset - offset`, the structural measure (the
loop exit test `offset == max_offset` becomes `remaining = 0`).  Returns the
accumulator and the byte count consumed. -/
def read_long_go (buf : List Nat) (pos : Nat) :
    (offset remaining : Nat) → (value : Nat) → RRes Nat
  | offset, 0, _ =>
      if offset = 10 then .err .overflow else .err .eof
  | offset, remaining + 1, value =>
      let b := buf.getD (pos + offset) 0
      let value := (value ||| ((b &&& 0x7F) <<< (7 * offset))) % 2 ^ 64
      if b &&& 0x80 ≠ 0 then
        read_long_go buf pos (offset + 1) remaining value
      else
        .ok value (offset + 1)

/-- `read_long` (avro.c): decode a zig-zag varint into an `int64`. The
returned position is the advanced cursor. -/
def read_long (buf : List Nat) (pos max : Nat) : RRes Int :=
  let max_offset := Nat.min (max - pos) 10
  match read_long_go buf pos 0 max_offset 0 with
  | .ok value offset =>
      .ok (toInt64 ((value >>> 1) ^^^ (if value % 2 = 1 then 2 ^ 64 - 1 else 0)))
        (pos + offset)
  | .err e => .err e

/-- The do-while loop of `read_int` (avro.c): like `read_long_go` but the
accumulator is a `uint32_t`, so each OR-assignment truncates mod `2^32`,
and the overflow bound is 5 bytes. -/
def read_int_go (buf : List Nat) (pos : Nat) :
    (offset remaining : Nat) → (value : Nat) → RRes Nat
  | offset, 0, _ =>
      if offset = 5 then .err .overflow else .err .eof
  | offset, remaining + 1, value =>
      let b := buf.getD (pos + offset) 0
      let value := (value ||| ((b &&& 0x7F) <<< (7 * offset))) % 2 ^ 32
      if b &&& 0x80 ≠ 0 then
        read_int_go buf pos (offset + 1) remaining value
      else
        .ok value (offset + 1)

/-- `read_int` (avro.c): decode a zig-zag varint into an `int32` (stored in a
C `long`). -/
def read_int (buf : List Nat) (pos max : Nat) : RRes Int :=
  let max_offset := Nat.min (max - pos) 5
  match read_int_go buf pos 0 max_offset 0 with
  | .ok value offset =>
      .ok (toInt32 ((value >>> 1) ^^^ (if value % 2 = 1 then 2 ^ 32 - 1 else 0)))
        (pos + offset)
  | .err e => .err e

/-- `read_size` (avro.c): `read_long` with a `Py_ssize_t` range check; on a
64-bit host `Py_ssize_t` and `PY_LONG_LONG` coincide so the check is a no-op. -/
def read_size (buf : List Nat) (pos max : Nat) : RRes Int :=
  read_long buf pos max

/-- `skip_long` (avro.c). -/
def skip_long (buf : List Nat) (pos max : Nat) : RRes Unit :=
  match read_long buf pos max with
  | .ok _ p => .ok () p
  | .err e => .err e

/-- `read_bytes_len` (avro.c): read a length, reject negatives, and require
the data to fit before `max`. -/
def read_bytes_len (buf : List Nat) (pos max : Nat) : RRes Int :=
  match read_size buf pos max with
  | .err e => .err e
  | .ok temp_len p =>
      if temp_len < 0 then .err .overflow
      else if (p : Int) + temp_len > (max : Int) then .err .eof
      else .ok temp_len p

-- Sanity examples (spec §8 scenario 1).
example : write_long 0 10 0 = .ok [0x00] 1 := by decide
example : write_long 0 10 (-1) = .ok [0x01] 1 := by decide
example : write_long 0 10 1 = .ok [0x02] 1 := by decide
example : write_long 0 10 150 = .ok [0xAC, 0x02] 2 := by decide
example : read_long [0xAC, 0x02] 0 2 = .ok 150 2 := by decide
example : size_long 150 = 2 := by decide

/-! ## Varint lemmas -/

theorem and_7F (n : Nat) : n &&& 0x7F = n % 0x80 := by
  simpa using Nat.and_pow_two_sub_one_eq_mod n 7

theorem and_80_of_lt {n : Nat} (h : n < 0x80) : n &&& 0x80 = 0 := by
  have h2 := Nat.and_two_pow n 7
  have h3 : n.testBit 7 = false := Nat.testBit_lt_two_pow (by norm_num; omega)
  rw [h3] at h2
  norm_num at h2
  exact h2

theorem cont_byte_and_80 (n : Nat) : (((n &&& 0x7F) ||| 0x80) &&& 0x80) = 0x80 := by
  rw [Nat.and_distrib_right]
  have h1 : (n &&& 0x7F) &&& 0x80 = 0 := by
    rw [Nat.and_assoc]
    have h127 : (127 : Nat) &&& 128 = 0 := by decide
    rw [show ((0x7F : Nat) &&& 0x80) = 0 from h127, Nat.and_zero]
  rw [h1]
  have : (0x80 : Nat) &&& 0x80 = 0x80 := by decide
  rw [this, Nat.zero_or]

theorem cont_byte_and_7F (n : Nat) : (((n &&& 0x7F) ||| 0x80) &&& 0x7F) = n % 0x80 := by
  rw [Nat.and_distrib_right]
  have h2 : (0x80 : Nat) &&& 0x7F = 0 := by decide
  rw [h2, Nat.or_zero, Nat.and_assoc]
  have h3 : (0x7F : Nat) &&& 0x7F = 0x7F := by decide
  rw [h3, and_7F]

/-- Disjoint OR is addition: used to peel 7-bit groups off the accumulator. -/
theorem or_shift_eq_add {value n k : Nat} (hv : value < 2 ^ k) :
    value ||| (n <<< k) = n * 2 ^ k + value := by
  rw [Nat.shiftLeft_eq, Nat.or_comm, mul_comm]
  exact (Nat.mul_add_lt_is_or hv n).symm

/-- XOR with an all-ones mask is complement (for values below the mask). -/
theorem xor_all_ones {n x : Nat} (h : x < 2 ^ n) :
    x ^^^ (2 ^ n - 1) = 2 ^ n - 1 - x := by
  induction n generalizing x with
  | zero =>
      have hx : x = 0 := by omega
      subst hx; decide
  | succ n ih =>
      have hpow : (2 : Nat) ^ (n + 1) = 2 * 2 ^ n := by rw [pow_succ]; ring
      have hx2 : x / 2 < 2 ^ n := by omega
      have hd : (x ^^^ (2 ^ (n + 1) - 1)) / 2 = (x / 2) ^^^ (2 ^ n - 1) := by
        rw [Nat.xor_div_two]
        congr 1
        omega
      have hb : (2 ^ (n + 1) - 1) % 2 = 1 := by
        have : (0 : Nat) < 2 ^ n := Nat.pos_pow_of_pos n (by norm_num)
        omega
      have hm : (x ^^^ (2 ^ (n + 1) - 1)) % 2 = 1 - x % 2 := by
        rcases Nat.mod_two_eq_zero_or_one x with hx | hx
        · have h1 : ((x ^^^ (2 ^ (n + 1) - 1)) % 2 = 1) := by
            rw [Nat.xor_mod_two_eq_one]
            simp [hx, hb]
          omega
        · have h1 : ¬((x ^^^ (2 ^ (n + 1) - 1)) % 2 = 1) := by
            rw [Nat.xor_mod_two_eq_one]
            simp [hx, hb]
          omega
      have hih := ih hx2
      have hsplit := Nat.div_add_mod (x ^^^ (2 ^ (n + 1) - 1)) 2
      rw [hd, hih] at hsplit
      have hxsplit := Nat.div_add_mod x 2
      have hpos : (0 : Nat) < 2 ^ n := Nat.pos_pow_of_pos n (by norm_num)
      omega

/-- The byte list of `write_long` always has the length computed by
`size_long`'s loop (plus the final byte). -/
theorem varint_go_length (steps n : Nat) :
    (varint_go steps n).length = size_long_go steps n + 1 := by
  induction steps generalizing n with
  | zero => simp [varint_go, size_long_go]
  | succ steps ih =>
      by_cases h : n < 0x80
      · simp [varint_go, size_long_go, h]
      · simp only [varint_go, size_long_go, h, if_false, List.length_cons, ih]
        omega

theorem varint_bytes_length (n : Nat) :
    (varint_bytes n).length = size_long_go 10 n + 1 :=
  varint_go_length 10 n

/-- The byte count of a varint for a value below `2 ^ (7 * k)` is at most
`k` (with any step budget). -/
theorem size_long_go_le (k : Nat) : ∀ (steps n : Nat), n < 2 ^ (7 * (k + 1)) →
    size_long_go steps n ≤ k := by
  induction k with
  | zero =>
      intro steps n h
      norm_num at h
      match steps with
      | 0 => simp [size_long_go]
      | steps + 1 => simp [size_long_go, h]
  | succ k ih =>
      intro steps n h
      match steps with
      | 0 => simp [size_long_go]
      | steps + 1 =>
          by_cases h80 : n < 0x80
          · simp [size_long_go, h80]
          · have hdiv : n >>> 7 < 2 ^ (7 * (k + 1)) := by
              rw [Nat.shiftRight_eq_div_pow]
              rw [Nat.div_lt_iff_lt_mul (by norm_num)]
              calc n < 2 ^ (7 * (k + 2)) := h
                _ = 2 ^ (7 * (k + 1)) * 2 ^ 7 := by rw [← pow_add]; ring_nf
            simp only [size_long_go, h80, if_false]
            have := ih steps (n >>> 7) hdiv
            omega

theorem mul_pow_succ_le {n K M : Nat} (_hK : 0 < K) (hd : K ∣ M) (h : n * K < M) :
    (n + 1) * K ≤ M := by
  obtain ⟨q, rfl⟩ := hd
  have : n < q := by
    by_contra hc
    push_neg at hc
    have : K * q ≤ n * K := by calc K * q = q * K := by ring
                                    _ ≤ n * K := Nat.mul_le_mul_right K hc
    omega
  calc (n + 1) * K ≤ q * K := Nat.mul_le_mul_right K this
    _ = K * q := by ring

/-- Final (continuation-clear) byte of the `read_long` loop. -/
theorem read_long_go_last (buf : List Nat) (pos offset value remaining n : Nat)
    (hn : n < 0x80) (htr : n * 2 ^ (7 * offset) < 2 ^ 64)
    (hv : value < 2 ^ (7 * offset)) (ho : 7 * offset ≤ 63)
    (hb : buf.getD (pos + offset) 0 = n) (hrem : 1 ≤ remaining) :
    read_long_go buf pos offset remaining value =
      .ok (n * 2 ^ (7 * offset) + value) (offset + 1) := by
  match remaining, hrem with
  | remaining + 1, _ =>
      simp only [read_long_go, hb]
      have h7F : n &&& 0x7F = n := by rw [and_7F]; omega
      have h80 : n &&& 0x80 = 0 := and_80_of_lt hn
      rw [h7F, h80]
      simp only [ne_eq, not_true_eq_false, if_false]
      have hstep : n * 2 ^ (7 * offset) + 2 ^ (7 * offset) ≤ 2 ^ 64 := by
        have h2 := mul_pow_succ_le (n := n) (K := 2 ^ (7 * offset)) (M := 2 ^ 64)
          (Nat.pos_pow_of_pos _ (by norm_num))
          (pow_dvd_pow 2 (by omega)) htr
        rw [Nat.add_mul, one_mul] at h2
        exact h2
      have hlt : value ||| (n <<< (7 * offset)) < 2 ^ 64 := by
        rw [or_shift_eq_add hv]
        omega
      rw [Nat.mod_eq_of_lt hlt, or_shift_eq_add hv]

/-- The `read_long` loop, fed the bytes written by `write_long`'s loop for a
value `n` small enough not to truncate, reconstructs `n` shifted into place. -/
theorem read_long_go_varint (steps : Nat) :
    ∀ (n : Nat) (buf : List Nat) (pos offset value remaining : Nat),
      n < 2 ^ (7 * (steps + 1)) →
      n * 2 ^ (7 * offset) < 2 ^ 64 →
      value < 2 ^ (7 * offset) →
      7 * offset ≤ 63 →
      (∀ k, k < (varint_go steps n).length →
        buf.getD (pos + offset + k) 0 = (varint_go steps n).getD k 0) →
      (varint_go steps n).length ≤ remaining →
      read_long_go buf pos offset remaining value =
        .ok (n * 2 ^ (7 * offset) + value) (offset + (varint_go steps n).length) := by
  induction steps with
  | zero =>
      intro n buf pos offset value remaining hn htr hv ho hbytes hrem
      norm_num at hn
      simp only [varint_go, List.length_cons, List.length_nil] at hbytes hrem ⊢
      have hb : buf.getD (pos + offset) 0 = n := by
        have := hbytes 0 (by omega)
        simpa using this
      rw [read_long_go_last buf pos offset value remaining n hn htr hv ho hb (by omega)]
  | succ steps ih =>
      intro n buf pos offset value remaining hn htr hv ho hbytes hrem
      by_cases h80 : n < 0x80
      · simp only [varint_go, h80, if_true, List.length_cons, List.length_nil]
          at hbytes hrem ⊢
        have hb : buf.getD (pos + offset) 0 = n := by
          have := hbytes 0 (by omega)
          simpa using this
        rw [read_long_go_last buf pos offset value remaining n h80 htr hv ho hb (by omega)]
      · -- continuation byte then recurse
        simp only [varint_go, h80, if_false, List.length_cons] at hbytes hrem ⊢
        match remaining, hrem with
        | remaining + 1, hrem =>
            have hb : buf.getD (pos + offset) 0 = ((n &&& 0x7F) ||| 0x80) := by
              have := hbytes 0 (by omega)
              simpa using this
            simp only [read_long_go, hb]
            rw [cont_byte_and_7F, cont_byte_and_80]
            simp only [ne_eq, OfNat.ofNat_ne_zero, not_false_eq_true, if_true]
            -- bounds for the recursive call
            have hoff9 : 7 * offset + 7 ≤ 63 := by
              by_contra hc
              push_neg at hc
              have h1 : (2 : Nat) ^ 7 * 2 ^ (7 * offset) ≤ n * 2 ^ (7 * offset) :=
                Nat.mul_le_mul_right _ (by omega)
              rw [← pow_add] at h1
              have h2 : (2 : Nat) ^ 64 ≤ 2 ^ (7 + 7 * offset) :=
                Nat.pow_le_pow_right (by norm_num) (by omega)
              omega
            have hmul : (2 : Nat) ^ (7 * (offset + 1)) = 0x80 * 2 ^ (7 * offset) := by
              rw [show (0x80 : Nat) = 2 ^ 7 by norm_num, ← pow_add]
              congr 1; ring
            have hvalue' : (n % 0x80) * 2 ^ (7 * offset) + value < 2 ^ (7 * (offset + 1)) := by
              have hle : (n % 0x80) * 2 ^ (7 * offset) + value <
                  (n % 0x80 + 1) * 2 ^ (7 * offset) := by
                rw [Nat.add_mul, one_mul]
                omega
              calc (n % 0x80) * 2 ^ (7 * offset) + value
                  < (n % 0x80 + 1) * 2 ^ (7 * offset) := hle
                _ ≤ 0x80 * 2 ^ (7 * offset) := Nat.mul_le_mul_right _ (by omega)
                _ = 2 ^ (7 * (offset + 1)) := hmul.symm
            have hmod : (value ||| ((n % 0x80) <<< (7 * offset))) % 2 ^ 64 =
                (n % 0x80) * 2 ^ (7 * offset) + value := by
              rw [or_shift_eq_add hv]
              apply Nat.mod_eq_of_lt
              calc (n % 0x80) * 2 ^ (7 * offset) + value < 2 ^ (7 * (offset + 1)) := hvalue'
                _ ≤ 2 ^ 64 := Nat.pow_le_pow_right (by norm_num) (by omega)
            rw [hmod]
            have hshift : n >>> 7 = n / 0x80 := by
              simp [Nat.shiftRight_eq_div_pow]
            have hdivtr : n / 0x80 * 2 ^ (7 * (offset + 1)) ≤ n * 2 ^ (7 * offset) := by
              calc n / 0x80 * 2 ^ (7 * (offset + 1))
                  = n / 0x80 * (0x80 * 2 ^ (7 * offset)) := by rw [hmul]
                _ = (n / 0x80 * 0x80) * 2 ^ (7 * offset) := by ring
                _ ≤ n * 2 ^ (7 * offset) :=
                    Nat.mul_le_mul_right _ (Nat.div_mul_le_self n 0x80)
            have hrec := ih (n >>> 7) buf pos (offset + 1)
              ((n % 0x80) * 2 ^ (7 * offset) + value) remaining
              (by rw [hshift]
                  rw [Nat.div_lt_iff_lt_mul (by norm_num)]
                  calc n < 2 ^ (7 * (steps + 2)) := hn
                    _ = 2 ^ (7 * (steps + 1)) * 0x80 := by
                        have h72 : 7 * (steps + 2) = 7 * (steps + 1) + 7 := by ring
                        rw [h72, pow_add]; norm_num)
              (by rw [hshift]; omega)
              hvalue'
              (by omega)
              (by intro k hk
                  have := hbytes (k + 1) (by omega)
                  simpa [Nat.add_assoc, Nat.add_comm, Nat.add_left_comm] using this)
              (by omega)
            rw [hrec]
            congr 1
            · rw [hshift]
              have he : n / 0x80 * 2 ^ (7 * (offset + 1)) =
                  (n / 0x80 * 0x80) * 2 ^ (7 * offset) := by
                rw [hmul]; ring
              rw [he]
              have hsplit : n / 0x80 * 0x80 + n % 0x80 = n := by omega
              calc n / 0x80 * 0x80 * 2 ^ (7 * offset) + ((n % 0x80) * 2 ^ (7 * offset) + value)
                  = (n / 0x80 * 0x80 + n % 0x80) * 2 ^ (7 * offset) + value := by ring
                _ = n * 2 ^ (7 * offset) + value := by rw [hsplit]
            · omega

/-- All-continuation bytes drive the `read_long` loop to exhaustion; the C
reports `ERR_OVERFLOW` exactly when 10 bytes were available. -/
theorem read_long_go_allcont (buf : List Nat) (pos : Nat) :
    ∀ (remaining offset value : Nat),
      (∀ k, k < remaining → buf.getD (pos + offset + k) 0 &&& 0x80 ≠ 0) →
      read_long_go buf pos offset remaining value =
        (if offset + remaining = 10 then .err .overflow else .err .eof) := by
  intro remaining
  induction remaining with
  | zero =>
      intro offset value _
      simp [read_long_go]
  | succ remaining ih =>
      intro offset value hcont
      have hb := hcont 0 (by omega)
      simp only [Nat.add_zero] at hb
      simp only [read_long_go, hb, if_pos hb]
      rw [ih (offset + 1) _ (by
        intro k hk
        have := hcont (k + 1) (by omega)
        simpa [Nat.add_assoc, Nat.add_comm, Nat.add_left_comm] using this)]
      have : offset + 1 + remaining = offset + (remaining + 1) := by omega
      rw [this]

theorem zigzag64_lt (l : Int) : zigzag64 l < 2 ^ 64 := by
  apply Nat.xor_lt_two_pow
  · show u64 (2 * l) < 2 ^ 64
    unfold u64
    have h1 : (0 : Int) ≤ (2 * l) % ((2 ^ 64 : Nat) : Int) := Int.emod_nonneg _ (by positivity)
    have h2 : (2 * l) % ((2 ^ 64 : Nat) : Int) < ((2 ^ 64 : Nat) : Int) :=
      Int.emod_lt_of_pos _ (by positivity)
    omega
  · split <;> simp

theorem zigzag64_eq (l : Int) (h1 : -2 ^ 63 ≤ l) (h2 : l < 2 ^ 63) :
    zigzag64 l = if 0 ≤ l then (2 * l).toNat else (-2 * l - 1).toNat := by
  unfold zigzag64 u64
  have hcast : ((2 ^ 64 : Nat) : Int) = 2 ^ 64 := by norm_num
  by_cases hl : 0 ≤ l
  · have hmod : (2 * l) % ((2 ^ 64 : Nat) : Int) = 2 * l := by
      rw [hcast]; omega
    rw [hmod, if_neg (by omega), if_pos hl, Nat.xor_zero]
  · have hmod : (2 * l) % ((2 ^ 64 : Nat) : Int) = 2 * l + 2 ^ 64 := by
      rw [hcast]; omega
    rw [hmod, if_pos (by omega), if_neg hl]
    have hx : (2 * l + 2 ^ 64).toNat < 2 ^ 64 := by omega
    rw [xor_all_ones hx]
    omega

/-- The decode arithmetic of `read_long` inverts the zig-zag mapping on the
`int64` range. -/
theorem unzigzag_zigzag (l : Int) (h1 : -2 ^ 63 ≤ l) (h2 : l < 2 ^ 63) :
    toInt64 ((zigzag64 l >>> 1) ^^^
      (if zigzag64 l % 2 = 1 then 2 ^ 64 - 1 else 0)) = l := by
  rw [zigzag64_eq l h1 h2]
  by_cases hl : 0 ≤ l
  · rw [if_pos hl]
    have hz : (2 * l).toNat = 2 * l.toNat := by omega
    have hmod : (2 * l).toNat % 2 = 0 := by omega
    rw [if_neg (by omega), Nat.xor_zero]
    have hshift : (2 * l).toNat >>> 1 = l.toNat := by
      rw [Nat.shiftRight_eq_div_pow]
      omega
    rw [hshift]
    unfold toInt64
    have hlt : l.toNat < 2 ^ 63 := by omega
    rw [if_pos (by omega), Nat.mod_eq_of_lt (by omega)]
    omega
  · rw [if_neg hl]
    have hodd : (-2 * l - 1).toNat % 2 = 1 := by omega
    rw [if_pos hodd]
    have hshift : (-2 * l - 1).toNat >>> 1 = (-l - 1).toNat := by
      rw [Nat.shiftRight_eq_div_pow]
      omega
    rw [hshift]
    have hx : (-l - 1).toNat < 2 ^ 64 := by omega
    rw [xor_all_ones hx]
    unfold toInt64
    have hlt : 2 ^ 64 - 1 - (-l - 1).toNat < 2 ^ 64 := by omega
    rw [Nat.mod_eq_of_lt hlt, if_neg (by omega)]
    omega

theorem varint_bytes_le_ten {n : Nat} (h : n < 2 ^ 64) :
    (varint_bytes n).length ≤ 10 := by
  rw [varint_bytes_length]
  have := size_long_go_le 9 10 n (by
    calc n < 2 ^ 64 := h
      _ ≤ 2 ^ (7 * 10) := Nat.pow_le_pow_right (by norm_num) (by norm_num))
  omega

theorem size_long_eq_length (l : Int) :
    size_long l = (varint_bytes (zigzag64 l)).length := by
  rw [varint_bytes_length, size_long]

/-- Elements of the middle section of a three-part append. -/
theorem getD_append_middle (pre mid post : List Nat) (k : Nat) (hk : k < mid.length) :
    (pre ++ mid ++ post).getD (pre.length + k) 0 = mid.getD k 0 := by
  rw [List.append_assoc]
  rw [List.getD_eq_getElem?_getD, List.getD_eq_getElem?_getD]
  rw [List.getElem?_append_right (by omega)]
  have hidx : pre.length + k - pre.length = k := by omega
  rw [hidx]
  rw [List.getElem?_append_left hk]

/-- `read_long` at an arbitrary position: decoding the `write_long` byte
sequence of `l` embedded between arbitrary buffer sections returns `l` and
advances the cursor by exactly `size_long l`. -/
theorem read_long_at (l : Int) (pre post : List Nat) (max : Nat)
    (hlo : -2 ^ 63 ≤ l) (hhi : l < 2 ^ 63)
    (hroom : pre.length + size_long l ≤ max) :
    read_long (pre ++ varint_bytes (zigzag64 l) ++ post) pre.length max =
      .ok l (pre.length + size_long l) := by
  have hlen := size_long_eq_length l
  simp only [read_long]
  have hz := zigzag64_lt l
  have hle10 := varint_bytes_le_ten hz
  have hminmax : Nat.min (max - pre.length) 10 ≥ (varint_bytes (zigzag64 l)).length := by
    simp only [Nat.min_def]
    split <;> omega
  have hgo := read_long_go_varint 10 (zigzag64 l)
    (pre ++ varint_bytes (zigzag64 l) ++ post) pre.length 0 0
    (Nat.min (max - pre.length) 10)
    (by calc zigzag64 l < 2 ^ 64 := hz
          _ ≤ 2 ^ (7 * 11) := Nat.pow_le_pow_right (by norm_num) (by norm_num))
    (by simpa using hz)
    (by norm_num)
    (by norm_num)
    (by intro k hk
        have := getD_append_middle pre (varint_bytes (zigzag64 l)) post k hk
        simpa using this)
    hminmax
  rw [hgo]
  simp only [Nat.mul_zero, pow_zero, Nat.mul_one, Nat.add_zero, Nat.zero_add]
  rw [unzigzag_zigzag l hlo hhi, hlen]
  simp [varint_bytes]

/-- C7: `read_long` decodes every 64-bit signed value written by `write_long`
(round-trip, with the cursor advanced by exactly `size_long l` bytes, for any
surrounding buffer contents and any window large enough); an input whose
first 10 bytes all carry the continuation bit yields `ERR_OVERFLOW`; and a
truncated varint (continuation bits running into the end of a window shorter
than 10 bytes) yields `ERR_EOF`. -/
theorem read_long_write_long_roundtrip_overflow_eof :
    (∀ (l : Int) (pre post : List Nat) (max : Nat),
      -2 ^ 63 ≤ l → l < 2 ^ 63 →
      pre.length + size_long l ≤ max →
      write_long pre.length max l =
        .ok (varint_bytes (zigzag64 l)) (pre.length + size_long l) ∧
      read_long (pre ++ varint_bytes (zigzag64 l) ++ post) pre.length max =
        .ok l (pre.length + size_long l)) ∧
    (∀ (buf : List Nat) (pos max : Nat),
      pos + 10 ≤ max →
      (∀ k, k < 10 → buf.getD (pos + k) 0 &&& 0x80 ≠ 0) →
      read_long buf pos max = .err .overflow) ∧
    (∀ (buf : List Nat) (pos max : Nat),
      max - pos < 10 →
      (∀ k, k < max - pos → buf.getD (pos + k) 0 &&& 0x80 ≠ 0) →
      read_long buf pos max = .err .eof) := by
  refine ⟨?_, ?_, ?_⟩
  · intro l pre post max hlo hhi hroom
    have hlen := size_long_eq_length l
    refine ⟨?_, read_long_at l pre post max hlo hhi hroom⟩
    unfold write_long
    rw [if_neg (by omega)]
    rw [hlen]
  · intro buf pos max hroom hcont
    simp only [read_long]
    have hmin : Nat.min (max - pos) 10 = 10 := by
      simp only [Nat.min_def]
      split <;> omega
    rw [hmin]
    rw [read_long_go_allcont buf pos 10 0 0 (by
      intro k hk
      have := hcont k (by omega)
      simpa using this)]
    norm_num
  · intro buf pos max hshort hcont
    simp only [read_long]
    have hmin : Nat.min (max - pos) 10 = max - pos := by
      simp only [Nat.min_def]
      split <;> omega
    rw [hmin]
    rw [read_long_go_allcont buf pos (max - pos) 0 0 (by
      intro k hk
      have := hcont k (by omega)
      simpa using this)]
    rw [if_neg (by omega)]

/-- Witness for C7 at concrete inputs: the round-trip at `l = 150`
(scenario 1 of the specification), a 10-continuation-byte overflow, and a
truncated one-byte window. -/
theorem read_long_write_long_roundtrip_overflow_eof_witness :
    (write_long (List.length ([] : List Nat)) 2 150 =
        .ok (varint_bytes (zigzag64 150)) (List.length ([] : List Nat) + size_long 150) ∧
      read_long ([] ++ varint_bytes (zigzag64 150) ++ []) (List.length ([] : List Nat)) 2 =
        .ok 150 (List.length ([] : List Nat) + size_long 150)) ∧
    read_long (List.replicate 10 0x80) 0 10 = .err .overflow ∧
    read_long [0x80] 0 1 = .err .eof := by
  refine ⟨?_, ?_, ?_⟩
  · exact read_long_write_long_roundtrip_overflow_eof.1 150 [] [] 2
      (by norm_num) (by norm_num) (by decide)
  · exact read_long_write_long_roundtrip_overflow_eof.2.1 (List.replicate 10 0x80) 0 10
      (by norm_num) (by decide)
  · exact read_long_write_long_roundtrip_overflow_eof.2.2 [0x80] 0 1
      (by norm_num) (by decide)

/-- The `read_int` loop never consumes more bytes than `remaining`. -/
theorem read_int_go_pos_le :
    ∀ (remaining : Nat) (buf : List Nat) (pos offset value v p : Nat),
      read_int_go buf pos offset remaining value = .ok v p → p ≤ offset + remaining := by
  intro remaining
  induction remaining with
  | zero =>
      intro buf pos offset value v p h
      simp only [read_int_go] at h
      split at h <;> simp_all
  | succ remaining ih =>
      intro buf pos offset value v p h
      simp only [read_int_go] at h
      split at h
      · have := ih buf pos (offset + 1) _ v p h
        omega
      · simp only [RRes.ok.injEq] at h
        omega

/-- One continuation-byte iteration of the `read_int` loop. -/
theorem read_int_go_step (buf : List Nat) (pos offset remaining value b : Nat)
    (hb : buf.getD (pos + offset) 0 = b) (hcont : b &&& 0x80 ≠ 0) :
    read_int_go buf pos offset (remaining + 1) value =
      read_int_go buf pos (offset + 1) remaining
        ((value ||| ((b &&& 0x7F) <<< (7 * offset))) % 2 ^ 32) := by
  simp only [read_int_go, hb, hcont, ne_eq, not_false_eq_true, if_true]

/-- The final (continuation-clear) iteration of the `read_int` loop. -/
theorem read_int_go_fin (buf : List Nat) (pos offset remaining value b : Nat)
    (hb : buf.getD (pos + offset) 0 = b) (hfin : b &&& 0x80 = 0) :
    read_int_go buf pos offset (remaining + 1) value =
      .ok ((value ||| ((b &&& 0x7F) <<< (7 * offset))) % 2 ^ 32) (offset + 1) := by
  simp only [read_int_go, hb, hfin, ne_eq, not_true_eq_false, if_false]

/-- The base-128 payload of a 5-byte varint, reduced modulo `2^32` as the
`uint32_t` accumulator of `read_int` does. -/
def accum5_mod32 (b0 b1 b2 b3 b4 : Nat) : Nat :=
  ((b0 &&& 0x7F) + (b1 &&& 0x7F) * 2 ^ 7 + (b2 &&& 0x7F) * 2 ^ 14 +
    (b3 &&& 0x7F) * 2 ^ 21 + (b4 &&& 0x7F) * 2 ^ 28) % 2 ^ 32

/-- C10: `read_int` consumes at most 5 varint bytes, and a full 5-byte varint
with the continuation bit clear on the 5th byte is accepted — the accumulated
base-128 payload is reduced modulo `2^32` (excess high bits silently
discarded) and zig-zag decoded into an `int32`, never rejected as overflow. -/
theorem read_int_truncates_mod_2_32 :
    (∀ (buf : List Nat) (pos max : Nat) (i : Int) (p : Nat),
      read_int buf pos max = .ok i p → p ≤ pos + 5) ∧
    (∀ (b0 b1 b2 b3 b4 : Nat) (pre post : List Nat) (max : Nat),
      b0 &&& 0x80 ≠ 0 → b1 &&& 0x80 ≠ 0 → b2 &&& 0x80 ≠ 0 → b3 &&& 0x80 ≠ 0 →
      b4 &&& 0x80 = 0 →
      pre.length + 5 ≤ max →
      read_int (pre ++ [b0, b1, b2, b3, b4] ++ post) pre.length max =
        .ok (toInt32
          ((accum5_mod32 b0 b1 b2 b3 b4 >>> 1) ^^^
            (if accum5_mod32 b0 b1 b2 b3 b4 % 2 = 1 then 2 ^ 32 - 1 else 0)))
          (pre.length + 5)) := by
  constructor
  · intro buf pos max i p h
    simp only [read_int] at h
    split at h
    · rename_i value offset heq
      have hle := read_int_go_pos_le _ buf pos 0 0 value offset heq
      simp only [RRes.ok.injEq] at h
      have hmin : Nat.min (max - pos) 5 ≤ 5 := Nat.min_le_right _ _
      omega
    · exact absurd h (by simp)
  · intro b0 b1 b2 b3 b4 pre post max hb0 hb1 hb2 hb3 hb4 hroom
    have hg : ∀ k, k < 5 →
        (pre ++ [b0, b1, b2, b3, b4] ++ post).getD (pre.length + k) 0 =
          [b0, b1, b2, b3, b4].getD k 0 := by
      intro k hk
      exact getD_append_middle pre [b0, b1, b2, b3, b4] post k (by simpa using hk)
    have hg0 := hg 0 (by omega)
    have hg1 := hg 1 (by omega)
    have hg2 := hg 2 (by omega)
    have hg3 := hg 3 (by omega)
    have hg4 := hg 4 (by omega)
    simp only [List.getD, Nat.add_zero] at hg0 hg1 hg2 hg3 hg4
    have hg0' : (pre ++ [b0, b1, b2, b3, b4] ++ post).getD (pre.length + 0) 0 = b0 := hg0
    have hg1' : (pre ++ [b0, b1, b2, b3, b4] ++ post).getD (pre.length + (0 + 1)) 0 = b1 := hg1
    have hg2' : (pre ++ [b0, b1, b2, b3, b4] ++ post).getD (pre.length + (0 + 1 + 1)) 0 = b2 :=
      hg2
    have hg3' :
        (pre ++ [b0, b1, b2, b3, b4] ++ post).getD (pre.length + (0 + 1 + 1 + 1)) 0 = b3 :=
      hg3
    have hg4' :
        (pre ++ [b0, b1, b2, b3, b4] ++ post).getD (pre.length + (0 + 1 + 1 + 1 + 1)) 0 = b4 :=
      hg4
    simp only [read_int]
    have hmin : Nat.min (max - pre.length) 5 = 4 + 1 := by
      simp only [Nat.min_def]
      split <;> omega
    rw [hmin]
    rw [read_int_go_step _ _ _ _ _ _ hg0' hb0]
    rw [show (4 : Nat) = 3 + 1 from rfl]
    rw [read_int_go_step _ _ _ _ _ _ hg1' hb1]
    rw [show (3 : Nat) = 2 + 1 from rfl]
    rw [read_int_go_step _ _ _ _ _ _ hg2' hb2]
    rw [show (2 : Nat) = 1 + 1 from rfl]
    rw [read_int_go_step _ _ _ _ _ _ hg3' hb3]
    rw [show (1 : Nat) = 0 + 1 from rfl]
    rw [read_int_go_fin _ _ _ _ _ _ hg4' hb4]
    norm_num
    have ha0 : b0 &&& 127 ≤ 127 := Nat.and_le_right
    have ha1 : b1 &&& 127 ≤ 127 := Nat.and_le_right
    have ha2 : b2 &&& 127 ≤ 127 := Nat.and_le_right
    have ha3 : b3 &&& 127 ≤ 127 := Nat.and_le_right
    have ha4 : b4 &&& 127 ≤ 127 := Nat.and_le_right
    have h1 : b0 &&& 127 < 2 ^ 7 := lt_of_le_of_lt ha0 (by norm_num)
    have h2 : (b1 &&& 127) * 2 ^ 7 + (b0 &&& 127) < 2 ^ 14 := by
      have := Nat.mul_le_mul_right (2 ^ 7) ha1
      norm_num at this ⊢
      omega
    have h3 : (b2 &&& 127) * 2 ^ 14 + ((b1 &&& 127) * 2 ^ 7 + (b0 &&& 127)) < 2 ^ 21 := by
      have := Nat.mul_le_mul_right (2 ^ 14) ha2
      norm_num at this ⊢
      omega
    have h4 : (b3 &&& 127) * 2 ^ 21 +
        ((b2 &&& 127) * 2 ^ 14 + ((b1 &&& 127) * 2 ^ 7 + (b0 &&& 127))) < 2 ^ 28 := by
      have := Nat.mul_le_mul_right (2 ^ 21) ha3
      norm_num at this ⊢
      omega
    have e1 : (b0 &&& 127) % 4294967296 = b0 &&& 127 := Nat.mod_eq_of_lt (by omega)
    have m2 : (b1 &&& 127) * 2 ^ 7 + (b0 &&& 127) < 4294967296 := by
      norm_num at h2; omega
    have m3 : (b2 &&& 127) * 2 ^ 14 + ((b1 &&& 127) * 2 ^ 7 + (b0 &&& 127)) < 4294967296 := by
      norm_num at h3; omega
    have m4 : (b3 &&& 127) * 2 ^ 21 +
        ((b2 &&& 127) * 2 ^ 14 + ((b1 &&& 127) * 2 ^ 7 + (b0 &&& 127))) < 4294967296 := by
      norm_num at h4; omega
    rw [e1, or_shift_eq_add h1, Nat.mod_eq_of_lt m2, or_shift_eq_add h2,
      Nat.mod_eq_of_lt m3, or_shift_eq_add h3, Nat.mod_eq_of_lt m4, or_shift_eq_add h4]
    have hval : ((b4 &&& 127) * 2 ^ 28 + ((b3 &&& 127) * 2 ^ 21 +
        ((b2 &&& 127) * 2 ^ 14 + ((b1 &&& 127) * 2 ^ 7 + (b0 &&& 127))))) % 4294967296 =
        accum5_mod32 b0 b1 b2 b3 b4 := by
      unfold accum5_mod32
      norm_num
      ring_nf
    rw [hval]
    have hpar : accum5_mod32 b0 b1 b2 b3 b4 % 2 = b0 % 2 := by
      unfold accum5_mod32
      have hand : (b0 &&& 127) % 2 = b0 % 2 := by
        rw [and_7F]
        omega
      omega
    rw [hpar]

/-- Witness for C10: a concrete `read_int` success bounds the cursor, and the
5-byte varint `FF FF FF FF 7F` (35 payload bits) is accepted with the excess
bits discarded. -/
theorem read_int_truncates_mod_2_32_witness :
    (1 ≤ 0 + 5) ∧
    read_int ([] ++ [0xFF, 0xFF, 0xFF, 0xFF, 0x7F] ++ []) (List.length ([] : List Nat)) 5 =
      .ok (toInt32 ((accum5_mod32 0xFF 0xFF 0xFF 0xFF 0x7F >>> 1) ^^^
          (if accum5_mod32 0xFF 0xFF 0xFF 0xFF 0x7F % 2 = 1 then 2 ^ 32 - 1 else 0)))
        (List.length ([] : List Nat) + 5) := by
  exact ⟨read_int_truncates_mod_2_32.1 [0x02] 0 1 1 1 (by decide),
    read_int_truncates_mod_2_32.2 0xFF 0xFF 0xFF 0xFF 0x7F [] [] 5
      (by decide) (by decide) (by decide) (by decide) (by decide) (by decide)⟩

-- The truncated 5-byte varint decodes to `INT32_MIN`, not an error.
example : read_int [0xFF, 0xFF, 0xFF, 0xFF, 0x7F] 0 5 = .ok (-2147483648) 5 := by decide

/-! ## ASCII helpers (avro.c) -/

/-- Loop of `read_digits` (avro.c).  `remaining` is the structural form of
the C condition `temp_digits <= max_digits` (it starts at `max_digits + 1`
and each iteration consumes one, so the loop can read `max_digits + 1`
digits).  Returns `(pos, temp_digits, temp_i)`. -/
def read_digits_go (buf : List Nat) (max : Nat) :
    (pos temp_digits : Nat) → (remaining : Nat) → (temp_i : Int) → Nat × Nat × Int
  | pos, temp_digits, 0, temp_i => (pos, temp_digits, temp_i)
  | pos, temp_digits, remaining + 1, temp_i =>
      let b := buf.getD pos 0
      if pos < max ∧ 48 ≤ b ∧ b ≤ 57 then
        read_digits_go buf max (pos + 1) (temp_digits + 1) remaining
          (temp_i * 10 + ((b : Int) - 48))
      else
        (pos, temp_digits, temp_i)

/-- `read_digits` (avro.c): parse a run of ASCII digits with digit-count and
value bounds.  Returns the parsed value and the digit count. -/
def read_digits (buf : List Nat) (pos max : Nat) (min_digits max_digits : Nat)
    (min_value max_value : Int) : RRes (Int × Nat) :=
  let r := read_digits_go buf max pos 0 (max_digits + 1) 0
  if r.2.1 < min_digits then
    (if r.1 = max then .err .eof else .err .overflow)
  else if r.2.2 < min_value ∨ r.2.2 > max_value then .err .overflow
  else .ok (r.2.2, r.2.1) r.1

/-- Loop of `skip_whitespace` (avro.c); structural on the window size. -/
def skip_whitespace_go (buf : List Nat) : (pos remaining : Nat) → Nat
  | pos, 0 => pos
  | pos, remaining + 1 =>
      let b := buf.getD pos 0
      if b = 32 ∨ b = 9 ∨ b = 10 ∨ b = 11 ∨ b = 12 ∨ b = 13 then
        skip_whitespace_go buf (pos + 1) remaining
      else pos

/-- `skip_whitespace` (avro.c). -/
def skip_whitespace (buf : List Nat) (pos max : Nat) (min_chars : Nat) : RRes Unit :=
  let p := skip_whitespace_go buf pos (max - pos)
  if pos + min_chars > p then
    (if p = max then .err .eof else .err .overflow)
  else .ok () p

/-- `skip_char` (avro.c). -/
def skip_char (buf : List Nat) (pos max : Nat) (expected : Nat) : RRes Unit :=
  if pos ≥ max then .err .eof
  else if buf.getD pos 0 ≠ expected then .err .overflow
  else .ok () (pos + 1)

/-- `write_char` (avro.c). -/
def write_char (pos max : Nat) (c : Nat) : WRes :=
  if pos ≥ max then .err .eof
  else .ok [c] (pos + 1)

/-- `write_boolean` (avro.c). -/
def write_boolean (pos max : Nat) (b : Int) : WRes :=
  if pos ≥ max then .err .eof
  else .ok [if b = 0 then 0 else 1] (pos + 1)

/-- `write_bytes` (avro.c): varint length then raw copy. -/
def write_bytes (pos max : Nat) (b : List Nat) (len : Int) : WRes :=
  match write_size pos max len with
  | .err e => .err e
  | .ok bytes p =>
      if (p : Int) + len > (max : Int) then .err .eof
      else .ok (bytes ++ b.take len.toNat) (p + len.toNat)

/-- `write_double` (avro.c): 8 raw bytes (the cell carries the raw IEEE
bytes; host byte order concerns are outside the embedding). -/
def write_double (pos max : Nat) (d : List Nat) : WRes :=
  if pos + 8 > max then .err .eof
  else .ok d (pos + 8)

/-- `write_float` (avro.c): 4 raw bytes. -/
def write_float (pos max : Nat) (f : List Nat) : WRes :=
  if pos + 4 > max then .err .eof
  else .ok f (pos + 4)

/-- `read_double` (avro.c): 8 raw bytes. -/
def read_double (buf : List Nat) (pos max : Nat) : RRes (List Nat) :=
  if pos + 8 > max then .err .eof
  else .ok ((buf.drop pos).take 8) (pos + 8)

/-- `read_float` (avro.c): 4 raw bytes. -/
def read_float (buf : List Nat) (pos max : Nat) : RRes (List Nat) :=
  if pos + 4 > max then .err .eof
  else .ok ((buf.drop pos).take 4) (pos + 4)

/-- `read_boolean` (avro.c). -/
def read_boolean (buf : List Nat) (pos max : Nat) : RRes Int :=
  if pos + 1 > max then .err .eof
  else
    let b := toInt32 (buf.getD pos 0 % 2 ^ 8)
    if b ≠ 0 ∧ b ≠ 1 then .err .overflow
    else .ok b (pos + 1)

/-- First counting loop of `write_digits` (avro.c): strips up to `zeroes`
low digits off `temp` while counting them.  Returns
`(zeroes, digits, temp)` after the loop.  Structural on `zeroes`. -/
def wd_loop1 : (zeroes : Nat) → (temp : Int) → Nat × Nat × Int
  | 0, temp => (0, 0, temp)
  | zeroes + 1, temp =>
      if temp ≠ 0 then
        let r := wd_loop1 zeroes (temp.tdiv 10)
        (r.1, r.2.1 + 1, r.2.2)
      else (zeroes + 1, 0, temp)

/-- Second counting loop of `write_digits` (avro.c): count remaining digits.
The step count 12 covers any C `int` (at most 10 decimal digits). -/
def wd_loop2 : (steps : Nat) → (temp : Int) → Nat
  | 0, _ => 0
  | steps + 1, temp => if temp ≠ 0 then wd_loop2 steps (temp.tdiv 10) + 1 else 0

/-- The decimal digit characters of `i` (most significant first) produced by
the backwards-writing loop of `write_digits` (avro.c); empty for 0. -/
def digit_chars : (steps : Nat) → (temp : Int) → List Nat
  | 0, _ => []
  | steps + 1, temp =>
      if temp ≠ 0 then digit_chars steps (temp.tdiv 10) ++ [(temp.tmod 10 + 48).toNat]
      else []

/-- `write_digits` (avro.c): decimal representation of `i`, left-padded with
zeros to at least `min_digits` characters.  Note the buffer check is
`*pos + digits >= max` (not `>`), so a digit run ending exactly at `max`
reports `ERR_EOF`. -/
def write_digits (pos max : Nat) (min_digits : Nat) (i : Int) : WRes :=
  let r1 := wd_loop1 min_digits i
  let zeroes := r1.1
  let digits := r1.2.1 + wd_loop2 12 r1.2.2 + zeroes
  if pos + digits ≥ max then .err .eof
  else .ok (List.replicate zeroes 48 ++ digit_chars 12 i) (pos + digits)

-- Sanity: digit layout of write_digits.
example : write_digits 0 100 4 1995 = .ok [49, 57, 57, 53] 4 := by decide
example : write_digits 0 100 2 3 = .ok [48, 51] 2 := by decide
example : write_digits 0 100 3 0 = .ok [48, 48, 48] 3 := by decide
example : write_digits 0 2 2 19 = .err .eof := by decide  -- ends exactly at max

/-! ## Date and time support (dt.c) -/

/-- dt.h layout constants: bit shifts of the packed date (32-bit). -/
def DATE_SHIFT_YEAR : Nat := 21
def DATE_SHIFT_MONTH : Nat := 17
def DATE_SHIFT_DAY : Nat := 12
def DATE_SHIFT_YDAY : Nat := 3
def DATE_SHIFT_WDAY : Nat := 0

/-- dt.h layout constants: bit shifts of the packed datetime (64-bit). -/
def DT_SHIFT_YEAR : Nat := 53
def DT_SHIFT_MONTH : Nat := 49
def DT_SHIFT_DAY : Nat := 44
def DT_SHIFT_HOUR : Nat := 39
def DT_SHIFT_MINUTE : Nat := 33
def DT_SHIFT_SEC : Nat := 27
def DT_SHIFT_MSEC : Nat := 17
def DT_SHIFT_YDAY : Nat := 8
def DT_SHIFT_WDAY : Nat := 5

/-- dt.h layout constants: bit shifts of the packed time (32-bit). -/
def TIME_SHIFT_HOUR : Nat := 26
def TIME_SHIFT_MINUTE : Nat := 20
def TIME_SHIFT_SEC : Nat := 14
def TIME_SHIFT_MSEC : Nat := 4

def MIN_YEAR : Int := 1000
def MAX_YEAR : Int := 2900
def MIN_EPOCH_MS : Int := -30610224000000
def MAX_EPOCH_MS : Int := 29379542399999
def DATE_DEFAULT : Int := -1887301620
def DT_DEFAULT : Int := -8105898787127426688

/-- Field extractors from dt.h.  The C masks select a bit range and shift;
for the sign-extending year fields (`d & DATE_MASK_YEAR`, where the mask's
sign extension keeps all bits from the shift position up) the mask-and-shift
equals clearing the low bits and flooring, i.e. `Int.fdiv` by the shift's
power of two; the other masks are nonnegative and operate on the low 32/64
bits. -/
def DATE_YEAR (d : Int) : Int := Int.fdiv d (2 ^ DATE_SHIFT_YEAR) + 1900
def DATE_MONTH (d : Int) : Int := ((u64 d >>> DATE_SHIFT_MONTH) &&& 0xF : Nat)
def DATE_DAY (d : Int) : Int := ((u64 d >>> DATE_SHIFT_DAY) &&& 0x1F : Nat)
def DATE_YDAY (d : Int) : Int := ((u64 d >>> DATE_SHIFT_YDAY) &&& 0x1FF : Nat)
def DATE_WDAY (d : Int) : Int := ((u64 d >>> DATE_SHIFT_WDAY) &&& 0x7 : Nat)

def DT_YEAR (dt : Int) : Int := Int.fdiv dt (2 ^ DT_SHIFT_YEAR) + 1900
def DT_MONTH (dt : Int) : Int := ((u64 dt >>> DT_SHIFT_MONTH) &&& 0xF : Nat)
def DT_DAY (dt : Int) : Int := ((u64 dt >>> DT_SHIFT_DAY) &&& 0x1F : Nat)
def DT_HOUR (dt : Int) : Int := ((u64 dt >>> DT_SHIFT_HOUR) &&& 0x1F : Nat)
def DT_MINUTE (dt : Int) : Int := ((u64 dt >>> DT_SHIFT_MINUTE) &&& 0x3F : Nat)
def DT_SEC (dt : Int) : Int := ((u64 dt >>> DT_SHIFT_SEC) &&& 0x3F : Nat)
def DT_MSEC (dt : Int) : Int := ((u64 dt >>> DT_SHIFT_MSEC) &&& 0x3FF : Nat)
def DT_YDAY (dt : Int) : Int := ((u64 dt >>> DT_SHIFT_YDAY) &&& 0x1FF : Nat)
def DT_WDAY (dt : Int) : Int := ((u64 dt >>> DT_SHIFT_WDAY) &&& 0x7 : Nat)

def TIME_HOUR (t : Int) : Int := ((u64 t >>> TIME_SHIFT_HOUR) &&& 0x1F : Nat)
def TIME_MINUTE (t : Int) : Int := ((u64 t >>> TIME_SHIFT_MINUTE) &&& 0x3F : Nat)
def TIME_SEC (t : Int) : Int := ((u64 t >>> TIME_SHIFT_SEC) &&& 0x3F : Nat)
def TIME_MSEC (t : Int) : Int := ((u64 t >>> TIME_SHIFT_MSEC) &&& 0x3FF : Nat)

/-- Month tables of `compute_days` (dt.c), January-based. -/
def cd_days_in_month : List Int := [31, 29, 31, 30, 31, 30, 31, 31, 30, 31, 30, 31]
def cd_days_before_month : List Int := [0, 31, 60, 91, 121, 152, 182, 213, 244, 274, 305, 335]
def cd_day_of_week_offset : List Int := [0, 3, 2, 5, 0, 3, 5, 1, 4, 6, 2, 4]

/-- `compute_days` (dt.c): validate the date and derive day-of-year and
day-of-week.  Validation checks the year range, `day > days_in_month[m]`,
and February 29 in a non-leap year — but not `month ∈ [1, 12]` or
`day ≥ 1`; dt.h documents those as caller preconditions, and the C table
accesses are out of bounds for month outside `[1, 12]` (the embedding
clamps the index via `toNat`/`getD`, which is only meaningful on the
documented domain). -/
def compute_days (year month day : Int) : Option (Int × Int) :=
  let m := (month - 1).toNat
  if year < MIN_YEAR ∨ year > MAX_YEAR then none
  else if day > cd_days_in_month.getD m 0 then none
  else
    let not_leap_year : Bool :=
      year.tmod 4 ≠ 0 ∨ (year.tmod 100 = 0 ∧ year.tmod 400 ≠ 0)
    if not_leap_year ∧ month = 2 ∧ day = 29 then none
    else
      let nl : Int := if not_leap_year then 1 else 0
      let day_of_year :=
        if month < 3 then cd_days_before_month.getD m 0 + day
        else cd_days_before_month.getD m 0 - nl + day
      let y := if month < 3 then year - 1 else year
      let day_of_week :=
        (day + cd_day_of_week_offset.getD m 0 + y + y.tdiv 4 - y.tdiv 100 + y.tdiv 400).tmod 7
          + 1
      some (day_of_year, day_of_week)

/-- `encode_date` (dt.c): pack a validated date (as a sign-extended `int32`
in a C `long`). -/
def encode_date (year month day : Int) : Option Int :=
  match compute_days year month day with
  | .none => .none
  | .some (day_of_year, day_of_week) =>
      .some (toInt32 (u32 ((year - 1900) * 2 ^ DATE_SHIFT_YEAR
        + month * 2 ^ DATE_SHIFT_MONTH
        + day * 2 ^ DATE_SHIFT_DAY
        + day_of_year * 2 ^ DATE_SHIFT_YDAY
        + day_of_week * 2 ^ DATE_SHIFT_WDAY)))

/-- `encode_datetime` (dt.c). -/
def encode_datetime (year month day hour minute second millisecond : Int) : Option Int :=
  match compute_days year month day with
  | .none => .none
  | .some (day_of_year, day_of_week) =>
      .some (toInt64 (u64 ((year - 1900) * 2 ^ DT_SHIFT_YEAR
        + month * 2 ^ DT_SHIFT_MONTH
        + day * 2 ^ DT_SHIFT_DAY
        + hour * 2 ^ DT_SHIFT_HOUR
        + minute * 2 ^ DT_SHIFT_MINUTE
        + second * 2 ^ DT_SHIFT_SEC
        + millisecond * 2 ^ DT_SHIFT_MSEC
        + day_of_year * 2 ^ DT_SHIFT_YDAY
        + day_of_week * 2 ^ DT_SHIFT_WDAY)))

/-- `encode_time` (dt.c): always succeeds. -/
def encode_time (hour minute second millisecond : Int) : Int :=
  toInt32 (u32 (hour * 2 ^ TIME_SHIFT_HOUR
    + minute * 2 ^ TIME_SHIFT_MINUTE
    + second * 2 ^ TIME_SHIFT_SEC
    + millisecond * 2 ^ TIME_SHIFT_MSEC))

/-- Month table of `datetime_to_epoch_ms` (dt.c), March-based. -/
def dte_days_before_month : List Int :=
  [0, 31, 61, 92, 122, 153, 184, 214, 245, 275, 306, 337]

def BASE_EPOCH_MS : Int := -62162035200000

/-- `datetime_to_epoch_ms` (dt.c). -/
def datetime_to_epoch_ms (datetime : Int) : Int :=
  let year0 := DT_YEAR datetime
  let month0 := DT_MONTH datetime - 3
  let year := if month0 < 0 then year0 - 1 else year0
  let month := if month0 < 0 then month0 + 12 else month0
  BASE_EPOCH_MS
    + (year * 365 + year.tdiv 4 - year.tdiv 100 + year.tdiv 400
       + dte_days_before_month.getD month.toNat 0
       + DT_DAY datetime - 1) * 86400000
    + DT_HOUR datetime * 3600000
    + DT_MINUTE datetime * 60000
    + DT_SEC datetime * 1000
    + DT_MSEC datetime

/-- Month table of `epoch_ms_to_datetime` (dt.c), March-based. -/
def emd_days_in_month : List Int := [31, 30, 31, 30, 31, 31, 30, 31, 30, 31, 31, 29]

/-- Month-walk loop of `epoch_ms_to_datetime` (dt.c): starting from March,
subtract month lengths while they fit.  Structural on the table. -/
def emd_month_walk : (table : List Int) → (days : Int) → (month : Nat) → Nat × Int
  | [], days, month => (month, days)
  | d :: rest, days, month =>
      if d ≤ days then emd_month_walk rest (days - d) (month + 1)
      else (month, days)

/-- `epoch_ms_to_datetime` (dt.c).  The C divisions act on nonnegative
quantities for every epoch value in the valid range; `tdiv`/`tmod` mirror
C's truncating `/` and `%`. -/
def epoch_ms_to_datetime (epoch_ms : Int) : Int :=
  let base_ms := epoch_ms - BASE_EPOCH_MS
  let days0 := base_ms.tdiv 86400000
  let milliseconds := base_ms.tmod 86400000
  let day_of_week := (days0 + 3).tmod 7
  let cycles_since_base := days0.tdiv 146097
  let days1 := days0.tmod 146097
  let centuries_since_cycle0 := days1.tdiv 36524
  let centuries_since_cycle :=
    if centuries_since_cycle0 = 4 then centuries_since_cycle0 - 1 else centuries_since_cycle0
  let days2 := days1 - centuries_since_cycle * 36524
  let leaps_since_century := days2.tdiv 1461
  let days3 := days2 - leaps_since_century * 1461
  let years_since_leap0 := days3.tdiv 365
  let years_since_leap :=
    if years_since_leap0 = 4 then years_since_leap0 - 1 else years_since_leap0
  let days4 := days3 - years_since_leap * 365
  let is_leap_year : Int :=
    if years_since_leap = 0 ∧ (leaps_since_century ≠ 0 ∨ centuries_since_cycle = 0)
    then 1 else 0
  let day_of_year0 := days4 + 59 + is_leap_year
  let day_of_year :=
    if day_of_year0 ≥ 365 + is_leap_year then day_of_year0 - (365 + is_leap_year)
    else day_of_year0
  let year0 := cycles_since_base * 400 + centuries_since_cycle * 100
    + leaps_since_century * 4 + years_since_leap
  let walk := emd_month_walk emd_days_in_month days4 0
  let month0 := (walk.1 : Int) + 3
  let days5 := walk.2
  let year := if month0 > 12 then year0 + 1 else year0
  let month := if month0 > 12 then month0 - 12 else month0
  toInt64 (u64 ((year - 1900) * 2 ^ DT_SHIFT_YEAR
    + month * 2 ^ DT_SHIFT_MONTH
    + (days5 + 1) * 2 ^ DT_SHIFT_DAY
    + milliseconds.tdiv 3600000 * 2 ^ DT_SHIFT_HOUR
    + (milliseconds.tdiv 60000).tmod 60 * 2 ^ DT_SHIFT_MINUTE
    + (milliseconds.tdiv 1000).tmod 60 * 2 ^ DT_SHIFT_SEC
    + milliseconds.tmod 1000 * 2 ^ DT_SHIFT_MSEC
    + (day_of_year + 1) * 2 ^ DT_SHIFT_YDAY
    + (day_of_week + 1) * 2 ^ DT_SHIFT_WDAY))

-- Sanity checks against dt.h's documented constants.
example : encode_date 1000 1 1 = .some DATE_DEFAULT := by decide
example : encode_datetime 1000 1 1 0 0 0 0 = .some DT_DEFAULT := by decide
example : encode_date 2024 2 29 ≠ .none := by decide
example : encode_date 2023 2 29 = .none := by decide
example : datetime_to_epoch_ms DT_DEFAULT = MIN_EPOCH_MS := by decide

/-- C4 counterexample: `encode_date` (and `encode_datetime`) accept day 0 —
`compute_days` never checks `day ≥ 1` (nor `month ∈ [1,12]`), so the claimed
validation `day ∈ [1, days-in-month]` does not all happen in the code. -/
theorem encode_date_accepts_day_zero :
    encode_date 2024 1 0 ≠ .none ∧ encode_datetime 2024 1 0 12 30 30 500 ≠ .none := by
  decide

theorem compute_days_none_iff (year month day : Int) :
    compute_days year month day = .none ↔
      (year < MIN_YEAR ∨ year > MAX_YEAR ∨
        day > cd_days_in_month.getD (month - 1).toNat 0 ∨
        ((year.tmod 4 ≠ 0 ∨ (year.tmod 100 = 0 ∧ year.tmod 400 ≠ 0)) ∧
          month = 2 ∧ day = 29)) := by
  simp only [compute_days]
  split_ifs with hy hd hleap
  · exact iff_of_true rfl (by tauto)
  · exact iff_of_true rfl (by tauto)
  · simp only [decide_eq_true_eq] at hleap
    exact iff_of_true rfl (by tauto)
  · simp only [decide_eq_true_eq] at hleap
    refine iff_of_false (by simp) ?_
    tauto

/-- C4 amended: for month in the documented precondition range `[1, 12]`,
`encode_date` returns no packed value exactly when the year is outside
`[1000, 2900]`, the day exceeds the month's table length, or the date is
February 29 of a non-leap year; `encode_datetime` fails exactly when
`encode_date` does.  (Day 0 or negative days are accepted; `month ∉ [1,12]`
is undefined behavior in the C.) -/
theorem encode_date_validation (year month day hour minute second millisecond : Int)
    (_hm1 : 1 ≤ month) (_hm2 : month ≤ 12) :
    (encode_date year month day = .none ↔
      (year < MIN_YEAR ∨ year > MAX_YEAR ∨
        day > cd_days_in_month.getD (month - 1).toNat 0 ∨
        ((year.tmod 4 ≠ 0 ∨ (year.tmod 100 = 0 ∧ year.tmod 400 ≠ 0)) ∧
          month = 2 ∧ day = 29))) ∧
    (encode_datetime year month day hour minute second millisecond = .none ↔
      encode_date year month day = .none) := by
  constructor
  · rw [← compute_days_none_iff]
    unfold encode_date
    cases h : compute_days year month day with
    | none => simp [h]
    | some v => simp [h]
  · unfold encode_date encode_datetime
    cases h : compute_days year month day with
    | none => simp [h]
    | some v => simp [h]

/-- Witness for the amended C4 at February 29, 2023 (rejected) with the
month-range hypotheses discharged concretely. -/
theorem encode_date_validation_witness :
    ((encode_date 2023 2 29 = .none ↔
      ((2023 : Int) < MIN_YEAR ∨ (2023 : Int) > MAX_YEAR ∨
        (29 : Int) > cd_days_in_month.getD ((2 : Int) - 1).toNat 0 ∨
        (((2023 : Int).tmod 4 ≠ 0 ∨ ((2023 : Int).tmod 100 = 0 ∧ (2023 : Int).tmod 400 ≠ 0)) ∧
          (2 : Int) = 2 ∧ (29 : Int) = 29))) ∧
    (encode_datetime 2023 2 29 0 0 0 0 = .none ↔ encode_date 2023 2 29 = .none)) := by
  exact encode_date_validation 2023 2 29 0 0 0 0 (by norm_num) (by norm_num)

/-! ## Record engine (record.c / record.h) -/

/-- `ColumnDataType` from record.h. -/
inductive ColumnDataType where
  | bytes | char1 | char2 | char4 | char8 | char16 | char32 | char64 | char128 | char256
  | date | datetime | double | float | int | int8 | int16 | long | string | time | timestamp
deriving DecidableEq, Repr

/-- The raw value union `ColumnValueBase` (record.h).  One constructor per
union view, plus `zero` for the all-zero-bytes state left by `memset`;
accessor functions below give each C view of the zero state. -/
inductive ColumnRaw where
  | zero
  | data (b : List Nat)
  | inlineC (b : List Nat)
  | dbl (b : List Nat)
  | flt (b : List Nat)
  | ival (n : Int)
  | lval (n : Int)
deriving DecidableEq, Repr

/-- `.data` view (NULL pointer for the zero state, modelled as `[]`). -/
def ColumnRaw.asData : ColumnRaw → List Nat
  | .data b => b
  | _ => []

/-- `.c` view (eight zero bytes for the zero state). -/
def ColumnRaw.asC : ColumnRaw → List Nat
  | .inlineC b => b
  | _ => List.replicate 8 0

/-- `.d` view. -/
def ColumnRaw.asD : ColumnRaw → List Nat
  | .dbl b => b
  | _ => List.replicate 8 0

/-- `.f` view. -/
def ColumnRaw.asF : ColumnRaw → List Nat
  | .flt b => b
  | _ => List.replicate 4 0

/-- `.i` view. -/
def ColumnRaw.asI : ColumnRaw → Int
  | .ival n => n
  | _ => 0

/-- `.l` view. -/
def ColumnRaw.asL : ColumnRaw → Int
  | .lval n => n
  | _ => 0

/-- `ColumnValue` from record.h: raw value plus length/null flag. -/
structure ColumnValue where
  value : ColumnRaw
  len : Int
deriving DecidableEq, Repr

instance : Inhabited ColumnValue := ⟨⟨.zero, 0⟩⟩

/-- `ColumnDef` from record.h. -/
structure ColumnDef where
  data_type : ColumnDataType
  is_nullable : Bool
deriving DecidableEq, Repr

instance : Inhabited ColumnDef := ⟨⟨.bytes, false⟩⟩

/-- `RecordType` (only the `column_defs` array matters to the codec). -/
structure RecordTypeC where
  column_defs : List ColumnDef
deriving DecidableEq, Repr

/-- `Record` (record.h): the record type, the raw cells, and the cached
encoded size (`0` = not yet computed).  The lazy Python-object values list
is not modelled. -/
structure RecordC where
  type : RecordTypeC
  column_values : List ColumnValue
  size : Int
deriving DecidableEq, Repr

/-- `Record_new` (record.c): `tp_alloc` zero-fills the cell array, then the
loop sets `len = -is_nullable` per column. -/
def Record_new (t : RecordTypeC) : RecordC :=
  { type := t
    column_values := t.column_defs.map (fun d =>
      { value := .zero, len := -(if d.is_nullable then 1 else 0) })
    size := 0 }

/-- `clear_bytes_column` / `clear_string_column` (record.c), cell part of
the non-Python path: free the buffer, null the pointer, reset `len`. -/
def clear_bytes_cv (d : ColumnDef) : ColumnValue :=
  { value := .data [], len := -(if d.is_nullable then 1 else 0) }

/-- `clear_simple_column` (record.c), cell part: `memset` the union, reset
`len`. -/
def clear_simple_cv (d : ColumnDef) : ColumnValue :=
  { value := .zero, len := -(if d.is_nullable then 1 else 0) }

/-- `clear_column` dispatch table (record.c); `clear_string_column` equals
`clear_bytes_column` on Python 3. -/
def clear_column (d : ColumnDef) : ColumnValue :=
  match d.data_type with
  | .bytes => clear_bytes_cv d
  | .char1 | .char2 | .char4 | .char8 => clear_simple_cv d
  | .char16 | .char32 | .char64 | .char128 | .char256 => clear_bytes_cv d
  | .string => clear_bytes_cv d
  | _ => clear_simple_cv d

/-! ### Column readers (record.c) -/

/-- `read_bytes_column` (record.c); allocation is assumed to succeed. -/
def read_bytes_column (buf : List Nat) (pos max : Nat) : RRes ColumnValue :=
  match read_bytes_len buf pos max with
  | .err e => .err e
  | .ok len p => .ok { value := .data ((buf.drop p).take len.toNat), len := len }
      (p + len.toNat)

/-- `read_char_column_small` (record.c). -/
def read_char_column_small (buf : List Nat) (pos max : Nat) (size : Int) : RRes ColumnValue :=
  match read_bytes_len buf pos max with
  | .err e => .err e
  | .ok len p =>
      if len > size then .err .overflow
      else .ok { value := .inlineC ((buf.drop p).take len.toNat), len := len } (p + len.toNat)

/-- `read_char_column_large` (record.c). -/
def read_char_column_large (buf : List Nat) (pos max : Nat) (size : Int) : RRes ColumnValue :=
  match read_bytes_len buf pos max with
  | .err e => .err e
  | .ok len p =>
      if len > size then .err .overflow
      else .ok { value := .data ((buf.drop p).take len.toNat), len := len } (p + len.toNat)

/-- `read_date_column` (record.c).  The C narrows `max` to the end of the
bytes value, skips whitespace ignoring the result (`min_chars = 0` cannot
fail, only advance), parses `YYYY-MM-DD`, requires the value to be fully
consumed, and packs with `encode_date`. -/
def read_date_column (buf : List Nat) (pos max : Nat) : RRes ColumnValue :=
  match read_bytes_len buf pos max with
  | .err e => .err e
  | .ok len p0 =>
    let maxv := p0 + len.toNat
    let p1 := skip_whitespace_go buf p0 (maxv - p0)
    match read_digits buf p1 maxv 4 4 1000 2900 with
    | .err e => .err e
    | .ok (year, _) p2 =>
      match skip_char buf p2 maxv 45 with
      | .err e => .err e
      | .ok _ p3 =>
        match read_digits buf p3 maxv 2 2 1 12 with
        | .err e => .err e
        | .ok (month, _) p4 =>
          match skip_char buf p4 maxv 45 with
          | .err e => .err e
          | .ok _ p5 =>
            match read_digits buf p5 maxv 2 2 1 31 with
            | .err e => .err e
            | .ok (day, _) p6 =>
              let p7 := skip_whitespace_go buf p6 (maxv - p6)
              if p7 ≠ maxv then .err .overflow
              else match encode_date year month day with
                | .none => .err .overflow
                | .some date => .ok { value := .ival date, len := 0 } p7

/-- Fractional-second rescaling of `read_datetime_column` (record.c). -/
def dt_rescale (millisecond : Int) (digits : Nat) : Int :=
  if digits < 3 then
    (if digits = 2 then millisecond * 10 else millisecond * 100)
  else if digits > 3 then
    (if digits = 4 then millisecond.tdiv 10
     else if digits = 5 then millisecond.tdiv 100
     else millisecond.tdiv 1000)
  else millisecond

/-- `read_datetime_column` (record.c). -/
def read_datetime_column (buf : List Nat) (pos max : Nat) : RRes ColumnValue :=
  match read_bytes_len buf pos max with
  | .err e => .err e
  | .ok len p0 =>
    let maxv := p0 + len.toNat
    let p1 := skip_whitespace_go buf p0 (maxv - p0)
    match read_digits buf p1 maxv 4 4 1000 2900 with
    | .err e => .err e
    | .ok (year, _) p2 =>
      match skip_char buf p2 maxv 45 with
      | .err e => .err e
      | .ok _ p3 =>
        match read_digits buf p3 maxv 2 2 1 12 with
        | .err e => .err e
        | .ok (month, _) p4 =>
          match skip_char buf p4 maxv 45 with
          | .err e => .err e
          | .ok _ p5 =>
            match read_digits buf p5 maxv 2 2 1 31 with
            | .err e => .err e
            | .ok (day, _) p6 =>
              match (if p6 < maxv then skip_whitespace buf p6 maxv 1 else .ok () p6) with
              | .err e => .err e
              | .ok _ p7 =>
                if p7 = maxv then
                  match encode_datetime year month day 0 0 0 0 with
                  | .none => .err .overflow
                  | .some dt => .ok { value := .lval dt, len := 0 } p7
                else
                  match read_digits buf p7 maxv 1 2 0 23 with
                  | .err e => .err e
                  | .ok (hour, _) p8 =>
                    match skip_char buf p8 maxv 58 with
                    | .err e => .err e
                    | .ok _ p9 =>
                      match read_digits buf p9 maxv 2 2 0 59 with
                      | .err e => .err e
                      | .ok (minute, _) p10 =>
                        match skip_char buf p10 maxv 58 with
                        | .err e => .err e
                        | .ok _ p11 =>
                          match read_digits buf p11 maxv 2 2 0 59 with
                          | .err e => .err e
                          | .ok (second, _) p12 =>
                            match
                              (if p12 < maxv ∧ buf.getD p12 0 = 46 then
                                match read_digits buf (p12 + 1) maxv 1 6 0 999999 with
                                | .err e => .err e
                                | .ok (ms, digits) p13 =>
                                    .ok (dt_rescale ms digits) p13
                              else .ok 0 p12 : RRes Int) with
                            | .err e => .err e
                            | .ok millisecond p14 =>
                              let p15 := skip_whitespace_go buf p14 (maxv - p14)
                              if p15 ≠ maxv then .err .overflow
                              else
                                match encode_datetime year month day hour minute second
                                    millisecond with
                                | .none => .err .overflow
                                | .some dt => .ok { value := .lval dt, len := 0 } p15

/-- `read_double_column` (record.c). -/
def read_double_column (buf : List Nat) (pos max : Nat) : RRes ColumnValue :=
  match read_double buf pos max with
  | .err e => .err e
  | .ok d p => .ok { value := .dbl d, len := 0 } p

/-- `read_float_column` (record.c). -/
def read_float_column (buf : List Nat) (pos max : Nat) : RRes ColumnValue :=
  match read_float buf pos max with
  | .err e => .err e
  | .ok f p => .ok { value := .flt f, len := 0 } p

/-- `read_int_column` (record.c). -/
def read_int_column (buf : List Nat) (pos max : Nat) : RRes ColumnValue :=
  match read_int buf pos max with
  | .err e => .err e
  | .ok i p => .ok { value := .ival i, len := 0 } p

/-- `read_int_column_small` (record.c). -/
def read_int_column_small (buf : List Nat) (pos max : Nat) (min_value max_value : Int) :
    RRes ColumnValue :=
  match read_int buf pos max with
  | .err e => .err e
  | .ok i p =>
      if i < min_value ∨ i > max_value then .err .overflow
      else .ok { value := .ival i, len := 0 } p

/-- `read_long_column` (record.c). -/
def read_long_column (buf : List Nat) (pos max : Nat) : RRes ColumnValue :=
  match read_long buf pos max with
  | .err e => .err e
  | .ok l p => .ok { value := .lval l, len := 0 } p

/-- `read_time_column` (record.c).  The fractional-seconds field is read
with `max_digits = 3` and bound 999999, and only the `digits < 3` rescale
branch exists. -/
def read_time_column (buf : List Nat) (pos max : Nat) : RRes ColumnValue :=
  match read_bytes_len buf pos max with
  | .err e => .err e
  | .ok len p0 =>
    let maxv := p0 + len.toNat
    let p1 := skip_whitespace_go buf p0 (maxv - p0)
    match read_digits buf p1 maxv 1 2 0 23 with
    | .err e => .err e
    | .ok (hour, _) p2 =>
      match skip_char buf p2 maxv 58 with
      | .err e => .err e
      | .ok _ p3 =>
        match read_digits buf p3 maxv 2 2 0 59 with
        | .err e => .err e
        | .ok (minute, _) p4 =>
          match skip_char buf p4 maxv 58 with
          | .err e => .err e
          | .ok _ p5 =>
            match read_digits buf p5 maxv 2 2 0 59 with
            | .err e => .err e
            | .ok (second, _) p6 =>
              match
                (if p6 < maxv ∧ buf.getD p6 0 = 46 then
                  match read_digits buf (p6 + 1) maxv 1 3 0 999999 with
                  | .err e => .err e
                  | .ok (ms, digits) p7 =>
                      .ok (if digits < 3 then
                            (if digits = 2 then ms * 10 else ms * 100)
                          else ms) p7
                else .ok 0 p6 : RRes Int) with
              | .err e => .err e
              | .ok millisecond p8 =>
                let p9 := skip_whitespace_go buf p8 (maxv - p8)
                if p9 ≠ maxv then .err .overflow
                else
                  .ok { value := .ival (encode_time hour minute second millisecond), len := 0 }
                    p9

/-- `read_timestamp_column` (record.c). -/
def read_timestamp_column (buf : List Nat) (pos max : Nat) : RRes ColumnValue :=
  match read_long buf pos max with
  | .err e => .err e
  | .ok value p =>
      if value < MIN_EPOCH_MS ∨ value > MAX_EPOCH_MS then .err .overflow
      else .ok { value := .lval (epoch_ms_to_datetime value), len := 0 } p

/-- `read_column` dispatch table (record.c). -/
def read_column (dt : ColumnDataType) (buf : List Nat) (pos max : Nat) : RRes ColumnValue :=
  match dt with
  | .bytes => read_bytes_column buf pos max
  | .char1 => read_char_column_small buf pos max 1
  | .char2 => read_char_column_small buf pos max 2
  | .char4 => read_char_column_small buf pos max 4
  | .char8 => read_char_column_small buf pos max 8
  | .char16 => read_char_column_large buf pos max 16
  | .char32 => read_char_column_large buf pos max 32
  | .char64 => read_char_column_large buf pos max 64
  | .char128 => read_char_column_large buf pos max 128
  | .char256 => read_char_column_large buf pos max 256
  | .date => read_date_column buf pos max
  | .datetime => read_datetime_column buf pos max
  | .double => read_double_column buf pos max
  | .float => read_float_column buf pos max
  | .int => read_int_column buf pos max
  | .int8 => read_int_column_small buf pos max (-128) 127
  | .int16 => read_int_column_small buf pos max (-32768) 32767
  | .long => read_long_column buf pos max
  | .string => read_bytes_column buf pos max
  | .time => read_time_column buf pos max
  | .timestamp => read_timestamp_column buf pos max

/-- Main loop of `read_record` (record.c): walk the columns, reading the
nullable tag and dispatching the column reader, updating the cell array in
place.  On failure return the error, the failing column index, the cells as
updated so far, and the cursor. -/
def rr_go (buf : List Nat) (max : Nat) :
    (rest : List ColumnDef) → (i : Nat) → (pos : Nat) → (cells : List ColumnValue) →
      AvroErr × Nat × List ColumnValue × Nat
  | [], i, pos, cells => (.none, i, cells, pos)
  | d :: rest, i, pos, cells =>
      if d.is_nullable then
        match read_long buf pos max with
        | .err e => (e, i, cells, pos)
        | .ok is_null p =>
            if is_null = 1 then
              rr_go buf max rest (i + 1) p
                (cells.set i { (cells.getD i default) with len := -1 })
            else if is_null ≠ 0 then (.overflow, i, cells, p)
            else
              match read_column d.data_type buf p max with
              | .err e => (e, i, cells, p)
              | .ok cv p2 => rr_go buf max rest (i + 1) p2 (cells.set i cv)
      else
        match read_column d.data_type buf pos max with
        | .err e => (e, i, cells, pos)
        | .ok cv p2 => rr_go buf max rest (i + 1) p2 (cells.set i cv)

/-- Error-path cleanup loop of `read_record` (record.c):
`for (; i > 0; --i) clear_column[defs[i].data_type](record, i, 0);` —
column `i` down to column 1; column 0 is never cleared. -/
def rr_cleanup (defs : List ColumnDef) : (cells : List ColumnValue) → (i : Nat) →
    List ColumnValue
  | cells, 0 => cells
  | cells, i + 1 => rr_cleanup defs (cells.set (i + 1) (clear_column (defs.getD (i + 1) default))) i

/-- `read_record` (record.c): reset the size cache, decode all columns, and
on error run the cleanup loop before surfacing the error code. -/
def read_record (buf : List Nat) (pos max : Nat) (record : RecordC) :
    AvroErr × RecordC × Nat :=
  let record := { record with size := 0 }
  match rr_go buf max record.type.column_defs 0 pos record.column_values with
  | (.none, _, cells, p) => (.none, { record with column_values := cells }, p)
  | (e, i, cells, p) =>
      (e, { record with column_values := rr_cleanup record.type.column_defs cells i }, p)

/-! ### Column sizing (record.c) -/

/-- `size_bytes_column` (record.c). -/
def size_bytes_column (cv : ColumnValue) : Int := (size_long cv.len : Int) + cv.len

/-- `size_column` dispatch table (record.c). -/
def size_column (dt : ColumnDataType) (cv : ColumnValue) : Int :=
  match dt with
  | .bytes | .char1 | .char2 | .char4 | .char8 | .char16 | .char32 | .char64
  | .char128 | .char256 | .string => size_bytes_column cv
  | .date => 11
  | .datetime => 24
  | .double => 8
  | .float => 4
  | .int | .int8 | .int16 => (size_long cv.value.asI : Int)
  | .long => (size_long cv.value.asL : Int)
  | .time => 13
  | .timestamp => (size_long (datetime_to_epoch_ms cv.value.asL) : Int)

/-- Summation loop of `size_record` (record.c). -/
def size_record_go : (cols : List (ColumnDef × ColumnValue)) → Int
  | [] => 0
  | (d, cv) :: rest =>
      (if d.is_nullable then 1 + (if cv.len < 0 then 0 else size_column d.data_type cv)
       else size_column d.data_type cv) + size_record_go rest

/-- `size_record` (record.c): cached encoded size (the C also stores the
computed value back into `record->size`). -/
def size_record (r : RecordC) : Int :=
  if r.size ≠ 0 then r.size
  else size_record_go (r.type.column_defs.zip r.column_values)

/-! ### Column writers (record.c) -/

/-- Sequencing of two C write calls: on success concatenate the emitted
bytes and continue from the advanced cursor. -/
def wseq : WRes → (Nat → WRes) → WRes
  | .err e, _ => .err e
  | .ok bs p, f =>
      match f p with
      | .err e => .err e
      | .ok bs2 p2 => .ok (bs ++ bs2) p2

/-- `write_bytes_column` (record.c). -/
def write_bytes_column (pos max : Nat) (cv : ColumnValue) : WRes :=
  write_bytes pos max cv.value.asData cv.len

/-- `write_char_column_small` (record.c). -/
def write_char_column_small (pos max : Nat) (cv : ColumnValue) : WRes :=
  write_bytes pos max cv.value.asC cv.len

/-- `write_date_column` (record.c): a zero raw value is written as the
default date (1/1/1000). -/
def write_date_column (pos max : Nat) (cv : ColumnValue) : WRes :=
  let date := if cv.value.asI = 0 then DATE_DEFAULT else cv.value.asI
  wseq (write_size pos max 10) (fun p1 =>
  wseq (write_digits p1 max 4 (DATE_YEAR date)) (fun p2 =>
  wseq (write_char p2 max 45) (fun p3 =>
  wseq (write_digits p3 max 2 (DATE_MONTH date)) (fun p4 =>
  wseq (write_char p4 max 45) (fun p5 =>
  write_digits p5 max 2 (DATE_DAY date))))))

/-- `write_datetime_column` (record.c). -/
def write_datetime_column (pos max : Nat) (cv : ColumnValue) : WRes :=
  let dt := if cv.value.asL = 0 then DT_DEFAULT else cv.value.asL
  wseq (write_size pos max 23) (fun p1 =>
  wseq (write_digits p1 max 4 (DT_YEAR dt)) (fun p2 =>
  wseq (write_char p2 max 45) (fun p3 =>
  wseq (write_digits p3 max 2 (DT_MONTH dt)) (fun p4 =>
  wseq (write_char p4 max 45) (fun p5 =>
  wseq (write_digits p5 max 2 (DT_DAY dt)) (fun p6 =>
  wseq (write_char p6 max 32) (fun p7 =>
  wseq (write_digits p7 max 2 (DT_HOUR dt)) (fun p8 =>
  wseq (write_char p8 max 58) (fun p9 =>
  wseq (write_digits p9 max 2 (DT_MINUTE dt)) (fun p10 =>
  wseq (write_char p10 max 58) (fun p11 =>
  wseq (write_digits p11 max 2 (DT_SEC dt)) (fun p12 =>
  wseq (write_char p12 max 46) (fun p13 =>
  write_digits p13 max 3 (DT_MSEC dt))))))))))))))

/-- `write_time_column` (record.c) — no zero-value substitution here. -/
def write_time_column (pos max : Nat) (cv : ColumnValue) : WRes :=
  let t := cv.value.asI
  wseq (write_size pos max 12) (fun p1 =>
  wseq (write_digits p1 max 2 (TIME_HOUR t)) (fun p2 =>
  wseq (write_char p2 max 58) (fun p3 =>
  wseq (write_digits p3 max 2 (TIME_MINUTE t)) (fun p4 =>
  wseq (write_char p4 max 58) (fun p5 =>
  wseq (write_digits p5 max 2 (TIME_SEC t)) (fun p6 =>
  wseq (write_char p6 max 46) (fun p7 =>
  write_digits p7 max 3 (TIME_MSEC t))))))))

/-- `write_timestamp_column` (record.c). -/
def write_timestamp_column (pos max : Nat) (cv : ColumnValue) : WRes :=
  let dt := if cv.value.asL = 0 then DT_DEFAULT else cv.value.asL
  write_long pos max (datetime_to_epoch_ms dt)

/-- `write_column` dispatch table (record.c). -/
def write_column (dt : ColumnDataType) (pos max : Nat) (cv : ColumnValue) : WRes :=
  match dt with
  | .bytes => write_bytes_column pos max cv
  | .char1 | .char2 | .char4 | .char8 => write_char_column_small pos max cv
  | .char16 | .char32 | .char64 | .char128 | .char256 => write_bytes_column pos max cv
  | .date => write_date_column pos max cv
  | .datetime => write_datetime_column pos max cv
  | .double => write_double pos max cv.value.asD
  | .float => write_float pos max cv.value.asF
  | .int | .int8 | .int16 => write_int pos max cv.value.asI
  | .long => write_long pos max cv.value.asL
  | .string => write_bytes_column pos max cv
  | .time => write_time_column pos max cv
  | .timestamp => write_timestamp_column pos max cv

/-- Main loop of `write_record` (record.c). -/
def write_record_go (max : Nat) : (cols : List (ColumnDef × ColumnValue)) → (pos : Nat) → WRes
  | [], pos => .ok [] pos
  | (d, cv) :: rest, pos =>
      if d.is_nullable then
        if cv.len < 0 then
          wseq (write_long pos max 1) (fun p => write_record_go max rest p)
        else
          wseq (write_long pos max 0) (fun p =>
            wseq (write_column d.data_type p max cv) (fun p2 => write_record_go max rest p2))
      else
        wseq (write_column d.data_type pos max cv) (fun p => write_record_go max rest p)

/-- `write_record` (record.c). -/
def write_record (pos max : Nat) (r : RecordC) : WRes :=
  write_record_go max (r.type.column_defs.zip r.column_values) pos

/-- `Record_encode` (record.c): allocate a bytes object of exactly
`size_record` bytes and write the record into it; a write error raises (no
bytes are returned). -/
def Record_encode (r : RecordC) : Option (List Nat) :=
  let size := size_record r
  match write_record 0 size.toNat r with
  | .ok bytes _ => some bytes
  | .err _ => none

/-- `Record_decode` (record.c): clear all cells, then `read_record`; an
error raises (the mutated record is retained, as in the C). -/
def Record_decode (r : RecordC) (buf : List Nat) (pos max : Nat) :
    AvroErr × RecordC × Nat :=
  let cleared := { r with
    column_values := r.type.column_defs.map (fun d => clear_column d) }
  read_record buf pos max cleared

/-- C9: a freshly constructed `Record` has every nullable column null
(`len = -1`) and every non-nullable column zero-filled (`len = 0`, zeroed
raw payload), with one cell per column of the record type. -/
theorem Record_new_initializes_cells (t : RecordTypeC) (i : Nat)
    (h : i < t.column_defs.length) :
    (Record_new t).column_values.length = t.column_defs.length ∧
    (Record_new t).column_values.getD i default =
      { value := .zero,
        len := if (t.column_defs.getD i default).is_nullable then -1 else 0 } := by
  constructor
  · simp [Record_new]
  · simp only [Record_new]
    rw [List.getD_eq_getElem?_getD, List.getElem?_map, List.getD_eq_getElem?_getD]
    cases hx : t.column_defs[i]? with
    | none =>
        exact absurd hx (by simp [List.getElem?_eq_none_iff]; omega)
    | some d =>
        cases hb : d.is_nullable <;> simp [hx, hb]

/-- Witness for C9 at a concrete two-column record type. -/
theorem Record_new_initializes_cells_witness :
    ((Record_new ⟨[⟨.int, true⟩, ⟨.date, false⟩]⟩).column_values.length =
      (⟨[⟨.int, true⟩, ⟨.date, false⟩]⟩ : RecordTypeC).column_defs.length ∧
    (Record_new ⟨[⟨.int, true⟩, ⟨.date, false⟩]⟩).column_values.getD 0 default =
      { value := .zero,
        len := if ((⟨[⟨.int, true⟩, ⟨.date, false⟩]⟩ :
            RecordTypeC).column_defs.getD 0 default).is_nullable then -1 else 0 }) := by
  exact Record_new_initializes_cells ⟨[⟨.int, true⟩, ⟨.date, false⟩]⟩ 0 (by decide)

/-- C2: evaluating `read_record` at a two-int-column record on the buffer
`[0x02]` — column 0 decodes to 1, column 1 hits EOF.  The error cleanup
loop `for (; i > 0; --i)` clears column 1 but never column 0, so the
already-decoded cell of column 0 survives (it is not the cleared cell). -/
theorem read_record_error_skips_column_zero :
    read_record [0x02] 0 1 (Record_new ⟨[⟨.int, false⟩, ⟨.int, false⟩]⟩) =
      (.eof,
        { type := ⟨[⟨.int, false⟩, ⟨.int, false⟩]⟩,
          column_values := [⟨.ival 1, 0⟩, ⟨.zero, 0⟩],
          size := 0 },
        1) ∧
    (⟨.ival 1, 0⟩ : ColumnValue) ≠ clear_column ⟨.int, false⟩ := by decide

/-- C1: evaluating `Record.encode` at a record with one non-nullable date
column holding `encode_date 2024 1 15`.  `size_record` reports 11 bytes and
`Record_encode` allocates exactly that, but `write_digits`'s buffer check
`*pos + digits >= max` rejects the final day digits, which end exactly at
the buffer end — so encoding fails with EOF.  With one spare byte the same
write emits exactly the 11 bytes `len=10 ++ "2024-01-15"`. -/
theorem Record_encode_date_column_fails :
    size_record
      { type := ⟨[⟨.date, false⟩]⟩,
        column_values := [⟨.ival ((encode_date 2024 1 15).getD 0), 0⟩],
        size := 0 } = 11 ∧
    Record_encode
      { type := ⟨[⟨.date, false⟩]⟩,
        column_values := [⟨.ival ((encode_date 2024 1 15).getD 0), 0⟩],
        size := 0 } = .none ∧
    write_record 0 12
      { type := ⟨[⟨.date, false⟩]⟩,
        column_values := [⟨.ival ((encode_date 2024 1 15).getD 0), 0⟩],
        size := 0 } =
      .ok [0x14, 50, 48, 50, 52, 45, 48, 49, 45, 49, 53] 11 := by decide

/-- C5: `read_digits`'s loop condition `temp_digits <= max_digits` reads up
to `max_digits + 1` digits, so with `max_digits = 3` the input `"1234"`
yields 1234 with 4 digits consumed; consequently `read_time_column` accepts
the Avro-bytes value `"09:00:00.1234"` and stores the unscaled 4-digit
value 1234 in `encode_time`'s 10-bit millisecond field, spilling into the
seconds bits (seconds become 1, milliseconds 210). -/
theorem read_time_column_accepts_four_fraction_digits :
    read_digits [49, 50, 51, 52] 0 4 1 3 0 999999 = .ok (1234, 4) 4 ∧
    read_time_column ([0x1A] ++ [48, 57, 58, 48, 48, 58, 48, 48, 46, 49, 50, 51, 52]) 0 14 =
      .ok ⟨.ival (encode_time 9 0 0 1234), 0⟩ 14 ∧
    TIME_SEC (encode_time 9 0 0 1234) = 1 ∧
    TIME_MSEC (encode_time 9 0 0 1234) = 210 := by decide

/-! ## Schema engine (schema.c)

Schema nodes are modelled without record-field default values (equivalent to
every `default_value` being `Py_None`); the `prepare` branches taking a
field's default therefore prepare `None`.  Host-language numeric and string
coercions (`PyNumber_Float` on non-floats, `PyObject_Str` on non-strings,
`PyNumber_Long` on floats/strings) are outside the embedding: the model
accepts the values of the matching Python type (plus `bool` for the integer
kinds and a nonnegative `int` for `PyObject_Bytes`, which zero-fills).
Recursive walks carry an explicit structural step budget; every actual
C recursion is finite, and theorems quantify over the budget. -/

/-- `BufferRange` (bufferrange.h). -/
structure BufferRange where
  start : Int
  length : Int
deriving DecidableEq, Repr

/-- `SchemaDataType`/`Schema` tree (schema.h): kind plus child fields; a
record field carries its name (UTF-8 bytes). -/
inductive SchemaNode where
  | nullable (field : SchemaNode)
  | boolean
  | bytes
  | double
  | float
  | int
  | long
  | string
  | array (field : SchemaNode)
  | map (field : SchemaNode)
  | record (fields : List (List Nat × SchemaNode))
  | object
  | object_array

/-- Python-level values consumed and produced by the Schema engine.  Text
is UTF-8 bytes; floats are their 8 raw IEEE bytes. -/
inductive PyVal where
  | none
  | bool (b : Bool)
  | int (n : Int)
  | float (bits : List Nat)
  | str (s : List Nat)
  | bytes (b : List Nat)
  | list (xs : List PyVal)
  | tuple (xs : List PyVal)
  | dict (kvs : List (PyVal × PyVal))
  | bufferRange (start length : Int)
  | schema (s : SchemaNode)
  | recordType (t : RecordTypeC)
  | record (r : RecordC)

/-- `PyObject_IsTrue`. -/
def py_truthy : PyVal → Bool
  | .none => false
  | .bool b => b
  | .int n => n ≠ 0
  | .float bits => bits.any (· ≠ 0)
  | .str s => !s.isEmpty
  | .bytes b => !b.isEmpty
  | .list xs => !xs.isEmpty
  | .tuple xs => !xs.isEmpty
  | .dict kvs => !kvs.isEmpty
  | .bufferRange _ _ => true
  | .schema _ => true
  | .recordType _ => true
  | .record _ => true

/-- `PyObject_Bytes`: bytes pass through, a nonnegative int zero-fills;
str/None raise TypeError (other conversions are not modelled). -/
def py_bytes_conv : PyVal → Option (List Nat)
  | .bytes b => some b
  | .int n => if 0 ≤ n then some (List.replicate n.toNat 0) else Option.none
  | _ => Option.none

/-- IEEE double→float narrowing used by the `float` schema kind; the bit
conversion itself is outside the embedding (only its 4-byte width is
relevant to the codec's obligations). -/
def double_to_float_bytes (_bits : List Nat) : List Nat := List.replicate 4 0

/-- IEEE float→double widening used when decoding a `float` schema. -/
def float_to_double_bytes (_bits : List Nat) : List Nat := List.replicate 8 0

/-- The prepared tree produced by the prepare pass (schema.c): encode-ready
primitives mirroring the schema shape. -/
inductive Prepared where
  | none
  | bool (b : Bool)
  | bytes (b : List Nat)
  | float8 (bits : List Nat)
  | int (n : Int)
  | list (xs : List Prepared)
  | maplist (xs : List (List Nat × Prepared))
  | record (fields : List Prepared)
  | objEmpty
  | objSchema (sub : SchemaNode) (size : Int) (p : Prepared)
  | objRecord (r : RecordC)
  | objArrEmpty
  | objArrSchema (sub : SchemaNode) (items : List (Int × Prepared))
  | objArrRecords (rs : List RecordC)

/-- One element of the error-path description threaded back by the prepare
pass (the C builds the same structure as a formatted string). -/
inductive PathStep where
  | arrayItem (i : Nat)
  | mapKey (k : PyVal)
  | valueOfMapKey (k : PyVal)
  | recordField (name : List Nat)
  | valueOfRecordField (name : List Nat)
  | object
  | arrayObject (i : Nat)

/-- Result of `prepare_schema`: success with the prepared value and the
accumulated size, failure with the (possibly absent) path and the size
accumulated so far, or exhaustion of the step budget. -/
inductive PrepRes where
  | ok (p : Prepared) (size : Int)
  | fail (path : Option (List PathStep)) (size : Int)
  | fuel

/-- Wrap a failure path with one more step, as the C's `format_string_safe`
wrapping does (an absent path becomes the single step). -/
def wrap_path (st : PathStep) : Option (List PathStep) → Option (List PathStep)
  | o => some (o.getD [] ++ [st])

/-- `prepare_string_schema` (schema.c): convert to str then UTF-8 bytes. -/
def prepare_string_py (v : PyVal) (size : Int) : PrepRes :=
  match v with
  | .str s => .ok (.bytes s) (size + size_long s.length + s.length)
  | _ => .fail Option.none size

/-- Result of a prepared-sequence helper. -/
inductive PrepListRes (α : Type) where
  | ok (ps : List α) (size : Int)
  | fail (path : Option (List PathStep)) (size : Int)
  | fuel

/-- Item loop of `prepare_array_schema` (schema.c). -/
def prepare_array_items (prep : PyVal → Int → PrepRes) :
    List PyVal → Nat → Int → PrepListRes Prepared
  | [], _, size => .ok [] size
  | x :: xs, i, size =>
      match prep x size with
      | .fuel => .fuel
      | .fail path size2 => .fail (wrap_path (.arrayItem i) path) size2
      | .ok p size2 =>
          match prepare_array_items prep xs (i + 1) size2 with
          | .ok ps size3 => .ok (p :: ps) size3
          | r => r

/-- Item loop of `prepare_map_schema` (schema.c): prepare the key as a
string, then the value; a key failure replaces the path, a value failure
wraps it. -/
def prepare_map_items (prep : PyVal → Int → PrepRes) :
    List (PyVal × PyVal) → Int → PrepListRes (List Nat × Prepared)
  | [], size => .ok [] size
  | (k, v) :: xs, size =>
      match prepare_string_py k size with
      | .fuel => .fuel
      | .fail _ size2 => .fail (some [.mapKey k]) size2
      | .ok kp size2 =>
          let kbytes := match kp with | .bytes b => b | _ => []
          match prep v size2 with
          | .fuel => .fuel
          | .fail path size3 => .fail (wrap_path (.valueOfMapKey k) path) size3
          | .ok vp size3 =>
              match prepare_map_items prep xs size3 with
              | .ok ps size4 => .ok ((kbytes, vp) :: ps) size4
              | r => r

/-- `PyMapping_HasKey` on the dict model (string keys compared by value). -/
def dict_has_key (kvs : List (PyVal × PyVal)) (name : List Nat) : Bool :=
  kvs.any (fun kv => match kv.1 with | .str s => s == name | _ => false)

/-- `PyObject_GetItem` on the dict model: first matching entry. -/
def dict_get (kvs : List (PyVal × PyVal)) (name : List Nat) : PyVal :=
  match kvs.find? (fun kv => match kv.1 with | .str s => s == name | _ => false) with
  | some kv => kv.2
  | Option.none => .none

/-- Result of the record-field loop: the prepared fields, the size, and the
number of dict entries consumed (the C decrements `count`). -/
inductive PrepRecRes where
  | ok (ps : List Prepared) (size : Int) (found : Nat)
  | fail (path : Option (List PathStep)) (size : Int)
  | fuel

/-- Field loop of `prepare_record_schema` (schema.c) without default values
(every `default_value` is `None`): a present non-None value is prepared; a
missing or None value requires the field to be nullable (else the
"required"/"not found" error replaces the path) and prepares `None`. -/
def prepare_record_fields (prep : SchemaNode → PyVal → Int → PrepRes)
    (kvs : List (PyVal × PyVal)) :
    List (List Nat × SchemaNode) → Int → Nat → PrepRecRes
  | [], size, found => .ok [] size found
  | (name, f) :: fields, size, found =>
      let go : PrepRes → Nat → PrepRecRes := fun r found2 =>
        match r with
        | .fuel => .fuel
        | .fail path size2 => .fail (wrap_path (.valueOfRecordField name) path) size2
        | .ok p size2 =>
            match prepare_record_fields prep kvs fields size2 found2 with
            | .ok ps size3 found3 => .ok (p :: ps) size3 found3
            | r2 => r2
      if dict_has_key kvs name then
        match dict_get kvs name with
        | .none =>
            match f with
            | .nullable _ => go (prep f .none size) (found + 1)
            | _ => .fail (some [.recordField name]) size
        | fv => go (prep f fv size) (found + 1)
      else
        match f with
        | .nullable _ => go (prep f .none size) found
        | _ => .fail (some [.recordField name]) size

/-- Schema-typed item loop of `prepare_object_array_schema` (schema.c):
each object is prepared with a fresh size accumulator and contributes
`object_size + size_long(object_size)` to the outer size. -/
def prep_objarr_schema_items (prep : PyVal → Int → PrepRes) :
    List PyVal → Nat → Int → PrepListRes (Int × Prepared)
  | [], _, size => .ok [] size
  | x :: xs, i, size =>
      match prep x 0 with
      | .fuel => .fuel
      | .fail path _ => .fail (wrap_path (.arrayObject i) path) size
      | .ok p osize =>
          match prep_objarr_schema_items prep xs (i + 1)
              (size + osize + (size_long osize : Int)) with
          | .ok items size2 => .ok ((osize, p) :: items) size2
          | r => r

/-- Record-typed item loop of `prepare_object_array_schema` (schema.c):
each object must be a `Record` of the given type and contributes
`size_record + size_long(size_record)`. -/
def prep_objarr_record_items (t : RecordTypeC) :
    List PyVal → Nat → Int → PrepListRes RecordC
  | [], _, size => .ok [] size
  | x :: xs, i, size =>
      match x with
      | .record r =>
          if r.type = t then
            match prep_objarr_record_items t xs (i + 1)
                (size + size_record r + (size_long (size_record r) : Int)) with
            | .ok rs size2 => .ok (r :: rs) size2
            | r2 => r2
          else .fail (some [.arrayObject i]) size
      | _ => .fail (some [.arrayObject i]) size

/-- One unfolding of `prepare_schema` (schema.c) given the recursive
function for children.  `prepare_boolean_schema` is total here
(`PyObject_IsTrue` fails only for objects outside the value model); the
numeric kinds accept int/bool (host-language coercions from other types are
outside the embedding), `double`/`float` accept a Python float, and an
`object` 1-tuple — which the C reads out of bounds — is mapped to an
unpathed failure. -/
def prepare_schema_step (prep : SchemaNode → PyVal → Int → PrepRes) :
    SchemaNode → PyVal → Int → PrepRes
  | .nullable f, v, size =>
      match v with
      | .none => .ok .none (size + 1)
      | _ => prep f v (size + 1)
  | .boolean, v, size => .ok (.bool (py_truthy v)) (size + 1)
  | .bytes, v, size =>
      match py_bytes_conv v with
      | some b => .ok (.bytes b) (size + (size_long b.length : Int) + b.length)
      | Option.none => .fail Option.none size
  | .double, v, size =>
      match v with
      | .float bits => .ok (.float8 bits) (size + 8)
      | _ => .fail Option.none size
  | .float, v, size =>
      match v with
      | .float bits => .ok (.float8 bits) (size + 4)
      | _ => .fail Option.none size
  | .int, v, size =>
      match v with
      | .int n =>
          if -(2 ^ 31) ≤ n ∧ n ≤ 2 ^ 31 - 1 then .ok (.int n) (size + (size_long n : Int))
          else .fail Option.none size
      | .bool b =>
          let n : Int := if b then 1 else 0
          .ok (.int n) (size + (size_long n : Int))
      | _ => .fail Option.none size
  | .long, v, size =>
      match v with
      | .int n =>
          if -(2 ^ 63) ≤ n ∧ n ≤ 2 ^ 63 - 1 then .ok (.int n) (size + (size_long n : Int))
          else .fail Option.none size
      | .bool b =>
          let n : Int := if b then 1 else 0
          .ok (.int n) (size + (size_long n : Int))
      | _ => .fail Option.none size
  | .string, v, size => prepare_string_py v size
  | .array f, v, size =>
      match v with
      | .list xs | .tuple xs =>
          match prepare_array_items (prep f) xs 0 size with
          | .ok ps size2 =>
              .ok (.list ps) (size2 + (size_long xs.length : Int) +
                (if 0 < xs.length then 1 else 0))
          | .fail path size2 => .fail path size2
          | .fuel => .fuel
      | _ => .fail Option.none size
  | .map f, v, size =>
      match v with
      | .dict kvs =>
          match prepare_map_items (prep f) kvs size with
          | .ok ps size2 =>
              .ok (.maplist ps) (size2 + (size_long kvs.length : Int) +
                (if 0 < kvs.length then 1 else 0))
          | .fail path size2 => .fail path size2
          | .fuel => .fuel
      | _ => .fail Option.none size
  | .record fields, v, size =>
      match v with
      | .dict kvs =>
          match prepare_record_fields prep kvs fields size 0 with
          | .ok ps size2 found =>
              if (kvs.length : Int) - found = 0 then .ok (.record ps) size2
              else .fail Option.none size2
          | .fail path size2 => .fail path size2
          | .fuel => .fuel
      | _ => .fail Option.none size
  | .object, v, size =>
      match v with
      | .tuple [] => .ok .objEmpty (size + 1)
      | .tuple [_] => .fail Option.none size
      | .tuple (ty :: ob :: _) =>
          match ty with
          | .schema sub =>
              match prep sub ob 0 with
              | .ok p osize =>
                  .ok (.objSchema sub osize p) (size + osize + (size_long osize : Int))
              | .fail path _ => .fail (wrap_path .object path) size
              | .fuel => .fuel
          | .recordType t =>
              match ob with
              | .record r =>
                  if r.type = t then
                    .ok (.objRecord r)
                      (size + size_record r + (size_long (size_record r) : Int))
                  else .fail (some [.object]) size
              | _ => .fail (some [.object]) size
          | _ => .fail Option.none size
      | _ => .fail Option.none size
  | .object_array, v, size =>
      match v with
      | .tuple [] => .ok .objArrEmpty (size + 1)
      | .tuple [ty, obs] =>
          match ty, obs with
          | .schema sub, .list xs | .schema sub, .tuple xs =>
              match prep_objarr_schema_items (prep sub) xs 0 size with
              | .ok items size2 =>
                  .ok (.objArrSchema sub items) (size2 + (size_long xs.length : Int) +
                    (if 0 < xs.length then 1 else 0))
              | .fail path size2 => .fail path size2
              | .fuel => .fuel
          | .recordType t, .list xs | .recordType t, .tuple xs =>
              match prep_objarr_record_items t xs 0 size with
              | .ok rs size2 =>
                  .ok (.objArrRecords rs) (size2 + (size_long xs.length : Int) +
                    (if 0 < xs.length then 1 else 0))
              | .fail path size2 => .fail path size2
              | .fuel => .fuel
          | .schema _, _ => .fail Option.none size
          | .recordType _, _ => .fail Option.none size
          | _, _ => .fail Option.none size
      | .tuple _ => .fail Option.none size
      | _ => .fail Option.none size

/-- `prepare_schema` (schema.c) with an explicit recursion budget; every
actual call terminates, and the theorems quantify over the budget. -/
def prepare_schema : Nat → SchemaNode → PyVal → Int → PrepRes
  | 0, _, _, _ => .fuel
  | fuel + 1, s, v, size => prepare_schema_step (prepare_schema fuel) s v size

/-! ### Schema writing (schema.c) -/

/-- Result of the write pass: emitted bytes and new cursor, a codec error
(`handle_write_error` raises it), or `stuck` for an exhausted step budget
or a prepared value whose shape the C would misinterpret (undefined
behaviour such as `PyBytes_AS_STRING` on a non-bytes object). -/
inductive WSRes where
  | ok (bytes : List Nat) (pos : Nat)
  | err (e : AvroErr)
  | stuck
deriving DecidableEq, Repr

/-- Lift a raw codec write into a schema-write result. -/
def wlift : WRes → WSRes
  | .ok bs p => .ok bs p
  | .err e => .err e

/-- Sequencing of two schema writes. -/
def wsseq : WSRes → (Nat → WSRes) → WSRes
  | .err e, _ => .err e
  | .stuck, _ => .stuck
  | .ok bs p, f =>
      match f p with
      | .ok bs2 p2 => .ok (bs ++ bs2) p2
      | .err e => .err e
      | .stuck => .stuck

/-- Item loop of `write_array_schema` (schema.c). -/
def write_array_items (w : Prepared → Nat → WSRes) : List Prepared → Nat → WSRes
  | [], pos => .ok [] pos
  | q :: qs, pos => wsseq (w q pos) (fun p2 => write_array_items w qs p2)

/-- Item loop of `write_map_schema` (schema.c): each key is written with
`write_bytes_schema`, then the value with the field schema. -/
def write_map_items (max : Nat) (w : Prepared → Nat → WSRes) :
    List (List Nat × Prepared) → Nat → WSRes
  | [], pos => .ok [] pos
  | (k, q) :: qs, pos =>
      wsseq (wlift (write_bytes pos max k k.length)) (fun p2 =>
      wsseq (w q p2) (fun p3 => write_map_items max w qs p3))

/-- Field loop of `write_record_schema` (schema.c): the C indexes the
prepared list once per schema field, so a short list is out of bounds. -/
def write_record_fields (w : SchemaNode → Prepared → Nat → WSRes) :
    List (List Nat × SchemaNode) → List Prepared → Nat → WSRes
  | [], _, pos => .ok [] pos
  | (_, f) :: fields, q :: qs, pos =>
      wsseq (w f q pos) (fun p2 => write_record_fields w fields qs p2)
  | _ :: _, [], _ => .stuck

/-- Schema-typed item loop of `write_object_array_schema` (schema.c): each
item's saved size is written, then the item. -/
def write_objarr_schema_items (max : Nat) (w : Prepared → Nat → WSRes) :
    List (Int × Prepared) → Nat → WSRes
  | [], pos => .ok [] pos
  | (osize, q) :: items, pos =>
      wsseq (wlift (write_size pos max osize)) (fun p2 =>
      wsseq (w q p2) (fun p3 => write_objarr_schema_items max w items p3))

/-- Record-typed item loop of `write_object_array_schema` (schema.c). -/
def write_objarr_records (max : Nat) : List RecordC → Nat → WSRes
  | [], pos => .ok [] pos
  | r :: rs, pos =>
      wsseq (wlift (write_size pos max (size_record r))) (fun p2 =>
      wsseq (wlift (write_record p2 max r)) (fun p3 => write_objarr_records max rs p3))

/-- One unfolding of `write_schema` (schema.c) given the recursive function
for children. -/
def write_schema_step (max : Nat) (wr : SchemaNode → Prepared → Nat → WSRes) :
    SchemaNode → Prepared → Nat → WSRes
  | .nullable f, p, pos =>
      match p with
      | .none => wlift (write_long pos max 1)
      | _ => wsseq (wlift (write_long pos max 0)) (fun p2 => wr f p p2)
  | .boolean, p, pos =>
      match p with
      | .bool true => wlift (write_boolean pos max 1)
      | _ => wlift (write_boolean pos max 0)
  | .bytes, p, pos =>
      match p with
      | .bytes b => wlift (write_bytes pos max b b.length)
      | _ => .stuck
  | .double, p, pos =>
      match p with
      | .float8 bits => wlift (write_double pos max bits)
      | _ => .stuck
  | .float, p, pos =>
      match p with
      | .float8 bits => wlift (write_float pos max (double_to_float_bytes bits))
      | _ => .stuck
  | .int, p, pos =>
      match p with
      | .int n => wlift (write_int pos max n)
      | _ => .stuck
  | .long, p, pos =>
      match p with
      | .int n => wlift (write_long pos max n)
      | _ => .stuck
  | .string, p, pos =>
      match p with
      | .bytes b => wlift (write_bytes pos max b b.length)
      | _ => .stuck
  | .array f, p, pos =>
      match p with
      | .list qs =>
          wsseq (wlift (write_size pos max qs.length)) (fun p2 =>
            if qs.length = 0 then .ok [] p2
            else wsseq (write_array_items (wr f) qs p2) (fun p3 =>
              wlift (write_size p3 max 0)))
      | _ => .stuck
  | .map f, p, pos =>
      match p with
      | .maplist qs =>
          wsseq (wlift (write_size pos max qs.length)) (fun p2 =>
            if qs.length = 0 then .ok [] p2
            else wsseq (write_map_items max (wr f) qs p2) (fun p3 =>
              wlift (write_size p3 max 0)))
      | _ => .stuck
  | .record fields, p, pos =>
      match p with
      | .record qs => write_record_fields wr fields qs pos
      | _ => .stuck
  | .object, p, pos =>
      match p with
      | .objEmpty => wlift (write_size pos max 0)
      | .objSchema sub osize q =>
          wsseq (wlift (write_size pos max osize)) (fun p2 => wr sub q p2)
      | .objRecord r =>
          wsseq (wlift (write_size pos max (size_record r))) (fun p2 =>
            wlift (write_record p2 max r))
      | _ => .stuck
  | .object_array, p, pos =>
      match p with
      | .objArrEmpty => wlift (write_size pos max 0)
      | .objArrSchema sub items =>
          wsseq (wlift (write_size pos max items.length)) (fun p2 =>
            if items.length = 0 then .ok [] p2
            else wsseq (write_objarr_schema_items max (wr sub) items p2) (fun p3 =>
              wlift (write_size p3 max 0)))
      | .objArrRecords rs =>
          wsseq (wlift (write_size pos max rs.length)) (fun p2 =>
            if rs.length = 0 then .ok [] p2
            else wsseq (write_objarr_records max rs p2) (fun p3 =>
              wlift (write_size p3 max 0)))
      | _ => .stuck

/-- `write_schema` (schema.c) with an explicit recursion budget. -/
def write_schema : Nat → Nat → SchemaNode → Prepared → Nat → WSRes
  | 0, _, _, _, _ => .stuck
  | fuel + 1, max, s, p, pos => write_schema_step max (write_schema fuel max) s p pos

/-! ### Schema reading (schema.c) -/

/-- `read_bytes_data` (avro.c): copy `len` bytes and advance (bounds were
established by `read_bytes_len`). -/
def read_bytes_data (buf : List Nat) (pos : Nat) (len : Int) : List Nat × Nat :=
  ((buf.drop pos).take len.toNat, pos + len.toNat)

/-- Result of a schema read: the decoded value and new cursor, a codec
error (`handle_read_error` raises it), or `stuck` for an exhausted step
budget. -/
inductive RSRes (α : Type) where
  | ok (v : α) (pos : Nat)
  | err (e : AvroErr)
  | stuck

/-- Inner item loop shared by `read_array_schema` and
`read_object_array_schema` (schema.c): read `count` items. -/
def read_seq_items (rdItem : Nat → RSRes PyVal) :
    Nat → List PyVal → Nat → RSRes (List PyVal)
  | 0, acc, pos => .ok acc pos
  | n + 1, acc, pos =>
      match rdItem pos with
      | .ok v p2 => read_seq_items rdItem n (acc ++ [v]) p2
      | .err e => .err e
      | .stuck => .stuck

/-- Block loop shared by `read_array_schema` and
`read_object_array_schema` (schema.c): a negative block count is negated
after skipping the block byte size; a zero block count ends the sequence.
The number of blocks is data-driven, so the loop carries its own step
budget. -/
def read_seq_blocks (buf : List Nat) (max : Nat) (rdItem : Nat → RSRes PyVal) :
    Nat → Int → List PyVal → Nat → RSRes (List PyVal)
  | 0, _, _, _ => .stuck
  | fuel + 1, bc, acc, pos =>
      if bc = 0 then .ok acc pos
      else
        let afterItems : Int → Nat → RSRes (List PyVal) := fun cnt p =>
          match read_seq_items rdItem cnt.toNat acc p with
          | .ok acc2 p2 =>
              match read_size buf p2 max with
              | .ok bc2 p3 => read_seq_blocks buf max rdItem fuel bc2 acc2 p3
              | .err e => .err e
          | .err e => .err e
          | .stuck => .stuck
        if bc < 0 then
          match read_long buf pos max with
          | .ok _ p2 => afterItems (-bc) p2
          | .err e => .err e
        else afterItems bc pos

/-- Key/value loop of `read_map_schema` (schema.c); keys are read with
`read_string_schema`.  The accumulated entries model `PyDict_SetItem`
insertion order (duplicate keys are not collapsed in the model). -/
def read_map_entries (buf : List Nat) (max : Nat) (rdVal : Nat → RSRes PyVal) :
    Nat → List (PyVal × PyVal) → Nat → RSRes (List (PyVal × PyVal))
  | 0, acc, pos => .ok acc pos
  | n + 1, acc, pos =>
      match read_bytes_len buf pos max with
      | .err e => .err e
      | .ok klen p2 =>
          let kd := read_bytes_data buf p2 klen
          match rdVal kd.2 with
          | .ok v p3 => read_map_entries buf max rdVal n (acc ++ [(.str kd.1, v)]) p3
          | .err e => .err e
          | .stuck => .stuck

/-- Block loop of `read_map_schema` (schema.c). -/
def read_map_blocks (buf : List Nat) (max : Nat) (rdVal : Nat → RSRes PyVal) :
    Nat → List (PyVal × PyVal) → Nat → RSRes (List (PyVal × PyVal))
  | 0, _, _ => .stuck
  | fuel + 1, acc, pos =>
      match read_size buf pos max with
      | .err e => .err e
      | .ok count p2 =>
          if count = 0 then .ok acc p2
          else
            let run : Int → Nat → RSRes (List (PyVal × PyVal)) := fun cnt p =>
              match read_map_entries buf max rdVal cnt.toNat acc p with
              | .ok acc2 p3 => read_map_blocks buf max rdVal fuel acc2 p3
              | .err e => .err e
              | .stuck => .stuck
            if count < 0 then
              match read_long buf p2 max with
              | .ok _ p3 => run (-count) p3
              | .err e => .err e
            else run count p2

/-- Field loop of `read_record_schema` (schema.c): decode each field in
order into a dict keyed by the field name. -/
def read_record_fields (rd : SchemaNode → Nat → RSRes PyVal) :
    List (List Nat × SchemaNode) → List (PyVal × PyVal) → Nat →
    RSRes (List (PyVal × PyVal))
  | [], acc, pos => .ok acc pos
  | (name, f) :: fields, acc, pos =>
      match rd f pos with
      | .ok v p2 => read_record_fields rd fields (acc ++ [(.str name, v)]) p2
      | .err e => .err e
      | .stuck => .stuck

/-- `read_object_schema` (schema.c): read the byte length, then return a
`BufferRange` whose start is the cursor's offset from the start of the
whole buffer (`*pos - buf`) and skip the payload. -/
def read_object_schema (buf : List Nat) (max pos : Nat) : RSRes PyVal :=
  match read_bytes_len buf pos max with
  | .err e => .err e
  | .ok len p2 => .ok (.bufferRange p2 len) (p2 + len.toNat)

/-- One unfolding of `read_schema` (schema.c) given the recursive function
for children.  `buf` is the whole buffer (object ranges are relative to
it), `max` the end of the readable window. -/
def read_schema_step (buf : List Nat) (max : Nat) (rd : SchemaNode → Nat → RSRes PyVal) :
    SchemaNode → Nat → RSRes PyVal
  | .nullable f, pos =>
      match read_long buf pos max with
      | .err e => .err e
      | .ok is_null p2 =>
          if is_null = 1 then .ok .none p2
          else if is_null = 0 then rd f p2
          else .err .overflow
  | .boolean, pos =>
      match read_boolean buf pos max with
      | .err e => .err e
      | .ok b p2 => .ok (.bool (b ≠ 0)) p2
  | .bytes, pos =>
      match read_bytes_len buf pos max with
      | .err e => .err e
      | .ok len p2 =>
          let d := read_bytes_data buf p2 len
          .ok (.bytes d.1) d.2
  | .double, pos =>
      match read_double buf pos max with
      | .err e => .err e
      | .ok bits p2 => .ok (.float bits) p2
  | .float, pos =>
      match read_float buf pos max with
      | .err e => .err e
      | .ok bits p2 => .ok (.float (float_to_double_bytes bits)) p2
  | .int, pos =>
      match read_int buf pos max with
      | .err e => .err e
      | .ok n p2 => .ok (.int n) p2
  | .long, pos =>
      match read_long buf pos max with
      | .err e => .err e
      | .ok n p2 => .ok (.int n) p2
  | .string, pos =>
      match read_bytes_len buf pos max with
      | .err e => .err e
      | .ok len p2 =>
          let d := read_bytes_data buf p2 len
          .ok (.str d.1) d.2
  | .array f, pos =>
      match read_size buf pos max with
      | .err e => .err e
      | .ok bc p2 =>
          match read_seq_blocks buf max (rd f) (max + 1) bc [] p2 with
          | .ok xs p3 => .ok (.list xs) p3
          | .err e => .err e
          | .stuck => .stuck
  | .map f, pos =>
      match read_map_blocks buf max (rd f) (max + 1) [] pos with
      | .ok kvs p2 => .ok (.dict kvs) p2
      | .err e => .err e
      | .stuck => .stuck
  | .record fields, pos =>
      match read_record_fields rd fields [] pos with
      | .ok kvs p2 => .ok (.dict kvs) p2
      | .err e => .err e
      | .stuck => .stuck
  | .object, pos => read_object_schema buf max pos
  | .object_array, pos =>
      match read_size buf pos max with
      | .err e => .err e
      | .ok bc p2 =>
          match read_seq_blocks buf max (fun p => read_object_schema buf max p)
              (max + 1) bc [] p2 with
          | .ok xs p3 => .ok (.list xs) p3
          | .err e => .err e
          | .stuck => .stuck

/-- `read_schema` (schema.c) with an explicit recursion budget. -/
def read_schema : Nat → List Nat → Nat → SchemaNode → Nat → RSRes PyVal
  | 0, _, _, _, _ => .stuck
  | fuel + 1, buf, max, s, pos => read_schema_step buf max (read_schema fuel buf max) s pos

/-- Result of `Schema.decode`: the value, a range-validation `ValueError`,
a codec error, or an exhausted budget. -/
inductive DecodeRes where
  | ok (v : PyVal)
  | rangeError
  | err (e : AvroErr)
  | stuck

/-- `Schema_decode` (schema.c): an optional `BufferRange` selects the
readable window (validated against the buffer), and reading starts at the
range's start with `buf` still the whole buffer. -/
def Schema_decode (fuel : Nat) (s : SchemaNode) (buffer : List Nat)
    (range : Option BufferRange) : DecodeRes :=
  let run : Nat → Nat → DecodeRes := fun pos max =>
    match read_schema fuel buffer max s pos with
    | .ok v _ => .ok v
    | .err e => .err e
    | .stuck => .stuck
  match range with
  | Option.none => run 0 buffer.length
  | some r =>
      if 0 ≤ r.start ∧ r.start ≤ (buffer.length : Int) then
        if 0 ≤ r.length ∧ r.start + r.length ≤ (buffer.length : Int) then
          run r.start.toNat (r.start.toNat + r.length.toNat)
        else .rangeError
      else .rangeError

/-- Result of `Schema.encode`.  `writeWithNullPrepared` marks the control
path where `prepare_schema` failed without producing a path description:
`Schema_encode` (schema.c) then falls through its `if (!prepared)` block
without a `goto error`, allocates a buffer of the accumulated size, and
calls `write_schema` with `prepared == NULL`. -/
inductive EncodeRes where
  | ok (bytes : List Nat)
  | prepError (path : List PathStep)
  | writeWithNullPrepared (size : Int)
  | writeError (e : AvroErr)
  | stuck

/-- `Schema_encode` (schema.c): prepare, allocate `size` bytes, write. -/
def Schema_encode (fuel : Nat) (s : SchemaNode) (v : PyVal) : EncodeRes :=
  match prepare_schema fuel s v 0 with
  | .fuel => .stuck
  | .fail (some path) _ => .prepError path
  | .fail Option.none size => .writeWithNullPrepared size
  | .ok p size =>
      match write_schema fuel size.toNat s p 0 with
      | .ok bytes _ => .ok bytes
      | .err e => .writeError e
      | .stuck => .stuck

/-- C6: `Schema_encode` (schema.c) checks `if (!prepared) { if (path) {
... goto error; } }` — when the prepare pass fails without constructing a
path description (as for a `bytes` schema whose value cannot be converted,
failing at the top level), there is no `goto`, and control falls through to
the write pass with `prepared == NULL` instead of raising the prepare
error.  A failure that does carry a path (here: the same conversion
failure one level down inside an array) is raised correctly. -/
theorem Schema_encode_null_prepared_write :
    Schema_encode 10 .bytes (.str [120]) = .writeWithNullPrepared 0 ∧
    Schema_encode 10 (.array .bytes) (.list [.str [120]]) =
      .prepError [.arrayItem 0] :=
  ⟨rfl, rfl⟩

/-- C8: a `BufferRange` decoded for an `object` schema is absolute: its
`start` is the payload's offset from the base of the whole buffer
(`*pos - buf`), not from the start of the decode window, and its `length`
is the payload's byte length, with the payload skipped unparsed.  First
conjunct: general, for an object whose length varint and payload sit after
an arbitrary prefix.  Second conjunct: `Schema.decode` of an
`object_array` restricted to a `BufferRange` sub-window starting at offset
10 returns ranges with starts 12 and 22 — absolute offsets in the original
buffer. -/
theorem read_object_bufferRange_absolute :
    (∀ (fuel : Nat) (pre p post : List Nat) (max : Nat),
      (p.length : Int) < 2 ^ 63 →
      pre.length + size_long p.length + p.length ≤ max →
      read_schema (fuel + 1) (pre ++ varint_bytes (zigzag64 p.length) ++ (p ++ post))
          max .object pre.length =
        .ok (.bufferRange ((pre.length + size_long p.length : Nat) : Int) p.length)
          (pre.length + size_long p.length + p.length)) ∧
    Schema_decode 5 .object_array
      [0, 0, 0, 0, 0, 0, 0, 0, 0, 0,
       2, 16, 1, 2, 3, 4, 5, 6, 7, 8,
       2, 12, 9, 10, 11, 12, 13, 14, 0]
      (some ⟨10, 19⟩) =
      .ok (.list [.bufferRange 12 8, .bufferRange 22 6]) := by
  constructor
  · intro fuel pre p post max hp hroom
    have hnn : (0 : Int) ≤ (p.length : Int) := Int.natCast_nonneg _
    have hrl := read_long_at (p.length : Int) pre (p ++ post) max
      (by omega) hp (by omega)
    have h1 : ¬((p.length : Int) < 0) := by omega
    have h2 : ¬(((pre.length + size_long (p.length : Int) : Nat) : Int) +
        (p.length : Int) > (max : Int)) := by
      push_cast
      omega
    simp only [read_schema, read_schema_step, read_object_schema, read_bytes_len,
      read_size]
    rw [hrl]
    have h3 : ¬((max : Int) < (pre.length : Int) + (size_long (p.length : Int) : Int) +
        (p.length : Int)) := by
      omega
    simp [h1, h3]
  · rfl

/-- Witness for C8's general conjunct: a 3-byte payload after a 2-byte
prefix; the returned range starts at absolute offset 3. -/
theorem read_object_bufferRange_absolute_witness :
    read_schema 1
        ([0, 0] ++ varint_bytes (zigzag64 (List.length [7, 7, 7])) ++
          ([7, 7, 7] ++ [9]))
        7 .object (List.length [0, 0]) =
      .ok
        (.bufferRange
          ((List.length [0, 0] + size_long (List.length [7, 7, 7]) : Nat) : Int)
          (List.length [7, 7, 7]))
        (List.length [0, 0] + size_long (List.length [7, 7, 7]) +
          List.length [7, 7, 7]) :=
  read_object_bufferRange_absolute.1 0 [0, 0] [7, 7, 7] [9] 7
    (by norm_num) (by decide)

/-! ### Prepare/write size agreement (claim C3) -/

/-- `write_long` advances by exactly `size_long l` when it fits. -/
theorem write_long_advance (pos max : Nat) (l : Int)
    (h : pos + size_long l ≤ max) :
    write_long pos max l = .ok (varint_bytes (zigzag64 l)) (pos + size_long l) := by
  unfold write_long
  rw [size_long_eq_length] at h
  rw [if_neg (by omega)]
  rw [size_long_eq_length]

/-- `write_bytes` advances by exactly `size_long len + len` when it fits. -/
theorem write_bytes_advance (pos max : Nat) (b : List Nat) (len : Int)
    (h0 : 0 ≤ len) (h : pos + size_long len + len.toNat ≤ max) :
    ∃ bs, write_bytes pos max b len = .ok bs (pos + size_long len + len.toNat) := by
  refine ⟨varint_bytes (zigzag64 len) ++ b.take len.toNat, ?_⟩
  unfold write_bytes write_size
  rw [write_long_advance pos max len (by omega)]
  dsimp only
  rw [if_neg (by omega)]

/-- Both counting loops of `write_digits` report exactly `m` digits for a
nonnegative value below `10 ^ m`. -/
theorem wd_count (m : Nat) (i : Int) (h0 : 0 ≤ i) (hi : i < 10 ^ m) :
    (wd_loop1 m i).2.2 = 0 ∧ (wd_loop1 m i).1 + (wd_loop1 m i).2.1 = m := by
  induction m generalizing i with
  | zero =>
      have h1 : i < 1 := by simpa using hi
      have : i = 0 := by omega
      subst this
      exact ⟨rfl, rfl⟩
  | succ m ih =>
      by_cases hz : i = 0
      · subst hz
        simp [wd_loop1]
      · have htd : i.tdiv 10 = i / 10 := Int.tdiv_eq_ediv h0 (by norm_num)
        have h0' : 0 ≤ i.tdiv 10 := by
          rw [htd]
          exact Int.ediv_nonneg h0 (by norm_num)
        have hi' : i.tdiv 10 < 10 ^ m := by
          rw [htd]
          rw [Int.ediv_lt_iff_lt_mul (by norm_num)]
          calc i < 10 ^ (m + 1) := hi
            _ = 10 ^ m * 10 := by rw [pow_succ]
        obtain ⟨ha, hb⟩ := ih (i.tdiv 10) h0' hi'
        simp only [wd_loop1, hz, ne_eq, not_false_eq_true, if_true]
        exact ⟨ha, by omega⟩

/-- `write_digits` advances by exactly `m` characters for a nonnegative
value below `10 ^ m` with strictly more than `m` bytes of room (the
check is `*pos + digits >= max`). -/
theorem write_digits_advance (pos max m : Nat) (i : Int)
    (h0 : 0 ≤ i) (hi : i < 10 ^ m) (hroom : pos + m < max) :
    ∃ bs, write_digits pos max m i = .ok bs (pos + m) := by
  obtain ⟨ha, hb⟩ := wd_count m i h0 hi
  simp only [write_digits, ha]
  have h2 : wd_loop2 12 0 = 0 := rfl
  rw [h2]
  have hd : (wd_loop1 m i).2.1 + 0 + (wd_loop1 m i).1 = m := by omega
  rw [hd]
  rw [if_neg (by omega)]
  exact ⟨_, rfl⟩

/-- "`w` succeeds and leaves the cursor at `p`" — the advance contract of a
C write call. -/
abbrev WAdv (w : WRes) (p : Nat) : Prop := ∃ bs, w = .ok bs p

/-- Sequenced writes advance by the sum of their advances. -/
theorem wseq_adv {w : WRes} {f : Nat → WRes} {p q : Nat}
    (hw : WAdv w p) (hf : WAdv (f p) q) : WAdv (wseq w f) q := by
  obtain ⟨bs, hw⟩ := hw
  obtain ⟨bs2, hf⟩ := hf
  rw [hw]
  exact ⟨bs ++ bs2, by simp [wseq, hf]⟩

/-- A one-byte `write_size` (any value whose varint is a single byte). -/
theorem write_size_one (pos max : Nat) (l : Int) (hl : size_long l = 1)
    (h : pos + 1 ≤ max) : WAdv (write_size pos max l) (pos + 1) := by
  have hw := write_long_advance pos max l (by omega)
  rw [hl] at hw
  exact ⟨_, hw⟩

/-- `write_char` advances by one byte. -/
theorem write_char_advance (pos max : Nat) (c : Nat) (h : pos < max) :
    WAdv (write_char pos max c) (pos + 1) := by
  refine ⟨[c], ?_⟩
  unfold write_char
  rw [if_neg (by omega)]

/-- Cast bound for a masked field. -/
theorem natCast_and_lt (a m bnd : Nat) (h : m < bnd) :
    ((a &&& m : Nat) : Int) < (bnd : Int) := by
  have h1 : a &&& m ≤ m := Nat.and_le_right
  exact_mod_cast lt_of_le_of_lt h1 h

/-- Cell well-formedness for a non-null raw value of the given kind: the
invariants maintained by the checked Python value setters and by decode,
under which the encoded size is meaningful (variable-length cells have a
nonnegative length; date/datetime years fit in four digits and
milliseconds in three once the zero state is replaced by the default
value; a timestamp cell is not in the zero state, whose `size_timestamp`
reads the month table out of bounds). -/
def valid_nonnull (dt : ColumnDataType) (cv : ColumnValue) : Bool :=
  match dt with
  | .bytes | .char1 | .char2 | .char4 | .char8 | .char16 | .char32 | .char64
  | .char128 | .char256 | .string => decide (0 ≤ cv.len)
  | .date =>
      cv.value.asI == 0 ||
        (decide (0 ≤ DATE_YEAR cv.value.asI) && decide (DATE_YEAR cv.value.asI < 10000))
  | .datetime =>
      cv.value.asL == 0 ||
        (decide (0 ≤ DT_YEAR cv.value.asL) && decide (DT_YEAR cv.value.asL < 10000) &&
          decide (DT_MSEC cv.value.asL < 1000))
  | .time => decide (TIME_MSEC cv.value.asI < 1000)
  | .timestamp => !(cv.value.asL == 0)
  | _ => true

/-- Cell well-formedness: a null cell of a nullable column is always
well-formed; otherwise the raw value must be. -/
def valid_cell (d : ColumnDef) (cv : ColumnValue) : Bool :=
  if d.is_nullable && decide (cv.len < 0) then true else valid_nonnull d.data_type cv

/-- Record well-formedness: the cached size, if set, is the actual encoded
size, and every cell is well-formed. -/
def valid_record (r : RecordC) : Bool :=
  (r.size == 0 || r.size == size_record_go (r.type.column_defs.zip r.column_values)) &&
  (r.type.column_defs.zip r.column_values).all (fun dc => valid_cell dc.1 dc.2)

/-- `write_bytes_column` advances by `size_bytes_column`. -/
theorem write_bytes_column_advance (pos max : Nat) (cv : ColumnValue)
    (h0 : 0 ≤ cv.len) (hroom : pos + size_long cv.len + cv.len.toNat ≤ max) :
    WAdv (write_bytes_column pos max cv) (pos + size_long cv.len + cv.len.toNat) := by
  unfold write_bytes_column
  exact write_bytes_advance pos max _ cv.len h0 hroom

/-- `write_char_column_small` advances by `size_bytes_column`. -/
theorem write_char_column_small_advance (pos max : Nat) (cv : ColumnValue)
    (h0 : 0 ≤ cv.len) (hroom : pos + size_long cv.len + cv.len.toNat ≤ max) :
    WAdv (write_char_column_small pos max cv) (pos + size_long cv.len + cv.len.toNat) := by
  unfold write_char_column_small
  exact write_bytes_advance pos max _ cv.len h0 hroom

/-- A masked dt.c field, as stored in the packed word, is a nonnegative
integer. -/
theorem masked_nonneg (a m : Nat) : (0 : Int) ≤ ((a &&& m : Nat) : Int) :=
  Int.natCast_nonneg _

/-- `write_date_column` advances by exactly 11 bytes for a well-formed
cell with strict room. -/
theorem write_date_column_advance (pos max : Nat) (cv : ColumnValue)
    (hv : valid_nonnull .date cv = true) (hroom : pos + 11 < max) :
    WAdv (write_date_column pos max cv) (pos + 11) := by
  have hf0 : ∀ (a m : Nat), (0 : Int) ≤ ((a &&& m : Nat) : Int) := masked_nonneg
  have hf100 : ∀ (a m : Nat), m < 100 → ((a &&& m : Nat) : Int) < 10 ^ 2 := by
    intro a m h
    have := natCast_and_lt a m 100 h
    norm_num
    exact_mod_cast this
  have hy : 0 ≤ DATE_YEAR (if cv.value.asI = 0 then DATE_DEFAULT else cv.value.asI) ∧
      DATE_YEAR (if cv.value.asI = 0 then DATE_DEFAULT else cv.value.asI) < 10000 := by
    by_cases hz : cv.value.asI = 0
    · rw [if_pos hz]
      constructor <;> decide
    · rw [if_neg hz]
      simpa [valid_nonnull, hz] using hv
  obtain ⟨hy0, hy1⟩ := hy
  simp only [write_date_column, DATE_MONTH, DATE_DAY]
  have hseq : WAdv (wseq (write_size pos max 10) (fun p1 =>
      wseq (write_digits p1 max 4 (DATE_YEAR (if cv.value.asI = 0 then DATE_DEFAULT else cv.value.asI))) (fun p2 =>
      wseq (write_char p2 max 45) (fun p3 =>
      wseq (write_digits p3 max 2 ((u64 (if cv.value.asI = 0 then DATE_DEFAULT else cv.value.asI) >>> DATE_SHIFT_MONTH &&& 0xF : Nat) : Int)) (fun p4 =>
      wseq (write_char p4 max 45) (fun p5 =>
      write_digits p5 max 2 ((u64 (if cv.value.asI = 0 then DATE_DEFAULT else cv.value.asI) >>> DATE_SHIFT_DAY &&& 0x1F : Nat) : Int))))))) (pos + 1 + 4 + 1 + 2 + 1 + 2) :=
    wseq_adv (write_size_one pos max 10 rfl (by omega))
      (wseq_adv (write_digits_advance (pos + 1) max 4 _ hy0 (by norm_num; exact hy1) (by omega))
        (wseq_adv (write_char_advance (pos + 1 + 4) max 45 (by omega))
          (wseq_adv (write_digits_advance (pos + 1 + 4 + 1) max 2 _ (hf0 _ _) (hf100 _ 0xF (by norm_num)) (by omega))
            (wseq_adv (write_char_advance (pos + 1 + 4 + 1 + 2) max 45 (by omega))
              (write_digits_advance (pos + 1 + 4 + 1 + 2 + 1) max 2 _ (hf0 _ _) (hf100 _ 0x1F (by norm_num)) (by omega))))))
  have he : pos + 1 + 4 + 1 + 2 + 1 + 2 = pos + 11 := by omega
  rw [he] at hseq
  exact hseq

/-- `write_datetime_column` advances by exactly 24 bytes for a well-formed
cell with strict room. -/
theorem write_datetime_column_advance (pos max : Nat) (cv : ColumnValue)
    (hv : valid_nonnull .datetime cv = true) (hroom : pos + 24 < max) :
    WAdv (write_datetime_column pos max cv) (pos + 24) := by
  have hf0 : ∀ (a m : Nat), (0 : Int) ≤ ((a &&& m : Nat) : Int) := masked_nonneg
  have hf100 : ∀ (a m : Nat), m < 100 → ((a &&& m : Nat) : Int) < 10 ^ 2 := by
    intro a m h
    have := natCast_and_lt a m 100 h
    norm_num
    exact_mod_cast this
  have hy : (0 ≤ DT_YEAR (if cv.value.asL = 0 then DT_DEFAULT else cv.value.asL) ∧
      DT_YEAR (if cv.value.asL = 0 then DT_DEFAULT else cv.value.asL) < 10000) ∧
      DT_MSEC (if cv.value.asL = 0 then DT_DEFAULT else cv.value.asL) < 1000 := by
    by_cases hz : cv.value.asL = 0
    · rw [if_pos hz]
      refine ⟨⟨by decide, by decide⟩, by decide⟩
    · rw [if_neg hz]
      have := hv
      simp [valid_nonnull, hz] at this
      exact this
  obtain ⟨⟨hy0, hy1⟩, hms⟩ := hy
  simp only [write_datetime_column, DT_MONTH, DT_DAY, DT_HOUR, DT_MINUTE, DT_SEC, DT_MSEC] at hms ⊢
  have he : pos + 24 = pos + 1 + 4 + 1 + 2 + 1 + 2 + 1 + 2 + 1 + 2 + 1 + 2 + 1 + 3 := by omega
  rw [he]
  refine wseq_adv (write_size_one pos max 23 rfl (by omega)) ?_
  refine wseq_adv (write_digits_advance (pos + 1) max 4 _ hy0 (by norm_num; exact hy1) (by omega)) ?_
  refine wseq_adv (write_char_advance (pos + 1 + 4) max 45 (by omega)) ?_
  refine wseq_adv (write_digits_advance (pos + 1 + 4 + 1) max 2 _ (hf0 _ _) (hf100 _ 0xF (by norm_num)) (by omega)) ?_
  refine wseq_adv (write_char_advance (pos + 1 + 4 + 1 + 2) max 45 (by omega)) ?_
  refine wseq_adv (write_digits_advance (pos + 1 + 4 + 1 + 2 + 1) max 2 _ (hf0 _ _) (hf100 _ 0x1F (by norm_num)) (by omega)) ?_
  refine wseq_adv (write_char_advance (pos + 1 + 4 + 1 + 2 + 1 + 2) max 32 (by omega)) ?_
  refine wseq_adv (write_digits_advance (pos + 1 + 4 + 1 + 2 + 1 + 2 + 1) max 2 _ (hf0 _ _) (hf100 _ 0x1F (by norm_num)) (by omega)) ?_
  refine wseq_adv (write_char_advance (pos + 1 + 4 + 1 + 2 + 1 + 2 + 1 + 2) max 58 (by omega)) ?_
  refine wseq_adv (write_digits_advance (pos + 1 + 4 + 1 + 2 + 1 + 2 + 1 + 2 + 1) max 2 _ (hf0 _ _) (hf100 _ 0x3F (by norm_num)) (by omega)) ?_
  refine wseq_adv (write_char_advance (pos + 1 + 4 + 1 + 2 + 1 + 2 + 1 + 2 + 1 + 2) max 58 (by omega)) ?_
  refine wseq_adv (write_digits_advance (pos + 1 + 4 + 1 + 2 + 1 + 2 + 1 + 2 + 1 + 2 + 1) max 2 _ (hf0 _ _) (hf100 _ 0x3F (by norm_num)) (by omega)) ?_
  refine wseq_adv (write_char_advance (pos + 1 + 4 + 1 + 2 + 1 + 2 + 1 + 2 + 1 + 2 + 1 + 2) max 46 (by omega)) ?_
  exact write_digits_advance (pos + 1 + 4 + 1 + 2 + 1 + 2 + 1 + 2 + 1 + 2 + 1 + 2 + 1) max 3 _ (hf0 _ _) (by norm_num; exact_mod_cast hms) (by omega)

/-- `write_time_column` advances by exactly 13 bytes for a well-formed
cell with strict room. -/
theorem write_time_column_advance (pos max : Nat) (cv : ColumnValue)
    (hv : valid_nonnull .time cv = true) (hroom : pos + 13 < max) :
    WAdv (write_time_column pos max cv) (pos + 13) := by
  have hf0 : ∀ (a m : Nat), (0 : Int) ≤ ((a &&& m : Nat) : Int) := masked_nonneg
  have hf100 : ∀ (a m : Nat), m < 100 → ((a &&& m : Nat) : Int) < 10 ^ 2 := by
    intro a m h
    have := natCast_and_lt a m 100 h
    norm_num
    exact_mod_cast this
  have hms : TIME_MSEC cv.value.asI < 1000 := by
    simpa [valid_nonnull] using hv
  simp only [write_time_column, TIME_HOUR, TIME_MINUTE, TIME_SEC, TIME_MSEC] at hms ⊢
  have he : pos + 13 = pos + 1 + 2 + 1 + 2 + 1 + 2 + 1 + 3 := by omega
  rw [he]
  refine wseq_adv (write_size_one pos max 12 rfl (by omega)) ?_
  refine wseq_adv (write_digits_advance (pos + 1) max 2 _ (hf0 _ _) (hf100 _ 0x1F (by norm_num)) (by omega)) ?_
  refine wseq_adv (write_char_advance (pos + 1 + 2) max 58 (by omega)) ?_
  refine wseq_adv (write_digits_advance (pos + 1 + 2 + 1) max 2 _ (hf0 _ _) (hf100 _ 0x3F (by norm_num)) (by omega)) ?_
  refine wseq_adv (write_char_advance (pos + 1 + 2 + 1 + 2) max 58 (by omega)) ?_
  refine wseq_adv (write_digits_advance (pos + 1 + 2 + 1 + 2 + 1) max 2 _ (hf0 _ _) (hf100 _ 0x3F (by norm_num)) (by omega)) ?_
  refine wseq_adv (write_char_advance (pos + 1 + 2 + 1 + 2 + 1 + 2) max 46 (by omega)) ?_
  exact write_digits_advance (pos + 1 + 2 + 1 + 2 + 1 + 2 + 1) max 3 _ (hf0 _ _) (by norm_num; exact_mod_cast hms) (by omega)

/-- `write_timestamp_column` advances by `size_long` of the epoch value
for a well-formed (non-zero) cell. -/
theorem write_timestamp_column_advance (pos max : Nat) (cv : ColumnValue)
    (hv : valid_nonnull .timestamp cv = true)
    (hroom : pos + size_long (datetime_to_epoch_ms cv.value.asL) ≤ max) :
    WAdv (write_timestamp_column pos max cv)
      (pos + size_long (datetime_to_epoch_ms cv.value.asL)) := by
  have hz : ¬(cv.value.asL = 0) := by simpa [valid_nonnull] using hv
  simp only [write_timestamp_column, if_neg hz]
  exact ⟨_, write_long_advance pos max _ hroom⟩

/-- A well-formed non-null cell has a nonnegative encoded size. -/
theorem size_column_nonneg (dt : ColumnDataType) (cv : ColumnValue)
    (hv : valid_nonnull dt cv = true) : 0 ≤ size_column dt cv := by
  cases dt <;>
    simp only [size_column, size_bytes_column, valid_nonnull, decide_eq_true_eq] at hv ⊢ <;>
    omega

/-- `write_column` advances by exactly `size_column` for a well-formed
non-null cell with strictly more room than the size. -/
theorem write_column_advance (dt : ColumnDataType) (pos max : Nat) (cv : ColumnValue)
    (hv : valid_nonnull dt cv = true)
    (hroom : pos + (size_column dt cv).toNat < max) :
    WAdv (write_column dt pos max cv) (pos + (size_column dt cv).toNat) := by
  cases dt
  case bytes =>
      have h0 : 0 ≤ cv.len := by simpa [valid_nonnull] using hv
      simp only [write_column, size_column, size_bytes_column] at hroom ⊢
      have he : ((size_long cv.len : Int) + cv.len).toNat = size_long cv.len + cv.len.toNat := by
        omega
      rw [he] at hroom ⊢
      have hadv := write_bytes_column_advance pos max cv h0 (by omega)
      have he2 : pos + size_long cv.len + cv.len.toNat = pos + (size_long cv.len + cv.len.toNat) := by
        omega
      rw [he2] at hadv
      exact hadv
  case char16 =>
      have h0 : 0 ≤ cv.len := by simpa [valid_nonnull] using hv
      simp only [write_column, size_column, size_bytes_column] at hroom ⊢
      have he : ((size_long cv.len : Int) + cv.len).toNat = size_long cv.len + cv.len.toNat := by
        omega
      rw [he] at hroom ⊢
      have hadv := write_bytes_column_advance pos max cv h0 (by omega)
      have he2 : pos + size_long cv.len + cv.len.toNat = pos + (size_long cv.len + cv.len.toNat) := by
        omega
      rw [he2] at hadv
      exact hadv
  case char32 =>
      have h0 : 0 ≤ cv.len := by simpa [valid_nonnull] using hv
      simp only [write_column, size_column, size_bytes_column] at hroom ⊢
      have he : ((size_long cv.len : Int) + cv.len).toNat = size_long cv.len + cv.len.toNat := by
        omega
      rw [he] at hroom ⊢
      have hadv := write_bytes_column_advance pos max cv h0 (by omega)
      have he2 : pos + size_long cv.len + cv.len.toNat = pos + (size_long cv.len + cv.len.toNat) := by
        omega
      rw [he2] at hadv
      exact hadv
  case char64 =>
      have h0 : 0 ≤ cv.len := by simpa [valid_nonnull] using hv
      simp only [write_column, size_column, size_bytes_column] at hroom ⊢
      have he : ((size_long cv.len : Int) + cv.len).toNat = size_long cv.len + cv.len.toNat := by
        omega
      rw [he] at hroom ⊢
      have hadv := write_bytes_column_advance pos max cv h0 (by omega)
      have he2 : pos + size_long cv.len + cv.len.toNat = pos + (size_long cv.len + cv.len.toNat) := by
        omega
      rw [he2] at hadv
      exact hadv
  case char128 =>
      have h0 : 0 ≤ cv.len := by simpa [valid_nonnull] using hv
      simp only [write_column, size_column, size_bytes_column] at hroom ⊢
      have he : ((size_long cv.len : Int) + cv.len).toNat = size_long cv.len + cv.len.toNat := by
        omega
      rw [he] at hroom ⊢
      have hadv := write_bytes_column_advance pos max cv h0 (by omega)
      have he2 : pos + size_long cv.len + cv.len.toNat = pos + (size_long cv.len + cv.len.toNat) := by
        omega
      rw [he2] at hadv
      exact hadv
  case char256 =>
      have h0 : 0 ≤ cv.len := by simpa [valid_nonnull] using hv
      simp only [write_column, size_column, size_bytes_column] at hroom ⊢
      have he : ((size_long cv.len : Int) + cv.len).toNat = size_long cv.len + cv.len.toNat := by
        omega
      rw [he] at hroom ⊢
      have hadv := write_bytes_column_advance pos max cv h0 (by omega)
      have he2 : pos + size_long cv.len + cv.len.toNat = pos + (size_long cv.len + cv.len.toNat) := by
        omega
      rw [he2] at hadv
      exact hadv
  case string =>
      have h0 : 0 ≤ cv.len := by simpa [valid_nonnull] using hv
      simp only [write_column, size_column, size_bytes_column] at hroom ⊢
      have he : ((size_long cv.len : Int) + cv.len).toNat = size_long cv.len + cv.len.toNat := by
        omega
      rw [he] at hroom ⊢
      have hadv := write_bytes_column_advance pos max cv h0 (by omega)
      have he2 : pos + size_long cv.len + cv.len.toNat = pos + (size_long cv.len + cv.len.toNat) := by
        omega
      rw [he2] at hadv
      exact hadv
  case char1 =>
      have h0 : 0 ≤ cv.len := by simpa [valid_nonnull] using hv
      simp only [write_column, size_column, size_bytes_column] at hroom ⊢
      have he : ((size_long cv.len : Int) + cv.len).toNat = size_long cv.len + cv.len.toNat := by
        omega
      rw [he] at hroom ⊢
      have hadv := write_char_column_small_advance pos max cv h0 (by omega)
      have he2 : pos + size_long cv.len + cv.len.toNat = pos + (size_long cv.len + cv.len.toNat) := by
        omega
      rw [he2] at hadv
      exact hadv
  case char2 =>
      have h0 : 0 ≤ cv.len := by simpa [valid_nonnull] using hv
      simp only [write_column, size_column, size_bytes_column] at hroom ⊢
      have he : ((size_long cv.len : Int) + cv.len).toNat = size_long cv.len + cv.len.toNat := by
        omega
      rw [he] at hroom ⊢
      have hadv := write_char_column_small_advance pos max cv h0 (by omega)
      have he2 : pos + size_long cv.len + cv.len.toNat = pos + (size_long cv.len + cv.len.toNat) := by
        omega
      rw [he2] at hadv
      exact hadv
  case char4 =>
      have h0 : 0 ≤ cv.len := by simpa [valid_nonnull] using hv
      simp only [write_column, size_column, size_bytes_column] at hroom ⊢
      have he : ((size_long cv.len : Int) + cv.len).toNat = size_long cv.len + cv.len.toNat := by
        omega
      rw [he] at hroom ⊢
      have hadv := write_char_column_small_advance pos max cv h0 (by omega)
      have he2 : pos + size_long cv.len + cv.len.toNat = pos + (size_long cv.len + cv.len.toNat) := by
        omega
      rw [he2] at hadv
      exact hadv
  case char8 =>
      have h0 : 0 ≤ cv.len := by simpa [valid_nonnull] using hv
      simp only [write_column, size_column, size_bytes_column] at hroom ⊢
      have he : ((size_long cv.len : Int) + cv.len).toNat = size_long cv.len + cv.len.toNat := by
        omega
      rw [he] at hroom ⊢
      have hadv := write_char_column_small_advance pos max cv h0 (by omega)
      have he2 : pos + size_long cv.len + cv.len.toNat = pos + (size_long cv.len + cv.len.toNat) := by
        omega
      rw [he2] at hadv
      exact hadv
  case date =>
      simp only [write_column, size_column, Int.toNat_ofNat] at hroom ⊢
      exact write_date_column_advance pos max cv hv hroom
  case datetime =>
      simp only [write_column, size_column, Int.toNat_ofNat] at hroom ⊢
      exact write_datetime_column_advance pos max cv hv hroom
  case double =>
      simp only [write_column, size_column, Int.toNat_ofNat] at hroom ⊢
      exact ⟨_, by unfold write_double; rw [if_neg (by omega)]; exact rfl⟩
  case float =>
      simp only [write_column, size_column, Int.toNat_ofNat] at hroom ⊢
      exact ⟨_, by unfold write_float; rw [if_neg (by omega)]; exact rfl⟩
  case int =>
      simp only [write_column, size_column, Int.toNat_natCast] at hroom ⊢
      exact ⟨_, by unfold write_int; exact write_long_advance pos max _ (by omega)⟩
  case int8 =>
      simp only [write_column, size_column, Int.toNat_natCast] at hroom ⊢
      exact ⟨_, by unfold write_int; exact write_long_advance pos max _ (by omega)⟩
  case int16 =>
      simp only [write_column, size_column, Int.toNat_natCast] at hroom ⊢
      exact ⟨_, by unfold write_int; exact write_long_advance pos max _ (by omega)⟩
  case long =>
      simp only [write_column, size_column, Int.toNat_natCast] at hroom ⊢
      exact ⟨_, write_long_advance pos max _ (by omega)⟩
  case time =>
      simp only [write_column, size_column, Int.toNat_ofNat] at hroom ⊢
      exact write_time_column_advance pos max cv hv hroom
  case timestamp =>
      simp only [write_column, size_column, Int.toNat_natCast] at hroom ⊢
      exact write_timestamp_column_advance pos max cv hv (by omega)

/-- A list of well-formed cells has a nonnegative total encoded size. -/
theorem size_record_go_nonneg :
    ∀ (cols : List (ColumnDef × ColumnValue)),
      (∀ dc ∈ cols, valid_cell dc.1 dc.2 = true) → 0 ≤ size_record_go cols := by
  intro cols
  induction cols with
  | nil => intro _; simp [size_record_go]
  | cons dc rest ih =>
      intro hv
      obtain ⟨d, cv⟩ := dc
      have hd := hv (d, cv) (by simp)
      have hr := ih (fun x hx => hv x (by simp [hx]))
      simp only [size_record_go]
      by_cases hn : d.is_nullable
      · by_cases hl : cv.len < 0
        · simp only [hn, hl, if_true]
          omega
        · simp [valid_cell, hn, hl] at hd
          have hsc := size_column_nonneg d.data_type cv (by simpa using hd)
          simp only [hn, hl, if_true, if_false]
          omega
      · simp [valid_cell, hn] at hd
        have hsc := size_column_nonneg d.data_type cv (by simpa using hd)
        simp [hn]
        omega

/-- The column loop of `write_record` advances by exactly
`size_record_go` over well-formed cells with strict room. -/
theorem write_record_go_advance (max : Nat) :
    ∀ (cols : List (ColumnDef × ColumnValue)) (pos : Nat),
      (∀ dc ∈ cols, valid_cell dc.1 dc.2 = true) →
      pos + (size_record_go cols).toNat < max →
      WAdv (write_record_go max cols pos) (pos + (size_record_go cols).toNat) := by
  intro cols
  induction cols with
  | nil =>
      intro pos _ _
      refine ⟨[], ?_⟩
      simp [write_record_go, size_record_go]
  | cons dc rest ih =>
      intro pos hv hroom
      obtain ⟨d, cv⟩ := dc
      have hd := hv (d, cv) (by simp)
      have hvr : ∀ x ∈ rest, valid_cell x.1 x.2 = true := fun x hx => hv x (by simp [hx])
      have hrnn : 0 ≤ size_record_go rest := size_record_go_nonneg rest hvr
      simp only [write_record_go, size_record_go] at hroom ⊢
      by_cases hn : d.is_nullable
      · by_cases hl : cv.len < 0
        · simp only [hn, hl, if_true] at hroom ⊢
          have he : pos + ((1 + 0 : Int) + size_record_go rest).toNat =
              pos + 1 + (size_record_go rest).toNat := by omega
          rw [he] at hroom ⊢
          exact wseq_adv (write_size_one pos max 1 rfl (by omega))
            (ih (pos + 1) hvr (by omega))
        · simp [valid_cell, hn, hl] at hd
          have hd' : valid_nonnull d.data_type cv = true := by simpa using hd
          have hsc := size_column_nonneg d.data_type cv hd'
          simp only [hn, hl, if_true, if_false] at hroom ⊢
          have he : pos + ((1 + size_column d.data_type cv) + size_record_go rest).toNat =
              pos + 1 + (size_column d.data_type cv).toNat +
                (size_record_go rest).toNat := by omega
          rw [he] at hroom ⊢
          exact wseq_adv (write_size_one pos max 0 rfl (by omega))
            (wseq_adv (write_column_advance d.data_type (pos + 1) max cv hd' (by omega))
              (ih (pos + 1 + (size_column d.data_type cv).toNat) hvr (by omega)))
      · simp [valid_cell, hn] at hd
        have hd' : valid_nonnull d.data_type cv = true := by simpa using hd
        have hsc := size_column_nonneg d.data_type cv hd'
        have hnf : d.is_nullable = false := by
          cases hb : d.is_nullable
          · rfl
          · exact absurd hb hn
        simp only [hnf, Bool.false_eq_true, if_false] at hroom ⊢
        have he : pos + (size_column d.data_type cv + size_record_go rest).toNat =
            pos + (size_column d.data_type cv).toNat + (size_record_go rest).toNat := by omega
        rw [he] at hroom ⊢
        exact wseq_adv (write_column_advance d.data_type pos max cv hd' (by omega))
          (ih (pos + (size_column d.data_type cv).toNat) hvr (by omega))

/-- For a well-formed record the cached size agrees with the computed one. -/
theorem size_record_eq_go (r : RecordC) (hv : valid_record r = true) :
    size_record r = size_record_go (r.type.column_defs.zip r.column_values) := by
  unfold valid_record at hv
  simp only [Bool.and_eq_true, Bool.or_eq_true, beq_iff_eq] at hv
  unfold size_record
  by_cases hz : r.size = 0
  · rw [if_neg (by simpa using hz)]
  · rcases hv.1 with h | h
    · exact absurd h hz
    · rw [if_pos (by simpa using hz), h]

/-- All cells of a well-formed record are well-formed. -/
theorem valid_record_cells (r : RecordC) (hv : valid_record r = true) :
    ∀ dc ∈ r.type.column_defs.zip r.column_values, valid_cell dc.1 dc.2 = true := by
  unfold valid_record at hv
  simp only [Bool.and_eq_true, List.all_eq_true] at hv
  exact fun dc hdc => hv.2 dc hdc

/-- `write_record` advances by exactly `size_record` for a well-formed
record with strict room. -/
theorem write_record_advance (pos max : Nat) (r : RecordC) (hv : valid_record r = true)
    (hroom : pos + (size_record r).toNat < max) :
    WAdv (write_record pos max r) (pos + (size_record r).toNat) := by
  have he := size_record_eq_go r hv
  rw [he] at hroom ⊢
  unfold write_record
  exact write_record_go_advance max _ pos (valid_record_cells r hv) hroom

/-- Well-formedness of a prepared value: every `Record` embedded through
an `object` or `object_array` node is well-formed (`prepare` trusts the
record's cached size and cell invariants; nothing else in a prepared tree
carries state the write pass could disagree with). -/
inductive ValidPrep : Prepared → Prop where
  | none : ValidPrep .none
  | bool (b : Bool) : ValidPrep (.bool b)
  | bytes (b : List Nat) : ValidPrep (.bytes b)
  | float8 (bits : List Nat) : ValidPrep (.float8 bits)
  | int (n : Int) : ValidPrep (.int n)
  | list (xs : List Prepared) (h : ∀ q ∈ xs, ValidPrep q) : ValidPrep (.list xs)
  | maplist (xs : List (List Nat × Prepared)) (h : ∀ kv ∈ xs, ValidPrep kv.2) :
      ValidPrep (.maplist xs)
  | record (xs : List Prepared) (h : ∀ q ∈ xs, ValidPrep q) : ValidPrep (.record xs)
  | objEmpty : ValidPrep .objEmpty
  | objSchema (sub : SchemaNode) (osize : Int) (q : Prepared) (h : ValidPrep q) :
      ValidPrep (.objSchema sub osize q)
  | objRecord (r : RecordC) (h : valid_record r = true) : ValidPrep (.objRecord r)
  | objArrEmpty : ValidPrep .objArrEmpty
  | objArrSchema (sub : SchemaNode) (items : List (Int × Prepared))
      (h : ∀ it ∈ items, ValidPrep it.2) : ValidPrep (.objArrSchema sub items)
  | objArrRecords (rs : List RecordC) (h : ∀ r ∈ rs, valid_record r = true) :
      ValidPrep (.objArrRecords rs)

/-- A well-formed record has a nonnegative encoded size. -/
theorem size_record_nonneg (r : RecordC) (hv : valid_record r = true) :
    0 ≤ size_record r := by
  rw [size_record_eq_go r hv]
  exact size_record_go_nonneg _ (valid_record_cells r hv)

/-- "`w` succeeds and leaves the cursor at `p`" for a schema write. -/
abbrev WSAdv (w : WSRes) (p : Nat) : Prop := ∃ bs, w = .ok bs p

/-- Sequenced schema writes advance by the sum of their advances. -/
theorem wsseq_adv {w : WSRes} {f : Nat → WSRes} {p q : Nat}
    (hw : WSAdv w p) (hf : WSAdv (f p) q) : WSAdv (wsseq w f) q := by
  obtain ⟨bs, hw⟩ := hw
  obtain ⟨bs2, hf⟩ := hf
  rw [hw]
  exact ⟨bs ++ bs2, by simp [wsseq, hf]⟩

/-- A raw codec write lifts to a schema write with the same advance. -/
theorem wlift_adv {w : WRes} {p : Nat} (h : WAdv w p) : WSAdv (wlift w) p := by
  obtain ⟨bs, h⟩ := h
  exact ⟨bs, by rw [h]; rfl⟩

/-- Inversion of `prepare_string_schema`: success means the value was a
str and the size grew by its varint-prefixed byte length. -/
theorem prepare_string_py_inv (v : PyVal) (s0 : Int) (p : Prepared) (s1 : Int)
    (h : prepare_string_py v s0 = .ok p s1) :
    ∃ b : List Nat, v = .str b ∧ p = .bytes b ∧
      s1 = s0 + (size_long b.length : Int) + b.length := by
  cases v <;> simp only [prepare_string_py] at h
  case str b =>
    cases h
    exact ⟨b, rfl, rfl, rfl⟩
  all_goals cases h

/-- The array item loops: prepared sizes accumulate monotonically, one
prepared item per value, and the write loop advances by the total
prepared size, given the agreement property of the element schema. -/
theorem array_items_agree (prep : PyVal → Int → PrepRes) (wr : Nat → Prepared → Nat → WSRes)
    (H : ∀ (v : PyVal) (s0 : Int) (p : Prepared) (s1 : Int),
      prep v s0 = .ok p s1 → ValidPrep p →
      s0 ≤ s1 ∧ ∀ (pos max : Nat), pos + (s1 - s0).toNat < max →
        WSAdv (wr max p pos) (pos + (s1 - s0).toNat)) :
    ∀ (xs : List PyVal) (i : Nat) (s0 : Int) (ps : List Prepared) (s1 : Int),
      prepare_array_items prep xs i s0 = .ok ps s1 →
      (∀ q ∈ ps, ValidPrep q) →
      s0 ≤ s1 ∧ ps.length = xs.length ∧
        ∀ (pos max : Nat), pos + (s1 - s0).toNat < max →
          WSAdv (write_array_items (wr max) ps pos) (pos + (s1 - s0).toNat) := by
  intro xs
  induction xs with
  | nil =>
      intro i s0 ps s1 h hv
      simp only [prepare_array_items] at h
      cases h
      refine ⟨le_refl _, rfl, ?_⟩
      intro pos max hroom
      refine ⟨[], ?_⟩
      simp [write_array_items]
  | cons x xs ih =>
      intro i s0 ps s1 h hv
      simp only [prepare_array_items] at h
      cases hp : prep x s0 <;> simp only [hp] at h
      case ok p s2 =>
        cases hr : prepare_array_items prep xs (i + 1) s2 <;> simp only [hr] at h
        case ok ps2 s3 =>
          cases h
          have hvp : ValidPrep p := hv p (by simp)
          have hvs : ∀ q ∈ ps2, ValidPrep q := fun q hq => hv q (by simp [hq])
          obtain ⟨hm1, hw1⟩ := H x s0 p s2 hp hvp
          obtain ⟨hm2, hlen, hw2⟩ := ih (i + 1) s2 ps2 s1 hr hvs
          refine ⟨by omega, by simp [hlen], ?_⟩
          intro pos max hroom
          simp only [write_array_items]
          have ha : pos + (s1 - s0).toNat =
              pos + (s2 - s0).toNat + (s1 - s2).toNat := by omega
          rw [ha] at hroom ⊢
          exact wsseq_adv (hw1 pos max (by omega))
            (hw2 (pos + (s2 - s0).toNat) max (by omega))
        all_goals cases h
      all_goals cases h

/-- The map item loops: sizes accumulate monotonically, one prepared pair
per entry, and the write loop (key bytes, then value) advances by the
total prepared size. -/
theorem map_items_agree (prep : PyVal → Int → PrepRes) (wr : Nat → Prepared → Nat → WSRes)
    (H : ∀ (v : PyVal) (s0 : Int) (p : Prepared) (s1 : Int),
      prep v s0 = .ok p s1 → ValidPrep p →
      s0 ≤ s1 ∧ ∀ (pos max : Nat), pos + (s1 - s0).toNat < max →
        WSAdv (wr max p pos) (pos + (s1 - s0).toNat)) :
    ∀ (xs : List (PyVal × PyVal)) (s0 : Int) (ps : List (List Nat × Prepared)) (s1 : Int),
      prepare_map_items prep xs s0 = .ok ps s1 →
      (∀ kv ∈ ps, ValidPrep kv.2) →
      s0 ≤ s1 ∧ ps.length = xs.length ∧
        ∀ (pos max : Nat), pos + (s1 - s0).toNat < max →
          WSAdv (write_map_items max (wr max) ps pos) (pos + (s1 - s0).toNat) := by
  intro xs
  induction xs with
  | nil =>
      intro s0 ps s1 h hv
      simp only [prepare_map_items] at h
      cases h
      refine ⟨le_refl _, rfl, ?_⟩
      intro pos max hroom
      refine ⟨[], ?_⟩
      simp [write_map_items]
  | cons kv xs ih =>
      obtain ⟨k, v⟩ := kv
      intro s0 ps s1 h hv
      simp only [prepare_map_items] at h
      cases hk : prepare_string_py k s0 <;> simp only [hk] at h
      case ok kp s2 =>
        obtain ⟨b, hkv, hkp, hs2⟩ := prepare_string_py_inv k s0 kp s2 hk
        subst hkp
        simp only [] at h
        cases hp : prep v s2 <;> simp only [hp] at h
        case ok vp s3 =>
          cases hr : prepare_map_items prep xs s3 <;> simp only [hr] at h
          case ok ps2 s4 =>
            cases h
            have hvp : ValidPrep vp := hv (b, vp) (by simp)
            have hvs : ∀ q ∈ ps2, ValidPrep q.2 := fun q hq => hv q (by simp [hq])
            obtain ⟨hm1, hw1⟩ := H v s2 vp s3 hp hvp
            obtain ⟨hm2, hlen, hw2⟩ := ih s3 ps2 s1 hr hvs
            refine ⟨by omega, by simp [hlen], ?_⟩
            intro pos max hroom
            simp only [write_map_items]
            have ha : pos + (s1 - s0).toNat =
                pos + size_long (b.length : Int) + ((b.length : Int)).toNat +
                  (s3 - s2).toNat + (s1 - s3).toNat := by omega
            rw [ha] at hroom ⊢
            refine wsseq_adv (wlift_adv
              (write_bytes_advance pos max b (b.length : Int) (by omega) (by omega))) ?_
            refine wsseq_adv (hw1 _ max (by omega)) ?_
            exact hw2 _ max (by omega)
          all_goals cases h
        all_goals cases h
      all_goals cases h

/-- The schema-typed object_array item loops: each item is prepared from
a fresh size accumulator, and the write loop (saved size varint, then the
item) advances by the total prepared size. -/
theorem objarr_schema_items_agree (prep : PyVal → Int → PrepRes)
    (wr : Nat → Prepared → Nat → WSRes)
    (H : ∀ (v : PyVal) (s0 : Int) (p : Prepared) (s1 : Int),
      prep v s0 = .ok p s1 → ValidPrep p →
      s0 ≤ s1 ∧ ∀ (pos max : Nat), pos + (s1 - s0).toNat < max →
        WSAdv (wr max p pos) (pos + (s1 - s0).toNat)) :
    ∀ (xs : List PyVal) (i : Nat) (s0 : Int) (items : List (Int × Prepared)) (s1 : Int),
      prep_objarr_schema_items prep xs i s0 = .ok items s1 →
      (∀ it ∈ items, ValidPrep it.2) →
      s0 ≤ s1 ∧ items.length = xs.length ∧
        ∀ (pos max : Nat), pos + (s1 - s0).toNat < max →
          WSAdv (write_objarr_schema_items max (wr max) items pos) (pos + (s1 - s0).toNat) := by
  intro xs
  induction xs with
  | nil =>
      intro i s0 items s1 h hv
      simp only [prep_objarr_schema_items] at h
      cases h
      refine ⟨le_refl _, rfl, ?_⟩
      intro pos max hroom
      refine ⟨[], ?_⟩
      simp [write_objarr_schema_items]
  | cons x xs ih =>
      intro i s0 items s1 h hv
      simp only [prep_objarr_schema_items] at h
      cases hp : prep x 0 <;> simp only [hp] at h
      case ok p osize =>
        cases hr : prep_objarr_schema_items prep xs (i + 1)
            (s0 + osize + (size_long osize : Int)) <;> simp only [hr] at h
        case ok items2 s2 =>
          cases h
          have hvp : ValidPrep p := hv (osize, p) (by simp)
          have hvs : ∀ it ∈ items2, ValidPrep it.2 := fun it hit => hv it (by simp [hit])
          obtain ⟨hm1, hw1⟩ := H x 0 p osize hp hvp
          obtain ⟨hm2, hlen, hw2⟩ := ih (i + 1) _ items2 s1 hr hvs
          refine ⟨by omega, by simp [hlen], ?_⟩
          intro pos max hroom
          simp only [write_objarr_schema_items]
          have ha : pos + (s1 - s0).toNat =
              pos + size_long osize + (osize - 0).toNat +
                (s1 - (s0 + osize + (size_long osize : Int))).toNat := by omega
          rw [ha] at hroom ⊢
          refine wsseq_adv (wlift_adv ⟨_, write_long_advance pos max osize (by omega)⟩) ?_
          refine wsseq_adv (hw1 _ max (by omega)) ?_
          exact hw2 _ max (by omega)
        all_goals cases h
      all_goals cases h

/-- The record-typed object_array item loops: each object is a well-typed
`Record`, and the write loop (record size varint, then the record)
advances by the total prepared size. -/
theorem objarr_records_agree (t : RecordTypeC) :
    ∀ (xs : List PyVal) (i : Nat) (s0 : Int) (rs : List RecordC) (s1 : Int),
      prep_objarr_record_items t xs i s0 = .ok rs s1 →
      (∀ r ∈ rs, valid_record r = true) →
      s0 ≤ s1 ∧ rs.length = xs.length ∧
        ∀ (pos max : Nat), pos + (s1 - s0).toNat < max →
          WSAdv (write_objarr_records max rs pos) (pos + (s1 - s0).toNat) := by
  intro xs
  induction xs with
  | nil =>
      intro i s0 rs s1 h hv
      simp only [prep_objarr_record_items] at h
      cases h
      refine ⟨le_refl _, rfl, ?_⟩
      intro pos max hroom
      refine ⟨[], ?_⟩
      simp [write_objarr_records]
  | cons x xs ih =>
      intro i s0 rs s1 h hv
      simp only [prep_objarr_record_items] at h
      cases x <;> simp only [] at h
      case record r =>
        by_cases ht : r.type = t
        · rw [if_pos ht] at h
          cases hr : prep_objarr_record_items t xs (i + 1)
              (s0 + size_record r + (size_long (size_record r) : Int)) with
          | ok rs2 s2 =>
              simp only [hr] at h
              cases h
              have hvr : valid_record r = true := hv r (by simp)
              have hvs : ∀ q ∈ rs2, valid_record q = true := fun q hq => hv q (by simp [hq])
              have hnn := size_record_nonneg r hvr
              obtain ⟨hm2, hlen, hw2⟩ := ih (i + 1) _ rs2 s1 hr hvs
              refine ⟨by omega, by simp [hlen], ?_⟩
              intro pos max hroom
              simp only [write_objarr_records]
              have ha : pos + (s1 - s0).toNat =
                  pos + size_long (size_record r) + (size_record r).toNat +
                    (s1 - (s0 + size_record r + (size_long (size_record r) : Int))).toNat := by
                omega
              rw [ha] at hroom ⊢
              refine wsseq_adv (wlift_adv
                ⟨_, write_long_advance pos max (size_record r) (by omega)⟩) ?_
              refine wsseq_adv (wlift_adv
                (write_record_advance _ max r hvr (by omega))) ?_
              exact hw2 _ max (by omega)
          | fail path s2 =>
              simp only [hr] at h
              cases h
          | fuel =>
              simp only [hr] at h
              cases h
        · rw [if_neg ht] at h
          cases h
      all_goals cases h

/-- Inversion of the per-field `go` continuation of
`prepare_record_fields`: overall success means the field prepared
successfully and the remaining fields did too. -/
theorem record_field_go_inv (prep : SchemaNode → PyVal → Int → PrepRes)
    (kvs : List (PyVal × PyVal)) (name : List Nat)
    (fields : List (List Nat × SchemaNode)) (r : PrepRes) (found2 : Nat)
    (ps : List Prepared) (s1 : Int) (found1 : Nat)
    (h : (match r with
      | PrepRes.fuel => PrepRecRes.fuel
      | PrepRes.fail path size2 =>
          PrepRecRes.fail (wrap_path (.valueOfRecordField name) path) size2
      | PrepRes.ok p size2 =>
          match prepare_record_fields prep kvs fields size2 found2 with
      | PrepRecRes.ok ps3 size3 found3 => PrepRecRes.ok (p :: ps3) size3 found3
          | r2 => r2) = PrepRecRes.ok ps s1 found1) :
    ∃ p s2 ps2, r = .ok p s2 ∧ ps = p :: ps2 ∧
      prepare_record_fields prep kvs fields s2 found2 = .ok ps2 s1 found1 := by
  cases r with
  | fuel => cases h
  | fail path s2 => cases h
  | ok p s2 =>
      cases hr : prepare_record_fields prep kvs fields s2 found2 with
      | ok ps3 s3 found3 =>
          simp only [hr] at h
          cases h
          exact ⟨p, s2, ps3, rfl, rfl, hr⟩
      | fail path s3 =>
          simp only [hr] at h
          cases h
      | fuel =>
          simp only [hr] at h
          cases h

/-- Inversion of one step of `prepare_record_fields`: success on a
non-empty field list means some value (the dict entry or `None`) was
prepared for the first field and the rest succeeded from the grown
size. -/
theorem prepare_record_fields_cons_inv (prep : SchemaNode → PyVal → Int → PrepRes)
    (kvs : List (PyVal × PyVal)) (name : List Nat) (f : SchemaNode)
    (fields : List (List Nat × SchemaNode)) (s0 : Int) (found : Nat)
    (ps : List Prepared) (s1 : Int) (found1 : Nat)
    (h : prepare_record_fields prep kvs ((name, f) :: fields) s0 found =
      .ok ps s1 found1) :
    ∃ (fv : PyVal) (p : Prepared) (s2 : Int) (found2 : Nat) (ps2 : List Prepared),
      ps = p :: ps2 ∧ prep f fv s0 = .ok p s2 ∧
      prepare_record_fields prep kvs fields s2 found2 = .ok ps2 s1 found1 := by
  simp only [prepare_record_fields] at h
  by_cases hk : dict_has_key kvs name
  · rw [if_pos hk] at h
    cases hg : dict_get kvs name with
    | none =>
        simp only [hg] at h
        cases f with
        | nullable f2 =>
            simp only [] at h
            obtain ⟨p, s2, ps2, hr, hps, hrec⟩ :=
              record_field_go_inv prep kvs name fields _ _ ps s1 found1 h
            exact ⟨_, p, s2, _, ps2, hps, hr, hrec⟩
        | boolean =>
            simp only [] at h
            cases h
        | bytes =>
            simp only [] at h
            cases h
        | double =>
            simp only [] at h
            cases h
        | float =>
            simp only [] at h
            cases h
        | int =>
            simp only [] at h
            cases h
        | long =>
            simp only [] at h
            cases h
        | string =>
            simp only [] at h
            cases h
        | array f9 =>
            simp only [] at h
            cases h
        | map f9 =>
            simp only [] at h
            cases h
        | record fl9 =>
            simp only [] at h
            cases h
        | object =>
            simp only [] at h
            cases h
        | object_array =>
            simp only [] at h
            cases h
    | bool b0 =>
        simp only [hg] at h
        obtain ⟨p, s2, ps2, hr, hps, hrec⟩ :=
          record_field_go_inv prep kvs name fields _ _ ps s1 found1 h
        exact ⟨_, p, s2, _, ps2, hps, hr, hrec⟩
    | int n0 =>
        simp only [hg] at h
        obtain ⟨p, s2, ps2, hr, hps, hrec⟩ :=
          record_field_go_inv prep kvs name fields _ _ ps s1 found1 h
        exact ⟨_, p, s2, _, ps2, hps, hr, hrec⟩
    | float bits0 =>
        simp only [hg] at h
        obtain ⟨p, s2, ps2, hr, hps, hrec⟩ :=
          record_field_go_inv prep kvs name fields _ _ ps s1 found1 h
        exact ⟨_, p, s2, _, ps2, hps, hr, hrec⟩
    | str str0 =>
        simp only [hg] at h
        obtain ⟨p, s2, ps2, hr, hps, hrec⟩ :=
          record_field_go_inv prep kvs name fields _ _ ps s1 found1 h
        exact ⟨_, p, s2, _, ps2, hps, hr, hrec⟩
    | bytes by0 =>
        simp only [hg] at h
        obtain ⟨p, s2, ps2, hr, hps, hrec⟩ :=
          record_field_go_inv prep kvs name fields _ _ ps s1 found1 h
        exact ⟨_, p, s2, _, ps2, hps, hr, hrec⟩
    | list l0 =>
        simp only [hg] at h
        obtain ⟨p, s2, ps2, hr, hps, hrec⟩ :=
          record_field_go_inv prep kvs name fields _ _ ps s1 found1 h
        exact ⟨_, p, s2, _, ps2, hps, hr, hrec⟩
    | tuple t0 =>
        simp only [hg] at h
        obtain ⟨p, s2, ps2, hr, hps, hrec⟩ :=
          record_field_go_inv prep kvs name fields _ _ ps s1 found1 h
        exact ⟨_, p, s2, _, ps2, hps, hr, hrec⟩
    | dict d0 =>
        simp only [hg] at h
        obtain ⟨p, s2, ps2, hr, hps, hrec⟩ :=
          record_field_go_inv prep kvs name fields _ _ ps s1 found1 h
        exact ⟨_, p, s2, _, ps2, hps, hr, hrec⟩
    | bufferRange a0 b1 =>
        simp only [hg] at h
        obtain ⟨p, s2, ps2, hr, hps, hrec⟩ :=
          record_field_go_inv prep kvs name fields _ _ ps s1 found1 h
        exact ⟨_, p, s2, _, ps2, hps, hr, hrec⟩
    | schema s9 =>
        simp only [hg] at h
        obtain ⟨p, s2, ps2, hr, hps, hrec⟩ :=
          record_field_go_inv prep kvs name fields _ _ ps s1 found1 h
        exact ⟨_, p, s2, _, ps2, hps, hr, hrec⟩
    | recordType t9 =>
        simp only [hg] at h
        obtain ⟨p, s2, ps2, hr, hps, hrec⟩ :=
          record_field_go_inv prep kvs name fields _ _ ps s1 found1 h
        exact ⟨_, p, s2, _, ps2, hps, hr, hrec⟩
    | record r9 =>
        simp only [hg] at h
        obtain ⟨p, s2, ps2, hr, hps, hrec⟩ :=
          record_field_go_inv prep kvs name fields _ _ ps s1 found1 h
        exact ⟨_, p, s2, _, ps2, hps, hr, hrec⟩
  · rw [if_neg hk] at h
    cases f with
    | nullable f2 =>
        simp only [] at h
        obtain ⟨p, s2, ps2, hr, hps, hrec⟩ :=
          record_field_go_inv prep kvs name fields _ _ ps s1 found1 h
        exact ⟨_, p, s2, _, ps2, hps, hr, hrec⟩
    | boolean =>
        simp only [] at h
        cases h
    | bytes =>
        simp only [] at h
        cases h
    | double =>
        simp only [] at h
        cases h
    | float =>
        simp only [] at h
        cases h
    | int =>
        simp only [] at h
        cases h
    | long =>
        simp only [] at h
        cases h
    | string =>
        simp only [] at h
        cases h
    | array f9 =>
        simp only [] at h
        cases h
    | map f9 =>
        simp only [] at h
        cases h
    | record fl9 =>
        simp only [] at h
        cases h
    | object =>
        simp only [] at h
        cases h
    | object_array =>
        simp only [] at h
        cases h

/-- The record field loops: sizes accumulate monotonically, one prepared
value per field, and the write loop advances by the total prepared size,
given the agreement property for every field schema. -/
theorem record_fields_agree (prep : SchemaNode → PyVal → Int → PrepRes)
    (wr : Nat → SchemaNode → Prepared → Nat → WSRes)
    (H : ∀ (f : SchemaNode) (v : PyVal) (s0 : Int) (p : Prepared) (s1 : Int),
      prep f v s0 = .ok p s1 → ValidPrep p →
      s0 ≤ s1 ∧ ∀ (pos max : Nat), pos + (s1 - s0).toNat < max →
        WSAdv (wr max f p pos) (pos + (s1 - s0).toNat))
    (kvs : List (PyVal × PyVal)) :
    ∀ (fields : List (List Nat × SchemaNode)) (s0 : Int) (found : Nat)
      (ps : List Prepared) (s1 : Int) (found1 : Nat),
      prepare_record_fields prep kvs fields s0 found = .ok ps s1 found1 →
      (∀ q ∈ ps, ValidPrep q) →
      s0 ≤ s1 ∧ ps.length = fields.length ∧
        ∀ (pos max : Nat), pos + (s1 - s0).toNat < max →
          WSAdv (write_record_fields (wr max) fields ps pos) (pos + (s1 - s0).toNat) := by
  intro fields
  induction fields with
  | nil =>
      intro s0 found ps s1 found1 h hv
      simp only [prepare_record_fields] at h
      cases h
      refine ⟨le_refl _, rfl, ?_⟩
      intro pos max hroom
      refine ⟨[], ?_⟩
      simp [write_record_fields]
  | cons nf fields ih =>
      obtain ⟨name, f⟩ := nf
      intro s0 found ps s1 found1 h hv
      obtain ⟨fv, p, s2, found2, ps2, hps, hp, hrec⟩ :=
        prepare_record_fields_cons_inv prep kvs name f fields s0 found ps s1 found1 h
      subst hps
      have hvp : ValidPrep p := hv p (by simp)
      have hvs : ∀ q ∈ ps2, ValidPrep q := fun q hq => hv q (by simp [hq])
      obtain ⟨hm1, hw1⟩ := H f fv s0 p s2 hp hvp
      obtain ⟨hm2, hlen, hw2⟩ := ih s2 found2 ps2 s1 found1 hrec hvs
      refine ⟨by omega, by simp [hlen], ?_⟩
      intro pos max hroom
      simp only [write_record_fields]
      have ha : pos + (s1 - s0).toNat =
          pos + (s2 - s0).toNat + (s1 - s2).toNat := by omega
      rw [ha] at hroom ⊢
      exact wsseq_adv (hw1 pos max (by omega)) (hw2 _ max (by omega))

/-- Only a `None` value prepares to the `None` prepared state (through any
chain of nullable wrappers). -/
theorem prepare_none_inv : ∀ (fuel : Nat) (s : SchemaNode) (v : PyVal) (s0 s1 : Int),
    prepare_schema fuel s v s0 = .ok .none s1 → v = .none := by
  intro fuel
  induction fuel with
  | zero => intro s v s0 s1 h; cases h
  | succ fuel ih =>
      intro s v s0 s1 h
      simp only [prepare_schema] at h
      cases s <;> simp only [prepare_schema_step] at h
      case nullable f =>
        cases v <;> simp only [] at h
        case none => rfl
        all_goals exact ih f _ _ _ h
      case boolean => cases h
      case bytes =>
        cases hb : py_bytes_conv v <;> simp only [hb] at h <;> cases h
      case double => cases v <;> simp only [] at h <;> cases h
      case float => cases v <;> simp only [] at h <;> cases h
      case int =>
        cases v <;> simp only [] at h <;> try cases h
        case int n => split_ifs at h <;> cases h
      case long =>
        cases v <;> simp only [] at h <;> try cases h
        case int n => split_ifs at h <;> cases h
      case string =>
        cases v <;> simp only [prepare_string_py] at h <;> cases h
      case array f =>
        cases v <;> simp only [] at h <;> try cases h
        case list xs =>
          cases hc : prepare_array_items (prepare_schema fuel f) xs 0 s0 <;>
            simp only [hc] at h <;> cases h
        case tuple xs =>
          cases hc : prepare_array_items (prepare_schema fuel f) xs 0 s0 <;>
            simp only [hc] at h <;> cases h
      case map f =>
        cases v <;> simp only [] at h <;> try cases h
        case dict kvs =>
          cases hc : prepare_map_items (prepare_schema fuel f) kvs s0 <;>
            simp only [hc] at h <;> cases h
      case record fields =>
        cases v <;> simp only [] at h <;> try cases h
        case dict kvs =>
          cases hc : prepare_record_fields (prepare_schema fuel) kvs fields s0 0 <;>
            simp only [hc] at h <;> try cases h
          case ok ps sz found => split_ifs at h <;> cases h
      case object =>
        cases v
        all_goals try simp only [] at h
        all_goals try cases h
        case tuple xs =>
          match xs with
          | [] => simp only [] at h <;> cases h
          | [x] => simp only [] at h <;> cases h
          | ty :: ob :: rest =>
              simp only [] at h
              cases ty
              all_goals try simp only [] at h
              all_goals try cases h
              case schema sub =>
                cases hc : prepare_schema fuel sub ob 0 <;> simp only [hc] at h <;> cases h
              case recordType t =>
                cases ob
                all_goals try simp only [] at h
                all_goals try cases h
                case record r => split_ifs at h <;> cases h
      case object_array =>
        cases v
        all_goals try simp only [] at h
        all_goals try cases h
        case tuple xs =>
          match xs with
          | [] => simp only [] at h <;> cases h
          | [ty] => simp only [] at h <;> cases h
          | [ty, obs] =>
              simp only [] at h
              cases ty
              all_goals try simp only [] at h
              all_goals try cases h
              case schema sub =>
                cases obs
                all_goals try simp only [] at h
                all_goals try cases h
                case list xs2 =>
                  cases hc : prep_objarr_schema_items (prepare_schema fuel sub) xs2 0 s0 <;>
                    simp only [hc] at h <;> cases h
                case tuple xs2 =>
                  cases hc : prep_objarr_schema_items (prepare_schema fuel sub) xs2 0 s0 <;>
                    simp only [hc] at h <;> cases h
              case recordType t =>
                cases obs
                all_goals try simp only [] at h
                all_goals try cases h
                case list xs2 =>
                  cases hc : prep_objarr_record_items t xs2 0 s0 <;>
                    simp only [hc] at h <;> cases h
                case tuple xs2 =>
                  cases hc : prep_objarr_record_items t xs2 0 s0 <;>
                    simp only [hc] at h <;> cases h
          | a :: b :: c :: rest => simp only [] at h <;> cases h

/-- C3 core induction: whenever the prepare pass succeeds, reporting size
`s1 - s0`, and the prepared value is well-formed, the write pass run with
strictly more than `s1 - s0` bytes of remaining room advances the cursor
by exactly `s1 - s0` bytes — for every schema kind. -/
theorem prepare_write_agree :
    ∀ (fuel : Nat) (s : SchemaNode) (v : PyVal) (s0 : Int) (p : Prepared) (s1 : Int),
      prepare_schema fuel s v s0 = .ok p s1 → ValidPrep p →
      s0 ≤ s1 ∧ ∀ (pos max : Nat), pos + (s1 - s0).toNat < max →
        WSAdv (write_schema fuel max s p pos) (pos + (s1 - s0).toNat) := by
  intro fuel
  induction fuel with
  | zero => intro s v s0 p s1 h hv; cases h
  | succ fuel ih =>
      intro s v s0 p s1 h hv
      simp only [prepare_schema] at h
      cases s <;> simp only [prepare_schema_step] at h
      case nullable f =>
        cases v
        case none =>
          simp only [] at h
          cases h
          refine ⟨by omega, ?_⟩
          intro pos max hroom
          simp only [write_schema, write_schema_step]
          have he : pos + (s0 + 1 - s0).toNat = pos + 1 := by omega
          rw [he] at hroom ⊢
          exact wlift_adv (write_size_one pos max 1 rfl (by omega))
        all_goals (
          simp only [] at h
          have hpn : p ≠ .none := by
            intro he
            subst he
            have := prepare_none_inv fuel f _ _ _ h
            cases this
          obtain ⟨hm, hw⟩ := ih f _ _ _ _ h hv
          refine ⟨by omega, ?_⟩
          intro pos max hroom
          simp only [write_schema, write_schema_step]
          have he : pos + (s1 - s0).toNat = pos + 1 + (s1 - (s0 + 1)).toNat := by omega
          rw [he] at hroom ⊢
          cases hv <;> first
            | exact absurd rfl hpn
            | exact wsseq_adv (wlift_adv (write_size_one pos max 0 rfl (by omega)))
                (hw (pos + 1) max (by omega)))
      case boolean =>
        cases h
        refine ⟨by omega, ?_⟩
        intro pos max hroom
        simp only [write_schema, write_schema_step]
        have he : pos + (s0 + 1 - s0).toNat = pos + 1 := by omega
        rw [he] at hroom ⊢
        cases hb : py_truthy v <;> simp only [hb] <;>
          exact wlift_adv ⟨_, by unfold write_boolean; rw [if_neg (by omega)]; try exact rfl⟩
      case bytes =>
        cases hb : py_bytes_conv v <;> simp only [hb] at h <;> try cases h
        case some b =>
          refine ⟨by omega, ?_⟩
          intro pos max hroom
          simp only [write_schema, write_schema_step]
          have he : pos + (s0 + (size_long (b.length : Int) : Int) + (b.length : Int) - s0).toNat =
              pos + size_long (b.length : Int) + ((b.length : Int)).toNat := by omega
          rw [he] at hroom ⊢
          exact wlift_adv (write_bytes_advance pos max b (b.length : Int) (by omega) (by omega))
      case double =>
        cases v <;> simp only [] at h <;> try cases h
        case float bits =>
          refine ⟨by omega, ?_⟩
          intro pos max hroom
          simp only [write_schema, write_schema_step]
          have he : pos + (s0 + 8 - s0).toNat = pos + 8 := by omega
          rw [he] at hroom ⊢
          exact wlift_adv ⟨_, by unfold write_double; rw [if_neg (by omega)]; try exact rfl⟩
      case float =>
        cases v <;> simp only [] at h <;> try cases h
        case float bits =>
          refine ⟨by omega, ?_⟩
          intro pos max hroom
          simp only [write_schema, write_schema_step]
          have he : pos + (s0 + 4 - s0).toNat = pos + 4 := by omega
          rw [he] at hroom ⊢
          exact wlift_adv ⟨_, by unfold write_float; rw [if_neg (by omega)]; try exact rfl⟩
      case int =>
        cases v <;> simp only [] at h <;> try cases h
        case int n =>
          split_ifs at h with hr <;> try cases h
          refine ⟨by omega, ?_⟩
          intro pos max hroom
          simp only [write_schema, write_schema_step]
          have he : pos + (s0 + (size_long n : Int) - s0).toNat = pos + size_long n := by omega
          rw [he] at hroom ⊢
          exact wlift_adv ⟨_, by unfold write_int; exact write_long_advance pos max n (by omega)⟩
        case bool b =>
          refine ⟨by omega, ?_⟩
          intro pos max hroom
          simp only [write_schema, write_schema_step]
          have he : pos + (s0 + (size_long (if b = true then (1 : Int) else 0) : Int) - s0).toNat =
              pos + size_long (if b = true then (1 : Int) else 0) := by omega
          rw [he] at hroom ⊢
          exact wlift_adv ⟨_, by unfold write_int; exact write_long_advance pos max _ (by omega)⟩
      case long =>
        cases v <;> simp only [] at h <;> try cases h
        case int n =>
          split_ifs at h with hr <;> try cases h
          refine ⟨by omega, ?_⟩
          intro pos max hroom
          simp only [write_schema, write_schema_step]
          have he : pos + (s0 + (size_long n : Int) - s0).toNat = pos + size_long n := by omega
          rw [he] at hroom ⊢
          exact wlift_adv ⟨_, write_long_advance pos max n (by omega)⟩
        case bool b =>
          refine ⟨by omega, ?_⟩
          intro pos max hroom
          simp only [write_schema, write_schema_step]
          have he : pos + (s0 + (size_long (if b = true then (1 : Int) else 0) : Int) - s0).toNat =
              pos + size_long (if b = true then (1 : Int) else 0) := by omega
          rw [he] at hroom ⊢
          exact wlift_adv ⟨_, write_long_advance pos max _ (by omega)⟩
      case string =>
        cases v <;> simp only [prepare_string_py] at h <;> try cases h
        case str b =>
          refine ⟨by omega, ?_⟩
          intro pos max hroom
          simp only [write_schema, write_schema_step]
          have he : pos + (s0 + (size_long (b.length : Int) : Int) + (b.length : Int) - s0).toNat =
              pos + size_long (b.length : Int) + ((b.length : Int)).toNat := by omega
          rw [he] at hroom ⊢
          exact wlift_adv (write_bytes_advance pos max b (b.length : Int) (by omega) (by omega))
      case array f =>
        cases v
        all_goals try simp only [] at h
        all_goals try cases h
        case list xs =>
          cases hc : prepare_array_items (prepare_schema fuel f) xs 0 s0 <;>
            simp only [hc] at h <;> try cases h
          case ok ps s2 =>
            have hq : ∀ q ∈ ps, ValidPrep q := by cases hv; assumption
            have H : ∀ (v2 : PyVal) (a : Int) (p2 : Prepared) (b2 : Int),
                prepare_schema fuel f v2 a = .ok p2 b2 → ValidPrep p2 →
                a ≤ b2 ∧ ∀ (pos max : Nat), pos + (b2 - a).toNat < max →
                  WSAdv (write_schema fuel max f p2 pos) (pos + (b2 - a).toNat) :=
              fun v2 a p2 b2 hp2 hv2 => ih f v2 a p2 b2 hp2 hv2
            obtain ⟨hm2, hlen, hw2⟩ := array_items_agree (prepare_schema fuel f)
              (fun m => write_schema fuel m f) H xs 0 s0 ps s2 hc hq
            cases xs with
            | nil =>
                simp only [prepare_array_items] at hc
                cases hc
                have h1 : ((size_long ((List.length ([] : List PyVal) : Nat) : Int)) : Int) = 1 := rfl
                have h2 : (if 0 < List.length ([] : List PyVal) then (1 : Int) else 0) = 0 := rfl
                rw [h1, h2]
                refine ⟨by omega, ?_⟩
                intro pos max hroom
                simp only [write_schema, write_schema_step]
                have he : pos + (s0 + 1 + 0 - s0).toNat = pos + 1 := by omega
                rw [he] at hroom ⊢
                refine wsseq_adv (wlift_adv (write_size_one pos max _ rfl (by omega))) ?_
                exact ⟨[], by simp⟩
            | cons x xs2 =>
                have hpad : (if 0 < List.length (x :: xs2) then (1 : Int) else 0) = 1 := by simp
                rw [hpad]
                refine ⟨by omega, ?_⟩
                intro pos max hroom
                simp only [write_schema, write_schema_step]
                rw [hlen]
                have he : pos + (s2 + ((size_long ((List.length (x :: xs2) : Nat) : Int)) : Int) + 1 - s0).toNat =
                    pos + size_long ((List.length (x :: xs2) : Nat) : Int) + (s2 - s0).toNat + 1 := by
                  omega
                rw [he] at hroom ⊢
                refine wsseq_adv (wlift_adv ⟨_, write_long_advance pos max _ (by omega)⟩) ?_
                have hne : ¬(List.length (x :: xs2) = 0) := by simp
                rw [if_neg hne]
                refine wsseq_adv (hw2 _ max (by omega)) ?_
                exact wlift_adv (write_size_one _ max 0 rfl (by omega))
        case tuple xs =>
          cases hc : prepare_array_items (prepare_schema fuel f) xs 0 s0 <;>
            simp only [hc] at h <;> try cases h
          case ok ps s2 =>
            have hq : ∀ q ∈ ps, ValidPrep q := by cases hv; assumption
            have H : ∀ (v2 : PyVal) (a : Int) (p2 : Prepared) (b2 : Int),
                prepare_schema fuel f v2 a = .ok p2 b2 → ValidPrep p2 →
                a ≤ b2 ∧ ∀ (pos max : Nat), pos + (b2 - a).toNat < max →
                  WSAdv (write_schema fuel max f p2 pos) (pos + (b2 - a).toNat) :=
              fun v2 a p2 b2 hp2 hv2 => ih f v2 a p2 b2 hp2 hv2
            obtain ⟨hm2, hlen, hw2⟩ := array_items_agree (prepare_schema fuel f)
              (fun m => write_schema fuel m f) H xs 0 s0 ps s2 hc hq
            cases xs with
            | nil =>
                simp only [prepare_array_items] at hc
                cases hc
                have h1 : ((size_long ((List.length ([] : List PyVal) : Nat) : Int)) : Int) = 1 := rfl
                have h2 : (if 0 < List.length ([] : List PyVal) then (1 : Int) else 0) = 0 := rfl
                rw [h1, h2]
                refine ⟨by omega, ?_⟩
                intro pos max hroom
                simp only [write_schema, write_schema_step]
                have he : pos + (s0 + 1 + 0 - s0).toNat = pos + 1 := by omega
                rw [he] at hroom ⊢
                refine wsseq_adv (wlift_adv (write_size_one pos max _ rfl (by omega))) ?_
                exact ⟨[], by simp⟩
            | cons x xs2 =>
                have hpad : (if 0 < List.length (x :: xs2) then (1 : Int) else 0) = 1 := by simp
                rw [hpad]
                refine ⟨by omega, ?_⟩
                intro pos max hroom
                simp only [write_schema, write_schema_step]
                rw [hlen]
                have he : pos + (s2 + ((size_long ((List.length (x :: xs2) : Nat) : Int)) : Int) + 1 - s0).toNat =
                    pos + size_long ((List.length (x :: xs2) : Nat) : Int) + (s2 - s0).toNat + 1 := by
                  omega
                rw [he] at hroom ⊢
                refine wsseq_adv (wlift_adv ⟨_, write_long_advance pos max _ (by omega)⟩) ?_
                have hne : ¬(List.length (x :: xs2) = 0) := by simp
                rw [if_neg hne]
                refine wsseq_adv (hw2 _ max (by omega)) ?_
                exact wlift_adv (write_size_one _ max 0 rfl (by omega))
      case map f =>
        cases v
        all_goals try simp only [] at h
        all_goals try cases h
        case dict kvs =>
          cases hc : prepare_map_items (prepare_schema fuel f) kvs s0 <;>
            simp only [hc] at h <;> try cases h
          case ok ps s2 =>
            have hq : ∀ kv2 ∈ ps, ValidPrep kv2.2 := by cases hv; assumption
            have H : ∀ (v2 : PyVal) (a : Int) (p2 : Prepared) (b2 : Int),
                prepare_schema fuel f v2 a = .ok p2 b2 → ValidPrep p2 →
                a ≤ b2 ∧ ∀ (pos max : Nat), pos + (b2 - a).toNat < max →
                  WSAdv (write_schema fuel max f p2 pos) (pos + (b2 - a).toNat) :=
              fun v2 a p2 b2 hp2 hv2 => ih f v2 a p2 b2 hp2 hv2
            obtain ⟨hm2, hlen, hw2⟩ := map_items_agree (prepare_schema fuel f)
              (fun m => write_schema fuel m f) H kvs s0 ps s2 hc hq
            cases kvs with
            | nil =>
                simp only [prepare_map_items] at hc
                cases hc
                have h1 : ((size_long ((List.length ([] : List (PyVal × PyVal)) : Nat) : Int)) : Int) = 1 := rfl
                have h2 : (if 0 < List.length ([] : List (PyVal × PyVal)) then (1 : Int) else 0) = 0 := rfl
                rw [h1, h2]
                refine ⟨by omega, ?_⟩
                intro pos max hroom
                simp only [write_schema, write_schema_step]
                have he : pos + (s0 + 1 + 0 - s0).toNat = pos + 1 := by omega
                rw [he] at hroom ⊢
                refine wsseq_adv (wlift_adv (write_size_one pos max _ rfl (by omega))) ?_
                exact ⟨[], by simp⟩
            | cons kv kvs2 =>
                have hpad : (if 0 < List.length (kv :: kvs2) then (1 : Int) else 0) = 1 := by simp
                rw [hpad]
                refine ⟨by omega, ?_⟩
                intro pos max hroom
                simp only [write_schema, write_schema_step]
                rw [hlen]
                have he : pos + (s2 + ((size_long ((List.length (kv :: kvs2) : Nat) : Int)) : Int) + 1 - s0).toNat =
                    pos + size_long ((List.length (kv :: kvs2) : Nat) : Int) + (s2 - s0).toNat + 1 := by
                  omega
                rw [he] at hroom ⊢
                refine wsseq_adv (wlift_adv ⟨_, write_long_advance pos max _ (by omega)⟩) ?_
                have hne : ¬(List.length (kv :: kvs2) = 0) := by simp
                rw [if_neg hne]
                refine wsseq_adv (hw2 _ max (by omega)) ?_
                exact wlift_adv (write_size_one _ max 0 rfl (by omega))
      case record fields =>
        cases v
        all_goals try simp only [] at h
        all_goals try cases h
        case dict kvs =>
          cases hc : prepare_record_fields (prepare_schema fuel) kvs fields s0 0 <;>
            simp only [hc] at h <;> try cases h
          case ok ps s2 found =>
            split_ifs at h with hcnt <;> try cases h
            have hq : ∀ q ∈ ps, ValidPrep q := by cases hv; assumption
            have H : ∀ (f2 : SchemaNode) (v2 : PyVal) (a : Int) (p2 : Prepared) (b2 : Int),
                prepare_schema fuel f2 v2 a = .ok p2 b2 → ValidPrep p2 →
                a ≤ b2 ∧ ∀ (pos max : Nat), pos + (b2 - a).toNat < max →
                  WSAdv (write_schema fuel max f2 p2 pos) (pos + (b2 - a).toNat) :=
              fun f2 v2 a p2 b2 hp2 hv2 => ih f2 v2 a p2 b2 hp2 hv2
            obtain ⟨hm2, hlen, hw2⟩ := record_fields_agree (prepare_schema fuel)
              (fun m => write_schema fuel m) H kvs fields s0 0 ps s1 found hc hq
            refine ⟨hm2, ?_⟩
            intro pos max hroom
            simp only [write_schema, write_schema_step]
            exact hw2 pos max hroom
      case object =>
        cases v
        all_goals try simp only [] at h
        all_goals try cases h
        case tuple xs =>
          match xs with
          | [] =>
              simp only [] at h
              cases h
              refine ⟨by omega, ?_⟩
              intro pos max hroom
              simp only [write_schema, write_schema_step]
              have he : pos + (s0 + 1 - s0).toNat = pos + 1 := by omega
              rw [he] at hroom ⊢
              exact wlift_adv (write_size_one pos max 0 rfl (by omega))
          | [x] => simp only [] at h <;> cases h
          | ty :: ob :: rest =>
              simp only [] at h
              cases ty
              all_goals try simp only [] at h
              all_goals try cases h
              case schema sub =>
                cases hc : prepare_schema fuel sub ob 0 <;> simp only [hc] at h <;> try cases h
                case ok q osize =>
                  have hq : ValidPrep q := by cases hv; assumption
                  obtain ⟨hm1, hw1⟩ := ih sub ob 0 q osize hc hq
                  refine ⟨by omega, ?_⟩
                  intro pos max hroom
                  simp only [write_schema, write_schema_step]
                  have he : pos + (s0 + osize + ((size_long osize : Nat) : Int) - s0).toNat =
                      pos + size_long osize + (osize - 0).toNat := by omega
                  rw [he] at hroom ⊢
                  refine wsseq_adv (wlift_adv ⟨_, write_long_advance pos max osize (by omega)⟩) ?_
                  exact hw1 _ max (by omega)
              case recordType t =>
                cases ob
                all_goals try simp only [] at h
                all_goals try cases h
                case record r =>
                  split_ifs at h with ht <;> try cases h
                  have hvr : valid_record r = true := by cases hv; assumption
                  have hnn := size_record_nonneg r hvr
                  refine ⟨by omega, ?_⟩
                  intro pos max hroom
                  simp only [write_schema, write_schema_step]
                  have he : pos + (s0 + size_record r +
                      ((size_long (size_record r) : Nat) : Int) - s0).toNat =
                      pos + size_long (size_record r) + (size_record r).toNat := by omega
                  rw [he] at hroom ⊢
                  refine wsseq_adv (wlift_adv ⟨_, write_long_advance pos max _ (by omega)⟩) ?_
                  exact wlift_adv (write_record_advance _ max r hvr (by omega))
      case object_array =>
        cases v
        all_goals try simp only [] at h
        all_goals try cases h
        case tuple xs =>
          match xs with
          | [] =>
              simp only [] at h
              cases h
              refine ⟨by omega, ?_⟩
              intro pos max hroom
              simp only [write_schema, write_schema_step]
              have he : pos + (s0 + 1 - s0).toNat = pos + 1 := by omega
              rw [he] at hroom ⊢
              exact wlift_adv (write_size_one pos max 0 rfl (by omega))
          | [ty] => simp only [] at h <;> cases h
          | [ty, obs] =>
              simp only [] at h
              cases ty
              all_goals try simp only [] at h
              all_goals try cases h
              case schema sub =>
                cases obs
                all_goals try simp only [] at h
                all_goals try cases h
                case list xs2 =>
                  cases hc : prep_objarr_schema_items (prepare_schema fuel sub) xs2 0 s0 <;>
                    simp only [hc] at h <;> try cases h
                  case ok items s2 =>
                    have hq : ∀ it ∈ items, ValidPrep it.2 := by cases hv; assumption
                    have H : ∀ (v2 : PyVal) (a : Int) (p2 : Prepared) (b2 : Int),
                        prepare_schema fuel sub v2 a = .ok p2 b2 → ValidPrep p2 →
                        a ≤ b2 ∧ ∀ (pos max : Nat), pos + (b2 - a).toNat < max →
                          WSAdv (write_schema fuel max sub p2 pos) (pos + (b2 - a).toNat) :=
                      fun v2 a p2 b2 hp2 hv2 => ih sub v2 a p2 b2 hp2 hv2
                    obtain ⟨hm2, hlen, hw2⟩ := objarr_schema_items_agree (prepare_schema fuel sub)
                      (fun m => write_schema fuel m sub) H xs2 0 s0 items s2 hc hq
                    cases xs2 with
                    | nil =>
                        simp only [prep_objarr_schema_items] at hc
                        cases hc
                        have h1 : ((size_long ((List.length ([] : List PyVal) : Nat) : Int)) : Int) = 1 := rfl
                        have h2 : (if 0 < List.length ([] : List PyVal) then (1 : Int) else 0) = 0 := rfl
                        rw [h1, h2]
                        refine ⟨by omega, ?_⟩
                        intro pos max hroom
                        simp only [write_schema, write_schema_step]
                        have he : pos + (s0 + 1 + 0 - s0).toNat = pos + 1 := by omega
                        rw [he] at hroom ⊢
                        refine wsseq_adv (wlift_adv (write_size_one pos max _ rfl (by omega))) ?_
                        exact ⟨[], by simp⟩
                    | cons x xs3 =>
                        have hpad : (if 0 < List.length (x :: xs3) then (1 : Int) else 0) = 1 := by simp
                        rw [hpad]
                        refine ⟨by omega, ?_⟩
                        intro pos max hroom
                        simp only [write_schema, write_schema_step]
                        rw [hlen]
                        have he : pos + (s2 + ((size_long ((List.length (x :: xs3) : Nat) : Int)) : Int) + 1 - s0).toNat =
                            pos + size_long ((List.length (x :: xs3) : Nat) : Int) + (s2 - s0).toNat + 1 := by
                          omega
                        rw [he] at hroom ⊢
                        refine wsseq_adv (wlift_adv ⟨_, write_long_advance pos max _ (by omega)⟩) ?_
                        have hne : ¬(List.length (x :: xs3) = 0) := by simp
                        rw [if_neg hne]
                        refine wsseq_adv (hw2 _ max (by omega)) ?_
                        exact wlift_adv (write_size_one _ max 0 rfl (by omega))
                case tuple xs2 =>
                  cases hc : prep_objarr_schema_items (prepare_schema fuel sub) xs2 0 s0 <;>
                    simp only [hc] at h <;> try cases h
                  case ok items s2 =>
                    have hq : ∀ it ∈ items, ValidPrep it.2 := by cases hv; assumption
                    have H : ∀ (v2 : PyVal) (a : Int) (p2 : Prepared) (b2 : Int),
                        prepare_schema fuel sub v2 a = .ok p2 b2 → ValidPrep p2 →
                        a ≤ b2 ∧ ∀ (pos max : Nat), pos + (b2 - a).toNat < max →
                          WSAdv (write_schema fuel max sub p2 pos) (pos + (b2 - a).toNat) :=
                      fun v2 a p2 b2 hp2 hv2 => ih sub v2 a p2 b2 hp2 hv2
                    obtain ⟨hm2, hlen, hw2⟩ := objarr_schema_items_agree (prepare_schema fuel sub)
                      (fun m => write_schema fuel m sub) H xs2 0 s0 items s2 hc hq
                    cases xs2 with
                    | nil =>
                        simp only [prep_objarr_schema_items] at hc
                        cases hc
                        have h1 : ((size_long ((List.length ([] : List PyVal) : Nat) : Int)) : Int) = 1 := rfl
                        have h2 : (if 0 < List.length ([] : List PyVal) then (1 : Int) else 0) = 0 := rfl
                        rw [h1, h2]
                        refine ⟨by omega, ?_⟩
                        intro pos max hroom
                        simp only [write_schema, write_schema_step]
                        have he : pos + (s0 + 1 + 0 - s0).toNat = pos + 1 := by omega
                        rw [he] at hroom ⊢
                        refine wsseq_adv (wlift_adv (write_size_one pos max _ rfl (by omega))) ?_
                        exact ⟨[], by simp⟩
                    | cons x xs3 =>
                        have hpad : (if 0 < List.length (x :: xs3) then (1 : Int) else 0) = 1 := by simp
                        rw [hpad]
                        refine ⟨by omega, ?_⟩
                        intro pos max hroom
                        simp only [write_schema, write_schema_step]
                        rw [hlen]
                        have he : pos + (s2 + ((size_long ((List.length (x :: xs3) : Nat) : Int)) : Int) + 1 - s0).toNat =
                            pos + size_long ((List.length (x :: xs3) : Nat) : Int) + (s2 - s0).toNat + 1 := by
                          omega
                        rw [he] at hroom ⊢
                        refine wsseq_adv (wlift_adv ⟨_, write_long_advance pos max _ (by omega)⟩) ?_
                        have hne : ¬(List.length (x :: xs3) = 0) := by simp
                        rw [if_neg hne]
                        refine wsseq_adv (hw2 _ max (by omega)) ?_
                        exact wlift_adv (write_size_one _ max 0 rfl (by omega))
              case recordType t =>
                cases obs
                all_goals try simp only [] at h
                all_goals try cases h
                case list xs2 =>
                  cases hc : prep_objarr_record_items t xs2 0 s0 <;>
                    simp only [hc] at h <;> try cases h
                  case ok rs s2 =>
                    have hq : ∀ r2 ∈ rs, valid_record r2 = true := by cases hv; assumption
                    obtain ⟨hm2, hlen, hw2⟩ := objarr_records_agree t xs2 0 s0 rs s2 hc hq
                    cases xs2 with
                    | nil =>
                        simp only [prep_objarr_record_items] at hc
                        cases hc
                        have h1 : ((size_long ((List.length ([] : List PyVal) : Nat) : Int)) : Int) = 1 := rfl
                        have h2 : (if 0 < List.length ([] : List PyVal) then (1 : Int) else 0) = 0 := rfl
                        rw [h1, h2]
                        refine ⟨by omega, ?_⟩
                        intro pos max hroom
                        simp only [write_schema, write_schema_step]
                        have he : pos + (s0 + 1 + 0 - s0).toNat = pos + 1 := by omega
                        rw [he] at hroom ⊢
                        refine wsseq_adv (wlift_adv (write_size_one pos max _ rfl (by omega))) ?_
                        exact ⟨[], by simp⟩
                    | cons x xs3 =>
                        have hpad : (if 0 < List.length (x :: xs3) then (1 : Int) else 0) = 1 := by simp
                        rw [hpad]
                        refine ⟨by omega, ?_⟩
                        intro pos max hroom
                        simp only [write_schema, write_schema_step]
                        rw [hlen]
                        have he : pos + (s2 + ((size_long ((List.length (x :: xs3) : Nat) : Int)) : Int) + 1 - s0).toNat =
                            pos + size_long ((List.length (x :: xs3) : Nat) : Int) + (s2 - s0).toNat + 1 := by
                          omega
                        rw [he] at hroom ⊢
                        refine wsseq_adv (wlift_adv ⟨_, write_long_advance pos max _ (by omega)⟩) ?_
                        have hne : ¬(List.length (x :: xs3) = 0) := by simp
                        rw [if_neg hne]
                        refine wsseq_adv (hw2 _ max (by omega)) ?_
                        exact wlift_adv (write_size_one _ max 0 rfl (by omega))
                case tuple xs2 =>
                  cases hc : prep_objarr_record_items t xs2 0 s0 <;>
                    simp only [hc] at h <;> try cases h
                  case ok rs s2 =>
                    have hq : ∀ r2 ∈ rs, valid_record r2 = true := by cases hv; assumption
                    obtain ⟨hm2, hlen, hw2⟩ := objarr_records_agree t xs2 0 s0 rs s2 hc hq
                    cases xs2 with
                    | nil =>
                        simp only [prep_objarr_record_items] at hc
                        cases hc
                        have h1 : ((size_long ((List.length ([] : List PyVal) : Nat) : Int)) : Int) = 1 := rfl
                        have h2 : (if 0 < List.length ([] : List PyVal) then (1 : Int) else 0) = 0 := rfl
                        rw [h1, h2]
                        refine ⟨by omega, ?_⟩
                        intro pos max hroom
                        simp only [write_schema, write_schema_step]
                        have he : pos + (s0 + 1 + 0 - s0).toNat = pos + 1 := by omega
                        rw [he] at hroom ⊢
                        refine wsseq_adv (wlift_adv (write_size_one pos max _ rfl (by omega))) ?_
                        exact ⟨[], by simp⟩
                    | cons x xs3 =>
                        have hpad : (if 0 < List.length (x :: xs3) then (1 : Int) else 0) = 1 := by simp
                        rw [hpad]
                        refine ⟨by omega, ?_⟩
                        intro pos max hroom
                        simp only [write_schema, write_schema_step]
                        rw [hlen]
                        have he : pos + (s2 + ((size_long ((List.length (x :: xs3) : Nat) : Int)) : Int) + 1 - s0).toNat =
                            pos + size_long ((List.length (x :: xs3) : Nat) : Int) + (s2 - s0).toNat + 1 := by
                          omega
                        rw [he] at hroom ⊢
                        refine wsseq_adv (wlift_adv ⟨_, write_long_advance pos max _ (by omega)⟩) ?_
                        have hne : ¬(List.length (x :: xs3) = 0) := by simp
                        rw [if_neg hne]
                        refine wsseq_adv (hw2 _ max (by omega)) ?_
                        exact wlift_adv (write_size_one _ max 0 rfl (by omega))
          | a :: b :: c :: rest => simp only [] at h <;> cases h

/-- Counterexample to C3 as stated: an `object` schema holding a
`RecordType`-typed `Record` with one non-nullable date column.  The
prepare pass succeeds and reports size 12, but the write pass into a
window of exactly 12 remaining bytes fails with `ERR_EOF`: the record's
final two-digit group ends exactly at `max` and `write_digits` checks
`*pos + digits >= max`. -/
theorem Schema_object_exact_fit_write_fails :
    prepare_schema 5 .object
        (.tuple [.recordType ⟨[⟨.date, false⟩]⟩, .record ⟨⟨[⟨.date, false⟩]⟩, [⟨.ival ((encode_date 2024 3 7).getD 0), 0⟩], 0⟩]) 0 =
      .ok (.objRecord ⟨⟨[⟨.date, false⟩]⟩, [⟨.ival ((encode_date 2024 3 7).getD 0), 0⟩], 0⟩) 12 ∧
    write_schema 5 12 .object (.objRecord ⟨⟨[⟨.date, false⟩]⟩, [⟨.ival ((encode_date 2024 3 7).getD 0), 0⟩], 0⟩) 0 = .err .eof :=
  ⟨rfl, rfl⟩

/-- C3 (corrected): for every schema node and every value accepted by the
prepare pass with reported size `n` — with every embedded `Record`
well-formed — the write pass started with strictly more than `n` bytes of
remaining room succeeds and advances the cursor by exactly `n` bytes, for
all kinds (primitives, nullable, array including the trailing zero block
marker, map, record, object, object_array).  At exactly `n` remaining
bytes the write can fail (see the counterexample), so the claim's "at
least n remaining bytes" bound is corrected to "more than n". -/
theorem prepare_size_eq_write_advance :
    ∀ (fuel : Nat) (s : SchemaNode) (v : PyVal) (p : Prepared) (n : Int),
      prepare_schema fuel s v 0 = .ok p n → ValidPrep p →
      ∀ (pos max : Nat), pos + n.toNat < max →
        ∃ bs, write_schema fuel max s p pos = .ok bs (pos + n.toNat) := by
  intro fuel s v p n h hv pos max hroom
  obtain ⟨hm, hw⟩ := prepare_write_agree fuel s v 0 p n h hv
  have he : (n - 0).toNat = n.toNat := by omega
  rw [he] at hw
  exact hw pos max hroom

/-- Witness for C3 at the exact-fit record instance with one extra byte of
room: the write pass advances by exactly the 12 bytes prepare reported. -/
theorem prepare_size_eq_write_advance_witness :
    ∃ bs, write_schema 5 13 .object (.objRecord ⟨⟨[⟨.date, false⟩]⟩, [⟨.ival ((encode_date 2024 3 7).getD 0), 0⟩], 0⟩) 0 =
      .ok bs (0 + (12 : Int).toNat) :=
  prepare_size_eq_write_advance 5 .object
    (.tuple [.recordType ⟨[⟨.date, false⟩]⟩, .record ⟨⟨[⟨.date, false⟩]⟩, [⟨.ival ((encode_date 2024 3 7).getD 0), 0⟩], 0⟩])
    (.objRecord ⟨⟨[⟨.date, false⟩]⟩, [⟨.ival ((encode_date 2024 3 7).getD 0), 0⟩], 0⟩) 12 rfl
    (ValidPrep.objRecord _ (by decide)) 0 13 (by decide)

end Kinetica
